import Mathlib

/-! # NT status code parser: embedding and verified properties

Shallow embedding of `src/src/ParserHead.cpp`, `src/src/ParserDump.cpp` and
`src/src/Emitter.cpp`.

* `llvm::StringRef` is a list of characters; `npos` is `none`.
* `uint32_t`, `uint16_t`, `uint8_t` values are natural numbers, with the
  truncation of a cast written as an explicit `%`.
* `StatusGroup` and `Subgroup` are C++ scoped enums over `uint8_t` and
  `uint16_t`; a `static_cast` can produce any value of the underlying type, so
  both are embedded as their underlying numeric value.
* The parser object is a record that is passed through every member function.
* Diagnostics written to `errs()` are not part of the embedding.
-/

namespace NtCode

/-! ## llvm::StringRef -/

/-- A `llvm::StringRef`: a view of characters. -/
abbrev StringRef := List Char

namespace StringRef

/-- Model of `StringRef::starts_with`. -/
def starts_with (Str Pre : StringRef) : Bool :=
  match Pre, Str with
  | [], _ => true
  | _ :: _, [] => false
  | p :: ps, c :: cs => if c = p then starts_with cs ps else false

/-- Model of `StringRef::find(StringRef)`: offset of the first occurrence,
`none` standing for `npos`. -/
def find (Str ToFind : StringRef) : Option Nat :=
  match Str with
  | [] => if starts_with [] ToFind then some 0 else none
  | c :: cs =>
    if starts_with (c :: cs) ToFind then some 0
    else (find cs ToFind).map (· + 1)

/-- Model of `StringRef::drop_front`. -/
def drop_front (Str : StringRef) (N : Nat) : StringRef := Str.drop N

/-- Model of `StringRef::take_front`. -/
def take_front (Str : StringRef) (N : Nat) : StringRef := Str.take N

/-- Model of `StringRef::consume_front`: the flag and the updated view. -/
def consume_front (Str Pre : StringRef) : Bool × StringRef :=
  if starts_with Str Pre then (true, drop_front Str Pre.length) else (false, Str)

/-- Digit value of a character as computed in `llvm::consumeUnsignedInteger`. -/
def charVal (c : Char) : Option Nat :=
  if '0'.toNat ≤ c.toNat ∧ c.toNat ≤ '9'.toNat then some (c.toNat - '0'.toNat)
  else if 'a'.toNat ≤ c.toNat ∧ c.toNat ≤ 'z'.toNat then some (c.toNat - 'a'.toNat + 10)
  else if 'A'.toNat ≤ c.toNat ∧ c.toNat ≤ 'Z'.toNat then some (c.toNat - 'A'.toNat + 10)
  else none

/-- The digit loop of `llvm::consumeUnsignedInteger` on an `unsigned long long`
accumulator: `none` when the accumulator overflows, otherwise the value and
the unread rest. -/
def consumeDigits (Radix : Nat) : StringRef → Nat → Option (Nat × StringRef)
  | [], Result => some (Result, [])
  | c :: cs, Result =>
    match charVal c with
    | none => some (Result, c :: cs)
    | some CharVal =>
      if CharVal ≥ Radix then some (Result, c :: cs)
      else
        let Next := (Result * Radix + CharVal) % 2 ^ 64
        if Next / Radix < Result then none
        else consumeDigits Radix cs Next

/-- Model of `llvm::consumeUnsignedInteger` for an explicit radix: `none` is
the error return. -/
def consumeUnsignedInteger (Str : StringRef) (Radix : Nat) : Option (Nat × StringRef) :=
  if Str.isEmpty then none
  else
    match consumeDigits Radix Str 0 with
    | none => none
    | some (Result, Str2) =>
      if Str.length = Str2.length then none else some (Result, Str2)

/-- Model of `StringRef::consumeInteger` at type `uint32_t`: an error (`none`)
when no digit is read or the value does not fit 32 bits. -/
def consumeInteger (Str : StringRef) (Radix : Nat) : Option (Nat × StringRef) :=
  match consumeUnsignedInteger Str Radix with
  | none => none
  | some (ULLVal, Str2) =>
    if ULLVal % 2 ^ 32 ≠ ULLVal then none else some (ULLVal, Str2)

end StringRef

/-! ## Parser.hpp -/

/-- Values of `enum class StatusGroup : uint8_t`. -/
abbrev StatusGroup := Nat

def StatusGroup.SUCCESS : StatusGroup := 0x0
def StatusGroup.INFO : StatusGroup := 0x4
def StatusGroup.WARNING : StatusGroup := 0x8
def StatusGroup.ERROR : StatusGroup := 0xC

/-- Values of `enum class Subgroup : uint16_t`. -/
abbrev Subgroup := Nat

def Subgroup.STATUS : Subgroup := 0x000
def Subgroup.WOW : Subgroup := 0x009
def Subgroup.INVALID : Subgroup := 0x00A
def Subgroup.DBG : Subgroup := 0x010
def Subgroup.RPCA : Subgroup := 0x020
def Subgroup.RPCB : Subgroup := 0x030
def Subgroup.PNP : Subgroup := 0x040
def Subgroup.CTX : Subgroup := 0x0A0
def Subgroup.MUI : Subgroup := 0x0B0
def Subgroup.CLUSTER : Subgroup := 0x130
def Subgroup.ACPI : Subgroup := 0x140
def Subgroup.FLT : Subgroup := 0x1C0
def Subgroup.SXS : Subgroup := 0x150
def Subgroup.RECOVERY : Subgroup := 0x190
def Subgroup.LOG : Subgroup := 0x1A0
def Subgroup.VIDEO : Subgroup := 0x1B0
def Subgroup.MONITOR : Subgroup := 0x1D0
def Subgroup.GRAPHICS : Subgroup := 0x1E0
def Subgroup.FVE : Subgroup := 0x210
def Subgroup.FWP : Subgroup := 0x220
def Subgroup.NDISA : Subgroup := 0x230
def Subgroup.NDISB : Subgroup := 0x231
def Subgroup.NDISC : Subgroup := 0x232
def Subgroup.IPSECA : Subgroup := 0x360
def Subgroup.IPSECB : Subgroup := 0x368
def Subgroup.VOLMGR : Subgroup := 0x380
def Subgroup.VIRTDISK : Subgroup := 0x3A0
def Subgroup.RPC : Subgroup := 0xF00
def Subgroup.NDIS : Subgroup := 0xF01
def Subgroup.IPSEC : Subgroup := 0xF02

/-- The record `struct NtStatus`. -/
structure NtStatus where
  Code : Nat
  SG : Subgroup
  Name : StringRef
  Message : StringRef
deriving DecidableEq, Repr

/-- The record `struct StatusCtx`. -/
structure StatusCtx where
  Group : StatusGroup
  SG : Subgroup
deriving DecidableEq, Repr

/-- The data members of `struct NtCodeParser`. `parsedValues` is a
`std::set<uint32_t>`, kept as the list of inserted values (membership is all
the code asks of it). -/
structure NtCodeParser where
  SPBuf : StringRef
  didParseSuccessfully : Bool := false
  parsedValues : List Nat := []
  hadDuplicate : Bool := false
  successes : List NtStatus := []
  infos : List NtStatus := []
  warnings : List NtStatus := []
  errors : List NtStatus := []
deriving DecidableEq, Repr

/-- `NtCodeParser::CodePair`. -/
abbrev CodePair := StatusGroup × NtStatus

/-! ## ParserHead.cpp -/

/-- `ConsumeStatusGroup`: the severity nibble and the updated `GroupAndCode`. -/
def ConsumeStatusGroup (GroupAndCode : Nat) : StatusGroup × Nat :=
  let RawStatus := GroupAndCode &&& 0xF0000000
  let GroupAndCode := GroupAndCode &&& 0x0FFFFFFF
  ((RawStatus >>> (7 * 4)) % 2 ^ 8, GroupAndCode)

/-- `ConsumeStatusCtx`: the decoded context and the updated `GroupAndCode`. -/
def ConsumeStatusCtx (GroupAndCode : Nat) : StatusCtx × Nat :=
  let (G, GroupAndCode) := ConsumeStatusGroup GroupAndCode
  let RawSG := GroupAndCode &&& 0x0FFFF000
  let GroupAndCode := GroupAndCode &&& 0x00000FFF
  let SG := (RawSG >>> (3 * 4)) % 2 ^ 16
  ({ Group := G, SG := SG }, GroupAndCode)

/-- `NtCodeParser::GetSubgroupPrefix`. -/
def GetSubgroupPrefix (SG : Subgroup) : StringRef :=
  match SG with
  | 0x000 => "STATUS".toList
  | 0x009 => "WOW".toList
  | 0x00A => "INVALID".toList
  | 0x010 => "DBG".toList
  | 0x020 => "RPC".toList
  | 0x030 => "RPC".toList
  | 0x040 => "PNP".toList
  | 0x0A0 => "CTX".toList
  | 0x0B0 => "MUI".toList
  | 0x130 => "CLUSTER".toList
  | 0x140 => "ACPI".toList
  | 0x1C0 => "FLT".toList
  | 0x150 => "SXS".toList
  | 0x190 => "RECOVERY".toList
  | 0x1A0 => "LOG".toList
  | 0x1B0 => "VIDEO".toList
  | 0x1D0 => "MONITOR".toList
  | 0x1E0 => "GRAPHICS".toList
  | 0x210 => "FVE".toList
  | 0x220 => "FWP".toList
  | 0x230 => "NDIS".toList
  | 0x231 => "NDIS".toList
  | 0x232 => "NDIS".toList
  | 0x360 => "IPSEC".toList
  | 0x368 => "IPSEC".toList
  | 0x380 => "VOLMGR".toList
  | 0x3A0 => "VIRTDISK".toList
  | _ => []

/-- `NtCodeParser::FindAndConsume`: the flag and the updated `Str`. -/
def FindAndConsume (Str ToFind : StringRef) : Bool × StringRef :=
  match StringRef.find Str ToFind with
  | none => (false, Str)
  | some Off => (true, StringRef.drop_front Str (Off + ToFind.length))

/-- `NtCodeParser::FindAndTake`: the returned view and the updated `Str`. -/
def FindAndTake (Str ToFind : StringRef) : StringRef × StringRef :=
  match StringRef.find Str ToFind with
  | none => ([], Str)
  | some Off =>
    (StringRef.take_front Str Off, StringRef.drop_front Str (Off + ToFind.length))

/-- `NtCodeParser::mapCodeGroup`. -/
def mapCodeGroup (P : NtCodeParser) (Group : StatusGroup) (Code : NtStatus) :
    Bool × NtCodeParser :=
  match Group with
  | 0x0 => (true, { P with successes := P.successes ++ [Code] })
  | 0x4 => (true, { P with infos := P.infos ++ [Code] })
  | 0x8 => (true, { P with warnings := P.warnings ++ [Code] })
  | 0xC => (true, { P with errors := P.errors ++ [Code] })
  | _ => (false, P)

/-- `NtCodeParser::consumeNextSection`. -/
def consumeNextSection (P : NtCodeParser) : Option StringRef × NtCodeParser :=
  match StringRef.find P.SPBuf "<tr>".toList with
  | none => (none, P)
  | some Beg =>
    let P := { P with SPBuf := StringRef.drop_front P.SPBuf Beg }
    let (S, Rest) := FindAndTake P.SPBuf "</tr>".toList
    let P := { P with SPBuf := Rest }
    if !S.isEmpty then (some S, P) else (none, P)

/-- `NtCodeParser::parseSection`. -/
def parseSection (P : NtCodeParser) (Section : StringRef) :
    Option CodePair × NtCodeParser :=
  match FindAndConsume Section "<p>".toList with
  | (false, _) => (none, P)
  | (true, Section) =>
    let Section := (StringRef.consume_front Section "0x".toList).2
    match StringRef.consumeInteger Section 16 with
    | none => (none, P)
    | some (GroupAndCode, Section) =>
      if P.parsedValues.contains GroupAndCode then
        (none, { P with hadDuplicate := true })
      else
        let P := { P with parsedValues := GroupAndCode :: P.parsedValues }
        let (Ctx, GroupAndCode) := ConsumeStatusCtx GroupAndCode
        if (GetSubgroupPrefix Ctx.SG).isEmpty then (none, P)
        else
          match FindAndConsume Section "<p>".toList with
          | (false, _) => (none, P)
          | (true, Section) =>
            match StringRef.find Section "</p>".toList with
            | none => (none, P)
            | some NameEnd =>
              let Name := StringRef.take_front Section NameEnd
              let Name := (StringRef.consume_front Name "STATUS_".toList).2
              let Section := (StringRef.consume_front Section "</p>".toList).2
              match FindAndConsume Section "<p>".toList with
              | (false, _) => (none, P)
              | (true, Section) =>
                match StringRef.find Section "</p>".toList with
                | none => (none, P)
                | some MsgEnd =>
                  let Message := StringRef.take_front Section MsgEnd
                  (some (Ctx.Group,
                    { Code := GroupAndCode, SG := Ctx.SG, Name := Name, Message := Message }), P)

/-- The `while` loop of `NtCodeParser::parseFile`, with the local
`ParseSuccess` as an argument. One unit of fuel is spent per call of
`consumeNextSection`; `none` means the fuel ran out. -/
def parseFileLoop : Nat → NtCodeParser → Bool → Option (Bool × NtCodeParser)
  | 0, _, _ => none
  | fuel + 1, P, ParseSuccess =>
    match consumeNextSection P with
    | (none, P) => some (ParseSuccess, { P with didParseSuccessfully := ParseSuccess })
    | (some OSection, P) =>
      match parseSection P OSection with
      | (none, P) =>
        let ParseSuccess := if !P.hadDuplicate then false else ParseSuccess
        parseFileLoop fuel { P with hadDuplicate := false } ParseSuccess
      | (some (G, Code), P) =>
        match mapCodeGroup P G Code with
        | (Mapped, P) =>
          parseFileLoop fuel P (if !Mapped then false else ParseSuccess)

/-- `NtCodeParser::parseFile`: the returned flag and the parser afterwards.
The fuel is the buffer length plus one, which the loop never exhausts. -/
def parseFile (P : NtCodeParser) : Option (Bool × NtCodeParser) :=
  parseFileLoop (P.SPBuf.length + 1) P true

/-- `NtCodeParser::parseSuccessful`. -/
def parseSuccessful (P : NtCodeParser) : Bool := P.didParseSuccessfully

/-- The constructor `NtCodeParser(MemoryBufferRef)`. -/
def NtCodeParser.ofBuffer (Buf : StringRef) : NtCodeParser := { SPBuf := Buf }

/-! ## ParserDump.cpp: the large group threshold -/

/-- Initial value of the file-level `largeGroupSize`. -/
def largeGroupSizeDefault : Nat := 64

/-- Conversion of a signed argument to `size_t` (64 bits). -/
def toSizeT (N : Int) : Nat := (N % 2 ^ 64).toNat

/-- `NtCodeParser::IsLargeGroup`; the file-level `largeGroupSize` is the first
argument. -/
def IsLargeGroup (largeGroupSize : Nat) (Statuses : List NtStatus) : Bool :=
  Statuses.length > largeGroupSize

/-- `NtCodeParser::GetLargeGroupSize`. -/
def GetLargeGroupSize (largeGroupSize : Nat) : Nat := largeGroupSize

/-- `NtCodeParser::SetLargeGroupSize`: the new value of `largeGroupSize`. -/
def SetLargeGroupSize (_largeGroupSize : Nat) (Size : Nat) : Nat := Size

/-! ## Emitter.cpp -/

/-- The data members of `struct GroupEmitter`. `OS` is the text written to the
output stream so far. The coloured text that `idbgs()` adds when the stream is
a terminal is not part of the embedding. -/
structure GroupEmitter where
  OS : StringRef := []
  isDebug : Bool := false
  didEmitSuccessfully : Bool := true
  failures : List StringRef := []
  groupName : StringRef := []
  storedMsg : StringRef := []
deriving DecidableEq, Repr

/-- `raw_ostream::indent`. -/
def indent (N : Nat) : StringRef := List.replicate N ' '

/-- Text of `raw_ostream << llvm::format_hex(N, Width, true)`: the prefix `0x`
and upper-case digits, zero-padded to `Width` characters in all. -/
def format_hex (N Width : Nat) : StringRef :=
  let Digits := (Nat.toDigits 16 N).map Char.toUpper
  "0x".toList ++ List.replicate (Width - 2 - Digits.length) '0' ++ Digits

/-- `GetGroupName`. -/
def GetGroupName (Group : StatusGroup) : StringRef :=
  match Group with
  | 0x0 => "Success".toList
  | 0x4 => "Info".toList
  | 0x8 => "Warning".toList
  | 0xC => "Error".toList
  | _ => "Unknown".toList

/-- `std::tolower` in the C locale. -/
def tolower (C : Char) : Char := C.toLower

/-- The `while` loop of `MakePascalcase`. `Substr[0]` on an empty segment is
outside the contract of `StringRef::operator[]` and gives `none`; so does
running out of fuel. -/
def MakePascalcaseLoop : Nat → StringRef → StringRef → Option (StringRef × StringRef)
  | 0, _, _ => none
  | fuel + 1, Name, Output =>
    match StringRef.find Name ['_'] with
    | none => some (Name, Output)
    | some Pos =>
      match StringRef.take_front Name Pos with
      | [] => none
      | C0 :: Rest =>
        MakePascalcaseLoop fuel (StringRef.drop_front Name (Pos + 1))
          (Output ++ [C0] ++ Rest.map tolower)

/-- `MakePascalcase`. -/
def MakePascalcase (Name : StringRef) : Option StringRef :=
  match MakePascalcaseLoop (Name.length + 1) Name [] with
  | none => none
  | some (Name, Output) =>
    match Name with
    | [] => some Output
    | C0 :: Rest => some (Output ++ [C0] ++ Rest.map tolower)

/-- `MergeStatusAndCode`. -/
def MergeStatusAndCode (Status : NtStatus) : Nat :=
  let RawSG := (Status.SG <<< (3 * 4)) % 2 ^ 32
  RawSG ||| Status.Code

/-- `FormatMergedCode`, as the text it prints. -/
def FormatMergedCode (Status : NtStatus) : StringRef :=
  format_hex (MergeStatusAndCode Status) 8

/-- The `while` loop of `GroupEmitter::formatMessage`; `none` when the fuel
runs out. -/
def formatMessageLoop : Nat → StringRef → StringRef → Option (StringRef × StringRef)
  | 0, _, _ => none
  | fuel + 1, Msg, storedMsg =>
    match StringRef.find Msg "\r\n".toList with
    | none => some (Msg, storedMsg)
    | some Pos =>
      formatMessageLoop fuel (StringRef.drop_front Msg (Pos + 2))
        (storedMsg ++ StringRef.take_front Msg Pos)

/-- `GroupEmitter::formatMessage`: the returned text and the emitter. -/
def formatMessage (E : GroupEmitter) (Status : NtStatus) :
    Option (StringRef × GroupEmitter) :=
  match formatMessageLoop (Status.Message.length + 1) Status.Message [] with
  | none => none
  | some (Msg, storedMsg) =>
    some (storedMsg ++ Msg, { E with storedMsg := storedMsg ++ Msg })

/-- `GroupEmitter::emitTableValue`. -/
def emitTableValue (E : GroupEmitter) (Status : NtStatus) (NoComma : Bool) :
    Option GroupEmitter :=
  match MakePascalcase Status.Name with
  | none => none
  | some Pascal =>
    match formatMessage E Status with
    | none => none
    | some (Msg, E) =>
      some { E with OS := E.OS ++ indent 4 ++ "$NewPErr(\"".toList ++ Pascal ++ ['\"']
        ++ ", \"".toList ++ Msg ++ "\")".toList
        ++ (if NoComma then [] else ",".toList) ++ ['\n'] }

/-- The `for` loop of `GroupEmitter::emitTable`. -/
def emitTableValues (E : GroupEmitter) : List NtStatus → Option GroupEmitter
  | [] => some E
  | Status :: Rest =>
    match emitTableValue E Status false with
    | none => none
    | some E => emitTableValues E Rest

/-- `GroupEmitter::emitTable`. `drop_back` and `back` of an empty span are
outside the contract of `ArrayRef` and give `none`. -/
def emitTable (E : GroupEmitter) (Statuses : List NtStatus) (Name : StringRef) :
    Option GroupEmitter :=
  match Statuses.getLast? with
  | none => none
  | some Back =>
    let E := { E with OS := E.OS ++ indent 2 ++ "static constexpr IOpaqueError ".toList
      ++ Name ++ "[] \x7b\n".toList }
    match emitTableValues E Statuses.dropLast with
    | none => none
    | some E =>
      match emitTableValue E Back true with
      | none => none
      | some E => some { E with OS := E.OS ++ indent 2 ++ "\x7d;\n\n".toList }

/-- `GroupEmitter::emitSwitchValue`. -/
def emitSwitchValue (E : GroupEmitter) (Status : NtStatus) (TableName : StringRef)
    (Ix : Nat) : GroupEmitter :=
  { E with OS := E.OS ++ indent 5 ++ "case ".toList ++ FormatMergedCode Status
      ++ ": return &".toList ++ TableName ++ "[".toList ++ (Nat.toDigits 10 Ix)
      ++ "];\n".toList }

/-- The `for` loop of `GroupEmitter::emitSwitch`, from index `Ix` on. -/
def emitSwitchValues (E : GroupEmitter) (TableName : StringRef) :
    List NtStatus → Nat → GroupEmitter
  | [], _ => E
  | Status :: Rest, Ix =>
    emitSwitchValues (emitSwitchValue E Status TableName Ix) TableName Rest (Ix + 1)

/-- `GroupEmitter::emitSwitch`. -/
def emitSwitch (E : GroupEmitter) (Statuses : List NtStatus) (TableName : StringRef) :
    GroupEmitter :=
  let E := { E with OS := E.OS ++ indent 4 ++ "switch (ID) \x7b\n".toList }
  let E := emitSwitchValues E TableName Statuses 0
  let E := { E with OS := E.OS ++ indent 5 ++ "default: return nullptr;\n".toList }
  { E with OS := E.OS ++ indent 4 ++ "\x7d\n".toList }

/-- `GroupEmitter::emitTableSwitchPair`. -/
def emitTableSwitchPair (E : GroupEmitter) (Statuses : List NtStatus)
    (FuncName _TableName : StringRef) : Option GroupEmitter :=
  match emitTable E Statuses "table".toList with
  | none => none
  | some E =>
    let E := { E with OS := E.OS ++ indent 2 ++ "static OpaqueError ".toList
      ++ FuncName ++ "(OpqErrorID ID) \x7b\n".toList }
    let E := emitSwitch E Statuses "table".toList
    some { E with OS := E.OS ++ indent 2 ++ "\x7d\n".toList }

/-- `GroupEmitter::linearEmit`. -/
def linearEmit (E : GroupEmitter) (_G : StatusGroup) (Statuses : List NtStatus) :
    Option (Bool × GroupEmitter) :=
  let E := { E with OS := E.OS ++ "#define CURR_SEVERITY ".toList ++ E.groupName ++ "\n".toList }
  let E := { E with OS := E.OS ++ "struct _".toList ++ E.groupName ++ "Group \x7b\n".toList }
  match emitTableSwitchPair E Statuses "Get".toList "table".toList with
  | none => none
  | some E =>
    some (true, { E with OS := E.OS ++ "\x7d;\n".toList ++ "#undef CURR_SEVERITY\n\n".toList })

/-- `GroupEmitter::groupedEmit`. -/
def groupedEmit (E : GroupEmitter) (_G : StatusGroup) (_Statuses : List NtStatus) :
    Option (Bool × GroupEmitter) :=
  let WasSuccessful := true
  let WasSuccessful := WasSuccessful && false
  some (WasSuccessful, E)

/-- `GroupEmitter::doEmit`. -/
def doEmit (largeGroupSize : Nat) (E : GroupEmitter) (G : StatusGroup)
    (Statuses : List NtStatus) : Option (Bool × GroupEmitter) :=
  if IsLargeGroup largeGroupSize Statuses then groupedEmit E G Statuses
  else linearEmit E G Statuses

/-- `GroupEmitter::emit`. -/
def emit (largeGroupSize : Nat) (E : GroupEmitter) (G : StatusGroup)
    (Statuses : List NtStatus) : Option GroupEmitter :=
  let E := { E with groupName := GetGroupName G }
  match doEmit largeGroupSize E G Statuses with
  | none => none
  | some (Emitted, E) =>
    if !Emitted then
      some { E with didEmitSuccessfully := false, failures := E.failures ++ [E.groupName] }
    else some E

/-- `GroupEmitter::emitSuccessful`. -/
def emitSuccessful (E : GroupEmitter) : Bool := E.didEmitSuccessfully

/-- `GroupEmitter::getFailures`. -/
def getFailures (E : GroupEmitter) : List StringRef := E.failures

/-- The first record of the end-to-end example. -/
def exampleRecordSuccess : StringRef :=
  ("<tr><p>0x00000000</p><p>STATUS_SUCCESS</p>"
    ++ "<p>The operation completed successfully.</p></tr>").toList

/-- The second record of the end-to-end example. -/
def exampleRecordError : StringRef :=
  ("<tr><p>0xC0000005</p><p>STATUS_ACCESS_VIOLATION</p>"
    ++ "<p>The instruction referenced invalid memory.</p></tr>").toList

/-- The stored record expected for the first example record. -/
def exampleSuccess : NtStatus :=
  { Code := 0, SG := Subgroup.STATUS, Name := "SUCCESS".toList,
    Message := "The operation completed successfully.".toList }

/-- The stored record expected for the second example record. -/
def exampleError : NtStatus :=
  { Code := 5, SG := Subgroup.STATUS, Name := "ACCESS_VIOLATION".toList,
    Message := "The instruction referenced invalid memory.".toList }

/-- The calls `emit(SUCCESS, successes)` and then `emit(ERROR, errors)` on a
freshly constructed emitter whose stream is not a terminal. -/
def emitSuccessThenError (largeGroupSize : Nat) (P : NtCodeParser) : Option GroupEmitter :=
  match emit largeGroupSize {} StatusGroup.SUCCESS P.successes with
  | none => none
  | some E => emit largeGroupSize E StatusGroup.ERROR P.errors

/-- The raw facility values listed in `enum class Subgroup` before the meta
groups. -/
def knownFacilities : List Subgroup :=
  [0x000, 0x009, 0x00A, 0x010, 0x020, 0x030, 0x040, 0x0A0, 0x0B0, 0x130, 0x140, 0x1C0,
   0x150, 0x190, 0x1A0, 0x1B0, 0x1D0, 0x1E0, 0x210, 0x220, 0x230, 0x231, 0x232, 0x360,
   0x368, 0x380, 0x3A0]

/-- The packing scheme severity (4 bits), subgroup (16 bits), code (12 bits). -/
def pack (Group : StatusGroup) (SG : Subgroup) (Code : Nat) : Nat :=
  (Group <<< 28) ||| (SG <<< 12) ||| Code

/-! ## The run of `parseFile` as a sequence of record slices -/

/-- The slices that successive calls of `consumeNextSection` return on a
buffer, in order; one unit of fuel per call. -/
def sectionsLoop : Nat → StringRef → List StringRef
  | 0, _ => []
  | fuel + 1, Buf =>
    match consumeNextSection (NtCodeParser.ofBuffer Buf) with
    | (none, _) => []
    | (some S, P) => S :: sectionsLoop fuel P.SPBuf

/-- The record slices the scanner produces for a buffer. -/
def sections (Buf : StringRef) : List StringRef := sectionsLoop (Buf.length + 1) Buf

/-- The cursor left behind by the call of `consumeNextSection` that ends the
scan. -/
def scanRestLoop : Nat → StringRef → StringRef
  | 0, Buf => Buf
  | fuel + 1, Buf =>
    match consumeNextSection (NtCodeParser.ofBuffer Buf) with
    | (none, P) => P.SPBuf
    | (some _, P) => scanRestLoop fuel P.SPBuf

/-- The cursor after the scan of a whole buffer. -/
def scanRest (Buf : StringRef) : StringRef := scanRestLoop (Buf.length + 1) Buf

/-- The body of the `while` loop of `parseFile` for one slice, on the parser
and the local `ParseSuccess`. -/
def processSection (St : NtCodeParser × Bool) (Section : StringRef) : NtCodeParser × Bool :=
  match parseSection St.1 Section with
  | (none, P) =>
    ({ P with hadDuplicate := false }, if !P.hadDuplicate then false else St.2)
  | (some (G, Code), P) =>
    match mapCodeGroup P G Code with
    | (Mapped, P) => (P, if !Mapped then false else St.2)

/-- The three outcomes of a record slice. -/
inductive Outcome where
  | Accepted (G : StatusGroup) (Status : NtStatus)
  | DuplicateSkipped
  | Rejected
deriving DecidableEq, Repr

/-- The outcome of one slice in `parseFile`: accepted when `parseSection`
returns a pair and `mapCodeGroup` stores it, a skipped duplicate when
`parseSection` returns nothing and raises `hadDuplicate`, rejected otherwise. -/
def sectionOutcome (P : NtCodeParser) (Section : StringRef) : Outcome :=
  match parseSection P Section with
  | (none, P) => if P.hadDuplicate then Outcome.DuplicateSkipped else Outcome.Rejected
  | (some (G, Code), P) =>
    if (mapCodeGroup P G Code).1 then Outcome.Accepted G Code else Outcome.Rejected

/-- The slices of a run paired with their outcomes, starting from a parser
state. -/
def outcomesFrom : NtCodeParser × Bool → List StringRef → List (StringRef × Outcome)
  | _, [] => []
  | St, S :: Rest => (S, sectionOutcome St.1 S) :: outcomesFrom (processSection St S) Rest

/-- The slices of a buffer paired with their outcomes in `parseFile`. -/
def outcomes (Buf : StringRef) : List (StringRef × Outcome) :=
  outcomesFrom (NtCodeParser.ofBuffer Buf, true) (sections Buf)

/-- The records accepted with severity `G`, in the order of the run. -/
def acceptedWith (G : StatusGroup) (Log : List (StringRef × Outcome)) : List NtStatus :=
  Log.filterMap fun e =>
    match e.2 with
    | Outcome.Accepted G1 Status => if G1 = G then some Status else none
    | _ => none

/-- The raw value that `parseSection` reads from the code field of a slice:
the steps of `parseSection` up to `consumeInteger`. -/
def codeField (Section : StringRef) : Option Nat :=
  match FindAndConsume Section "<p>".toList with
  | (false, _) => none
  | (true, Section) =>
    let Section := (StringRef.consume_front Section "0x".toList).2
    match StringRef.consumeInteger Section 16 with
    | none => none
    | some (GroupAndCode, _) => some GroupAndCode

/-- The bucket that `mapCodeGroup` fills for a severity. -/
def bucketOf (P : NtCodeParser) (G : StatusGroup) : List NtStatus :=
  match G with
  | 0x0 => P.successes
  | 0x4 => P.infos
  | 0x8 => P.warnings
  | 0xC => P.errors
  | _ => []

/-- The parser as `parseFile` leaves it: the state reached by the loop, the
final cursor and the stored flag. -/
def finish (St : NtCodeParser × Bool) (Rest : StringRef) : Bool × NtCodeParser :=
  (St.2, { St.1 with SPBuf := Rest, didParseSuccessfully := St.2 })

/-- The four severity nibbles named by `enum class StatusGroup`. -/
def validSeverity (G : StatusGroup) : Prop := G = 0x0 ∨ G = 0x4 ∨ G = 0x8 ∨ G = 0xC

instance (G : StatusGroup) : Decidable (validSeverity G) := by
  unfold validSeverity
  infer_instance

/-- The severity nibble of a raw value: its top four bits. -/
def severityOf (Raw : Nat) : StatusGroup := Raw / 2 ^ 28 % 2 ^ 4

/-- The subgroup bits of a raw value: bits 12 to 27. -/
def subgroupOf (Raw : Nat) : Subgroup := Raw / 2 ^ 12 % 2 ^ 16

/-- The code bits of a raw value: its low 12 bits. -/
def codeOf (Raw : Nat) : Nat := Raw % 2 ^ 12

/-- All accepted records of a run, whatever their severity, in order. -/
def acceptedAll (Log : List (StringRef × Outcome)) : List NtStatus :=
  Log.filterMap fun e =>
    match e.2 with
    | Outcome.Accepted _ Status => some Status
    | _ => none

/-- A well-formed record slice with raw value 0x40000001, as the scanner
returns it. -/
def dupFirst : StringRef := "<tr><p>0x40000001</p><p>STATUS_ONE</p><p>First.</p>".toList

/-- A second well-formed slice with the same raw value and other texts. -/
def dupSecond : StringRef := "<tr><p>0x40000001</p><p>STATUS_TWO</p><p>Second.</p>".toList

/-- A buffer of two records that carry the same raw value. -/
def dupBuffer : StringRef := dupFirst ++ "</tr>".toList ++ dupSecond ++ "</tr>".toList

/-- A buffer of three records: the first and the third are well formed and
the second has no hexadecimal code. -/
def mixedBuffer : StringRef :=
  ("<tr><p>0x00000001</p><p>STATUS_WAIT_1</p><p>One.</p></tr>"
    ++ "<tr><p>none</p><p>STATUS_BROKEN</p><p>Two.</p></tr>"
    ++ "<tr><p>0x80000005</p><p>STATUS_BUFFER_OVERFLOW</p><p>Three.</p></tr>").toList

/-- A slice whose raw value 0x10000005 has the severity nibble 0x1. -/
def badSeveritySlice : StringRef :=
  "<tr><p>0x10000005</p><p>STATUS_ODD</p><p>Odd severity.</p>".toList

/-- A buffer with a valid record followed by the record of `badSeveritySlice`. -/
def badSeverityBuffer : StringRef :=
  "<tr><p>0x00000000</p><p>STATUS_SUCCESS</p><p>Fine.</p></tr>".toList
    ++ badSeveritySlice ++ "</tr>".toList

/-- A slice whose raw value 0xC0F00001 has the subgroup bits 0xF00, the meta
group `RPC`. -/
def badSubgroupSlice : StringRef :=
  "<tr><p>0xC0F00001</p><p>RPC_META</p><p>Meta group.</p>".toList

/-- A buffer with a valid record followed by the record of `badSubgroupSlice`. -/
def badSubgroupBuffer : StringRef :=
  "<tr><p>0x00000000</p><p>STATUS_SUCCESS</p><p>Fine.</p></tr>".toList
    ++ badSubgroupSlice ++ "</tr>".toList

/-- A buffer with one complete record followed by a record that is never
closed. -/
def trailingBuffer : StringRef :=
  ("<tr><p>0x00000000</p><p>STATUS_SUCCESS</p><p>Fine.</p></tr>"
    ++ "<tr><p>0xC0000005</p><p>STATUS_ACCESS_VIOLATION</p><p>Cut off").toList

/-- A buffer with text before, inside and after one record. -/
def scanBuffer : StringRef := "ab<tr>x</tr>y".toList

/-- A buffer whose only `<tr>` is never closed. -/
def unclosedBuffer : StringRef := "ab<tr><p>0x1</p>".toList

/-! ## Message normalisation in plain terms -/

/-- The hard line break: carriage return, line feed. -/
def CRLF : StringRef := ['\r', '\n']

/-- The text with every CRLF found by a left-to-right scan removed; the scan
goes on right after a CRLF it has removed. -/
def stripCRLF : StringRef → StringRef
  | [] => []
  | [c] => [c]
  | c :: d :: t => if c = '\r' ∧ d = '\n' then stripCRLF t else c :: stripCRLF (d :: t)

/-- One more character at the front of the first piece. -/
def consHead (c : Char) : List StringRef → List StringRef
  | [] => [[c]]
  | p :: ps => (c :: p) :: ps

/-- The pieces of a text cut at every CRLF found by the same left-to-right
scan. -/
def crlfPieces : StringRef → List StringRef
  | [] => [[]]
  | [c] => [[c]]
  | c :: d :: t =>
    if c = '\r' ∧ d = '\n' then [] :: crlfPieces t else consHead c (crlfPieces (d :: t))

/-- The pieces put together again with a CRLF between neighbours. -/
def rejoinCRLF : List StringRef → StringRef
  | [] => []
  | [p] => p
  | p :: q :: ps => p ++ '\r' :: '\n' :: rejoinCRLF (q :: ps)

/-- The text made of `k` CRLF in a row. -/
def crlfs : Nat → StringRef
  | 0 => []
  | k + 1 => '\r' :: '\n' :: crlfs k

/-- A carriage return, then `k` CRLF, then a line feed. -/
def crCrlfsLf (k : Nat) : StringRef := '\r' :: (crlfs k ++ ['\n'])

/-- A record that carries only a message. -/
def messageOnly (Message : StringRef) : NtStatus :=
  { Code := 0, SG := 0, Name := [], Message := Message }

/-! ## Pascal-casing in plain terms -/

/-- The segments written one after the other with one `_` between
neighbours. -/
def joinUnderscore : List StringRef → StringRef
  | [] => []
  | [s] => s
  | s :: t :: rest => s ++ '_' :: joinUnderscore (t :: rest)

/-- A segment with its first character kept and every later character
lower-cased. -/
def keepFirstLowerRest : StringRef → StringRef
  | [] => []
  | c :: cs => c :: cs.map tolower

/-- A segment with its first character upper-cased and every later character
lower-cased. -/
def upperFirstLowerRest : StringRef → StringRef
  | [] => []
  | c :: cs => c.toUpper :: cs.map tolower

/-- The last step of `MakePascalcase`, after its loop: the rest of the name is
appended in the same way as a segment. -/
def finishPascalcase (r : StringRef × StringRef) : StringRef :=
  match r.1 with
  | [] => r.2
  | C0 :: Rest => r.2 ++ [C0] ++ Rest.map tolower

/-! ## The text of a linear emission in plain terms -/

/-- The pascal-cased name of a record, as `MakePascalcase` gives it. -/
def pascalOf (Status : NtStatus) : StringRef := (MakePascalcase Status.Name).getD []

/-- The normalised message of a record, as `formatMessage` gives it. -/
def messageOf (Status : NtStatus) : StringRef :=
  ((formatMessage {} Status).map Prod.fst).getD []

/-- One table entry: the constructed value, a comma unless `NoComma`, a line
end. -/
def tableEntry (Status : NtStatus) (NoComma : Bool) : StringRef :=
  indent 4 ++ "$NewPErr(\"".toList ++ pascalOf Status ++ ['\"'] ++ ", \"".toList
    ++ messageOf Status ++ "\")".toList ++ (if NoComma then [] else ",".toList) ++ ['\n']

/-- The table entries of a bucket, in order; only the last has no comma. -/
def tableLines : List NtStatus → List StringRef
  | [] => []
  | [Status] => [tableEntry Status true]
  | Status :: Next :: Rest => tableEntry Status false :: tableLines (Next :: Rest)

/-- One `case` branch: the merged key and the address of table entry `Ix`. -/
def caseBranch (Status : NtStatus) (TableName : StringRef) (Ix : Nat) : StringRef :=
  indent 5 ++ "case ".toList ++ format_hex (MergeStatusAndCode Status) 8
    ++ ": return &".toList ++ TableName ++ "[".toList ++ Nat.toDigits 10 Ix ++ "];\n".toList

/-- The `case` branches of a bucket, in order, numbered from `Ix`. -/
def caseLines (TableName : StringRef) : List NtStatus → Nat → List StringRef
  | [], _ => []
  | Status :: Rest, Ix => caseBranch Status TableName Ix :: caseLines TableName Rest (Ix + 1)

/-- The whole text of a linear emission for a group name and a bucket. -/
def linearText (groupName : StringRef) (Statuses : List NtStatus) : StringRef :=
  "#define CURR_SEVERITY ".toList ++ groupName ++ "\n".toList
    ++ ("struct _".toList ++ groupName ++ "Group \x7b\n".toList)
    ++ (indent 2 ++ "static constexpr IOpaqueError ".toList ++ "table".toList
      ++ "[] \x7b\n".toList)
    ++ (tableLines Statuses).flatten
    ++ (indent 2 ++ "\x7d;\n\n".toList)
    ++ (indent 2 ++ "static OpaqueError ".toList ++ "Get".toList
      ++ "(OpqErrorID ID) \x7b\n".toList)
    ++ (indent 4 ++ "switch (ID) \x7b\n".toList)
    ++ (caseLines "table".toList Statuses 0).flatten
    ++ (indent 5 ++ "default: return nullptr;\n".toList)
    ++ (indent 4 ++ "\x7d\n".toList)
    ++ (indent 2 ++ "\x7d\n".toList)
    ++ ("\x7d;\n".toList ++ "#undef CURR_SEVERITY\n\n".toList)

/-- A sequence of `emit` calls, each with its severity and bucket, run one
after the other on an emitter. -/
def emitAll (largeGroupSize : Nat) :
    GroupEmitter → List (StatusGroup × List NtStatus) → Option GroupEmitter
  | E, [] => some E
  | E, Call :: Rest =>
    match emit largeGroupSize E Call.1 Call.2 with
    | none => none
    | some E => emitAll largeGroupSize E Rest

/-- The buckets on which `linearEmit` gives a result: those that have a
record, as `back` and `drop_back` require, and whose names all lie in the
domain of `MakePascalcase`, where no `Substr[0]` is read from an empty
segment. A bucket that `parseFile` fills need not be of this kind. -/
def renderable (Statuses : List NtStatus) : Prop :=
  Statuses ≠ [] ∧ ∀ s ∈ Statuses, MakePascalcase s.Name ≠ none

/-- A bucket of `n` copies of the first example record. -/
def bucketOfSize (n : Nat) : List NtStatus := List.replicate n exampleSuccess

/-- The bookkeeping fields of the emitter: the success flag, the list of
failed groups and the current group name. -/
def books (E : GroupEmitter) : Bool × List StringRef × StringRef :=
  (E.didEmitSuccessfully, E.failures, E.groupName)

instance (Statuses : List NtStatus) : Decidable (renderable Statuses) := by
  unfold renderable
  infer_instance

/-! ## The code field in plain terms -/

/-- A hexadecimal digit: `0`-`9`, `a`-`f` or `A`-`F`. -/
def isHexDigit (c : Char) : Bool :=
  decide (('0'.toNat ≤ c.toNat ∧ c.toNat ≤ '9'.toNat)
    ∨ ('a'.toNat ≤ c.toNat ∧ c.toNat ≤ 'f'.toNat)
    ∨ ('A'.toNat ≤ c.toNat ∧ c.toNat ≤ 'F'.toNat))

/-- The value of a hexadecimal digit. -/
def hexDigitValue (c : Char) : Nat :=
  if '0'.toNat ≤ c.toNat ∧ c.toNat ≤ '9'.toNat then c.toNat - '0'.toNat
  else if 'a'.toNat ≤ c.toNat ∧ c.toNat ≤ 'f'.toNat then c.toNat - 'a'.toNat + 10
  else c.toNat - 'A'.toNat + 10

/-- The number that hexadecimal digits denote after the digits already read
gave `acc`. -/
def hexValueFrom (acc : Nat) : List Char → Nat
  | [] => acc
  | c :: cs => hexValueFrom (acc * 16 + hexDigitValue c) cs

/-- The number that a list of hexadecimal digits denotes. -/
def hexValue (Digits : List Char) : Nat := hexValueFrom 0 Digits

/-- The longest run of hexadecimal digits at the start of a text. -/
def hexRun (T : StringRef) : StringRef := T.takeWhile isHexDigit

/-- A text without one leading `0x`, if it has one. -/
def strip0x : StringRef → StringRef
  | '0' :: 'x' :: T => T
  | T => T

/-- The text after the first `<p>` of a slice. -/
def codeText (Section : StringRef) : Option StringRef :=
  (StringRef.find Section "<p>".toList).map fun Off => Section.drop (Off + 3)

/-- The number read at the start of a text and the text behind it: the run of
hexadecimal digits must not be empty and must denote a number below 2^32. -/
def hexLiteral (T : StringRef) : Option (Nat × StringRef) :=
  if hexRun T ≠ [] ∧ hexValue (hexRun T) < 2 ^ 32 then
    some (hexValue (hexRun T), T.dropWhile isHexDigit)
  else none

/-- The raw value of `codeField` together with the text that `parseSection`
goes on with after `consumeInteger`. -/
def codeFieldRest (Section : StringRef) : Option (Nat × StringRef) :=
  match FindAndConsume Section "<p>".toList with
  | (false, _) => none
  | (true, Section) =>
    let Section := (StringRef.consume_front Section "0x".toList).2
    StringRef.consumeInteger Section 16

/-- The steps of `parseSection` after the subgroup check, on the decoded
context and the text behind the code: the name and the message. -/
def fieldsAfter (Ctx : StatusCtx) (Code : Nat) (Section : StringRef) : Option CodePair :=
  match FindAndConsume Section "<p>".toList with
  | (false, _) => none
  | (true, Section) =>
    match StringRef.find Section "</p>".toList with
    | none => none
    | some NameEnd =>
      let Name := StringRef.take_front Section NameEnd
      let Name := (StringRef.consume_front Name "STATUS_".toList).2
      let Section := (StringRef.consume_front Section "</p>".toList).2
      match FindAndConsume Section "<p>".toList with
      | (false, _) => none
      | (true, Section) =>
        match StringRef.find Section "</p>".toList with
        | none => none
        | some MsgEnd =>
          let Message := StringRef.take_front Section MsgEnd
          some (Ctx.Group, { Code := Code, SG := Ctx.SG, Name := Name, Message := Message })

/-- A record whose code has nine hexadecimal digits. -/
def nineDigitBuffer : StringRef :=
  "<tr><p>0x000000001</p><p>STATUS_WAIT_1</p><p>Nine digits.</p></tr>".toList

/-- The slice of the record in `nineDigitBuffer`. -/
def nineDigitSlice : StringRef :=
  "<tr><p>0x000000001</p><p>STATUS_WAIT_1</p><p>Nine digits.</p>".toList

/-- A well-formed slice with an explicit `0x`, texts around the fields, a name
that begins with `STATUS_` and a message with an embedded CRLF. -/
def wellFormedSlice : StringRef :=
  "<tr>\n".toList ++ "<p>".toList ++ "0x".toList ++ "C0000005".toList ++ "</p>".toList
    ++ " ".toList ++ "<p>".toList ++ "STATUS_ACCESS_VIOLATION".toList ++ "</p>".toList
    ++ "\n".toList ++ "<p>".toList ++ "Line one\r\nLine two".toList ++ "</p>".toList
    ++ "\n".toList

/-- The text behind the code field has no name field: no `<p>` at all, or no
`</p>` after its first `<p>`. -/
def missingName (R : StringRef) : Prop :=
  ¬ "<p>".toList <:+: R ∨
  ∃ o, StringRef.find R "<p>".toList = some o ∧ ¬ "</p>".toList <:+: R.drop (o + 3)

/-- The search of `parseSection` for the message comes back empty: the name's
`<p>` is followed by a `</p>`, and in the text that starts at the name, where
`parseSection` goes on searching, there is no `<p>`, or no `</p>` after the
first `<p>`. -/
def messageNotFound (R : StringRef) : Prop :=
  ∃ o, StringRef.find R "<p>".toList = some o ∧ "</p>".toList <:+: R.drop (o + 3) ∧
    (¬ "<p>".toList <:+: R.drop (o + 3) ∨
      ∃ o3, StringRef.find (R.drop (o + 3)) "<p>".toList = some o3 ∧
        ¬ "</p>".toList <:+: (R.drop (o + 3)).drop (o3 + 3))

/-- The text behind the code field has a name field and no message field
after it: behind the `</p>` that closes the name there is no `<p>`, or no
`</p>` after the next `<p>`. -/
def missingMessage (R : StringRef) : Prop :=
  ∃ o e, StringRef.find R "<p>".toList = some o ∧
    StringRef.find (R.drop (o + 3)) "</p>".toList = some e ∧
    (¬ "<p>".toList <:+: (R.drop (o + 3)).drop (e + 4) ∨
      ∃ o3, StringRef.find ((R.drop (o + 3)).drop (e + 4)) "<p>".toList = some o3 ∧
        ¬ "</p>".toList <:+: ((R.drop (o + 3)).drop (e + 4)).drop (o3 + 3))

/-- The name text of the text behind the code field holds no `<p>`. -/
def nameWithoutOpen (R : StringRef) : Prop :=
  ∀ o e, StringRef.find R "<p>".toList = some o →
    StringRef.find (R.drop (o + 3)) "</p>".toList = some e →
    ¬ "<p>".toList <:+: (R.drop (o + 3)).take e

/-- A slice with a code and a name whose text holds a `<p>`, and nothing
behind the name's `</p>`. -/
def noThirdPairSlice : StringRef :=
  "<tr>".toList ++ "<p>".toList ++ "0x".toList ++ "C0000005".toList ++ "</p>".toList
    ++ "".toList ++ "<p>".toList ++ "STATUS_ACCESS".toList ++ "<p>".toList
    ++ "VIOLATION".toList ++ "</p>".toList ++ "".toList

/-- The buffer with the one record of `noThirdPairSlice`. -/
def noThirdPairBuffer : StringRef := noThirdPairSlice ++ "</tr>".toList

/-- A slice with a code and a name and no message. -/
def noMessageSlice : StringRef := "<tr><p>0xC0000005</p><p>STATUS_ACCESS_VIOLATION</p>".toList

/-- A buffer with the record of `noMessageSlice` followed by a complete
record. -/
def noMessageBuffer : StringRef :=
  noMessageSlice ++ "</tr>".toList
    ++ "<tr><p>0x00000000</p><p>STATUS_SUCCESS</p><p>Fine.</p></tr>".toList

/-- The slice of the complete record in `noMessageBuffer`. -/
def afterNoMessageSlice : StringRef :=
  "<tr><p>0x00000000</p><p>STATUS_SUCCESS</p><p>Fine.</p>".toList

/-- A slice whose name text holds a `<p>`, followed by a message field. -/
def openInNameSlice : StringRef :=
  "<tr>".toList ++ "<p>".toList ++ "0x".toList ++ "C0000005".toList ++ "</p>".toList
    ++ "".toList ++ "<p>".toList ++ "STATUS_ACCESS".toList ++ "<p>".toList
    ++ "VIOLATION".toList ++ "</p>".toList
    ++ "<p>The instruction referenced invalid memory.</p>".toList

/-- The buffer with the one record of `openInNameSlice`. -/
def openInNameBuffer : StringRef := openInNameSlice ++ "</tr>".toList

/-- A buffer with one record whose name, after `STATUS_`, begins with `_`. -/
def underscoreBuffer : StringRef :=
  "<tr><p>0x00000001</p><p>STATUS__FOO</p><p>Leading underscore.</p></tr>".toList

/-- The record that `parseFile` stores for `underscoreBuffer`. -/
def underscoreRecord : NtStatus :=
  { Code := 1, SG := Subgroup.STATUS, Name := "_FOO".toList,
    Message := "Leading underscore.".toList }

/-! ## Bit-field lemmas -/

theorem and_shiftLeft_shiftRight (x m k : Nat) :
    (x &&& (m <<< k)) >>> k = (x >>> k) &&& m := by
  apply Nat.eq_of_testBit_eq
  intro j
  simp [Nat.testBit_shiftLeft]

theorem ConsumeStatusGroup_eq (r : Nat) :
    ConsumeStatusGroup r = (r / 2 ^ 28 % 2 ^ 4, r % 2 ^ 28) := by
  have h1 : (0xF0000000 : Nat) = 15 <<< 28 := by decide
  have h2 : (0x0FFFFFFF : Nat) = 2 ^ 28 - 1 := by decide
  have h3 : (15 : Nat) = 2 ^ 4 - 1 := by decide
  unfold ConsumeStatusGroup
  simp only [h1, and_shiftLeft_shiftRight, Nat.reduceMul]
  rw [h2, Nat.and_pow_two_sub_one_eq_mod, h3, Nat.and_pow_two_sub_one_eq_mod,
    Nat.shiftRight_eq_div_pow]
  have e : r / 2 ^ 28 % 2 ^ 4 % 2 ^ 8 = r / 2 ^ 28 % 2 ^ 4 := by omega
  rw [e]

theorem ConsumeStatusCtx_eq (r : Nat) :
    ConsumeStatusCtx r
      = ({ Group := r / 2 ^ 28 % 2 ^ 4, SG := r / 2 ^ 12 % 2 ^ 16 }, r % 2 ^ 12) := by
  have h1 : (0x0FFFF000 : Nat) = (2 ^ 16 - 1) <<< 12 := by decide
  have h2 : (0x00000FFF : Nat) = 2 ^ 12 - 1 := by decide
  unfold ConsumeStatusCtx
  simp only [ConsumeStatusGroup_eq, h1, and_shiftLeft_shiftRight, Nat.reduceMul]
  rw [h2, Nat.and_pow_two_sub_one_eq_mod, Nat.and_pow_two_sub_one_eq_mod,
    Nat.shiftRight_eq_div_pow]
  have e1 : r % 2 ^ 28 / 2 ^ 12 % 2 ^ 16 % 2 ^ 16 = r / 2 ^ 12 % 2 ^ 16 := by omega
  have e2 : r % 2 ^ 28 % 2 ^ 12 = r % 2 ^ 12 := by omega
  rw [e1, e2]

theorem pack_eq (G SG c : Nat) (hSG : SG < 2 ^ 16) (hc : c < 2 ^ 12) :
    pack G SG c = G * 2 ^ 28 + SG * 2 ^ 12 + c := by
  unfold pack
  rw [Nat.shiftLeft_eq, Nat.shiftLeft_eq]
  have hsg : SG * 2 ^ 12 < 2 ^ 28 := by omega
  rw [Nat.mul_comm G, Nat.mul_comm SG, ← Nat.mul_add_lt_is_or (by omega) G,
    show 2 ^ 28 * G + 2 ^ 12 * SG = 2 ^ 12 * (2 ^ 16 * G + SG) by ring,
    ← Nat.mul_add_lt_is_or hc]

theorem GetSubgroupPrefix_ne_nil_iff (SG : Nat) :
    GetSubgroupPrefix SG ≠ [] ↔ SG ∈ knownFacilities := by
  constructor
  · intro h
    by_contra hn
    apply h
    simp only [knownFacilities, List.mem_cons, List.mem_singleton, not_or, List.mem_nil_iff,
      or_false] at hn
    unfold GetSubgroupPrefix
    split <;> first | rfl | (exfalso; omega)
  · intro h
    simp only [knownFacilities, List.mem_cons, List.mem_singleton, List.mem_nil_iff,
      or_false] at h
    rcases h with h | h | h | h | h | h | h | h | h | h | h | h | h | h | h | h | h | h | h
      | h | h | h | h | h | h | h | h <;> subst h <;> decide

/-! ## StringRef lemmas -/

theorem starts_with_iff (Str Pre : StringRef) :
    StringRef.starts_with Str Pre = true ↔ Pre <+: Str := by
  induction Pre generalizing Str with
  | nil => simp [StringRef.starts_with]
  | cons p ps ih =>
    cases Str with
    | nil => simp [StringRef.starts_with]
    | cons c cs =>
      unfold StringRef.starts_with
      by_cases h : c = p
      · subst h
        simp [ih, List.cons_prefix_cons]
      · simp only [h, if_false, List.cons_prefix_cons]
        constructor
        · intro hf; cases hf
        · intro hf; exact absurd hf.1.symm h

theorem find_eq_none_iff (Str ToFind : StringRef) :
    StringRef.find Str ToFind = none ↔ ¬ ToFind <:+: Str := by
  induction Str with
  | nil =>
    unfold StringRef.find
    by_cases h : StringRef.starts_with [] ToFind = true
    · have h2 := (starts_with_iff _ _).1 h
      simp [h, h2.isInfix]
    · have h2 : ¬ ToFind <+: [] := fun hp => h ((starts_with_iff _ _).2 hp)
      rw [if_neg h]
      simp only [true_iff]
      intro hi
      exact h2 (by
        have := List.eq_nil_of_infix_nil hi
        subst this
        exact List.prefix_refl _)
  | cons c cs ih =>
    unfold StringRef.find
    by_cases h : StringRef.starts_with (c :: cs) ToFind = true
    · have h2 := (starts_with_iff _ _).1 h
      simp [h, h2.isInfix]
    · have h2 : ¬ ToFind <+: c :: cs := fun hp => h ((starts_with_iff _ _).2 hp)
      rw [if_neg h, Option.map_eq_none', ih, List.infix_cons_iff]
      tauto

theorem find_eq_some (Str ToFind : StringRef) (n : Nat)
    (h : StringRef.find Str ToFind = some n) :
    Str = Str.take n ++ ToFind ++ Str.drop (n + ToFind.length) ∧
    n + ToFind.length ≤ Str.length ∧
    ∀ m, m < n → ¬ ToFind <+: Str.drop m := by
  induction Str generalizing n with
  | nil =>
    unfold StringRef.find at h
    by_cases hs : StringRef.starts_with [] ToFind = true
    · have h2 := (starts_with_iff _ _).1 hs
      have h3 : ToFind = [] := List.prefix_nil.1 h2
      simp only [hs, if_true, Option.some.injEq] at h
      subst h; subst h3
      simp
    · simp [hs] at h
  | cons c cs ih =>
    unfold StringRef.find at h
    by_cases hs : StringRef.starts_with (c :: cs) ToFind = true
    · obtain ⟨t, ht⟩ := (starts_with_iff _ _).1 hs
      simp only [hs, if_true, Option.some.injEq] at h
      subst h
      refine ⟨?_, ?_, fun m hm => absurd hm (Nat.not_lt_zero m)⟩
      · rw [← ht]; simp
      · rw [← ht]; simp
    · rw [if_neg hs, Option.map_eq_some'] at h
      obtain ⟨k, hk, rfl⟩ := h
      obtain ⟨h1, h2, h3⟩ := ih k hk
      refine ⟨?_, ?_, ?_⟩
      · have e : k + 1 + ToFind.length = (k + ToFind.length) + 1 := by omega
        rw [e, List.take_succ_cons, List.drop_succ_cons]
        simp only [List.cons_append, List.cons.injEq, true_and]
        exact h1
      · simp only [List.length_cons]; omega
      · intro m hm
        cases m with
        | zero => exact fun hp => hs ((starts_with_iff _ _).2 hp)
        | succ m => exact h3 m (by omega)

theorem find_tr_close (Rest : StringRef) :
    StringRef.find ("<tr>".toList ++ Rest) "</tr>".toList
      = (StringRef.find Rest "</tr>".toList).map (· + 4) := by
  show StringRef.find ('<' :: 't' :: 'r' :: '>' :: Rest) ['<', '/', 't', 'r', '>'] = _
  simp only [StringRef.find, StringRef.starts_with, Option.map_map]
  simp

/-! ## The tag scanner -/

theorem consumeNextSection_none (P : NtCodeParser)
    (h : StringRef.find P.SPBuf "<tr>".toList = none) :
    consumeNextSection P = (none, P) := by
  unfold consumeNextSection
  rw [h]

theorem consumeNextSection_open (P : NtCodeParser) (b : Nat)
    (h : StringRef.find P.SPBuf "<tr>".toList = some b) :
    P.SPBuf.drop b = "<tr>".toList ++ P.SPBuf.drop (b + 4) := by
  obtain ⟨h1, h2, -⟩ := find_eq_some _ _ _ h
  have h3 : P.SPBuf.drop b
      = (P.SPBuf.take b ++ "<tr>".toList ++ P.SPBuf.drop (b + "<tr>".toList.length)).drop b := by
    rw [← h1]
  rw [h3, List.append_assoc, List.drop_append_of_le_length (by simp; omega)]
  have h4 : (List.take b P.SPBuf).length = b := by
    rw [List.length_take]; omega
  rw [List.drop_eq_nil_of_le (by omega)]
  rfl

theorem consumeNextSection_unterminated (P : NtCodeParser) (b : Nat)
    (h : StringRef.find P.SPBuf "<tr>".toList = some b)
    (hc : StringRef.find (P.SPBuf.drop (b + 4)) "</tr>".toList = none) :
    consumeNextSection P = (none, { P with SPBuf := P.SPBuf.drop b }) := by
  have ho := consumeNextSection_open P b h
  unfold consumeNextSection
  rw [h]
  simp only [StringRef.drop_front, FindAndTake]
  rw [ho, find_tr_close, hc]
  rfl

theorem consumeNextSection_some (P : NtCodeParser) (b e : Nat)
    (h : StringRef.find P.SPBuf "<tr>".toList = some b)
    (hc : StringRef.find (P.SPBuf.drop (b + 4)) "</tr>".toList = some e) :
    consumeNextSection P
      = (some ("<tr>".toList ++ (P.SPBuf.drop (b + 4)).take e),
          { P with SPBuf := P.SPBuf.drop (b + 4 + e + 5) }) := by
  have ho := consumeNextSection_open P b h
  unfold consumeNextSection
  rw [h]
  simp only [StringRef.drop_front, FindAndTake, StringRef.take_front]
  rw [ho, find_tr_close, hc]
  have e1 : List.take (e + 4) ("<tr>".toList ++ List.drop (b + 4) P.SPBuf)
      = "<tr>".toList ++ (P.SPBuf.drop (b + 4)).take e := by
    show List.take (e + 4) ('<' :: 't' :: 'r' :: '>' :: List.drop (b + 4) P.SPBuf) = _
    rfl
  have e2 : List.drop (e + 4 + "</tr>".toList.length)
      ("<tr>".toList ++ List.drop (b + 4) P.SPBuf) = P.SPBuf.drop (b + 4 + e + 5) := by
    show List.drop (e + 5 + 4) ('<' :: 't' :: 'r' :: '>' :: List.drop (b + 4) P.SPBuf) = _
    simp only [List.drop_succ_cons, List.drop_drop]
    congr 1
  simp only [Option.map_some', e1, e2]
  rfl

theorem consumeNextSection_buf (P : NtCodeParser) :
    consumeNextSection P
      = ((consumeNextSection (NtCodeParser.ofBuffer P.SPBuf)).1,
          { P with SPBuf := (consumeNextSection (NtCodeParser.ofBuffer P.SPBuf)).2.SPBuf }) := by
  cases h : StringRef.find P.SPBuf "<tr>".toList with
  | none =>
    rw [consumeNextSection_none P h, consumeNextSection_none (NtCodeParser.ofBuffer P.SPBuf) h]
    rfl
  | some b =>
    cases hc : StringRef.find (P.SPBuf.drop (b + 4)) "</tr>".toList with
    | none =>
      rw [consumeNextSection_unterminated P b h hc,
        consumeNextSection_unterminated (NtCodeParser.ofBuffer P.SPBuf) b h hc]
      rfl
    | some e =>
      rw [consumeNextSection_some P b e h hc,
        consumeNextSection_some (NtCodeParser.ofBuffer P.SPBuf) b e h hc]
      rfl

theorem consumeNextSection_shorter (P P1 : NtCodeParser) (S : StringRef)
    (h : consumeNextSection P = (some S, P1)) :
    P1.SPBuf.length + 9 ≤ P.SPBuf.length := by
  cases hf : StringRef.find P.SPBuf "<tr>".toList with
  | none => rw [consumeNextSection_none P hf] at h; cases h
  | some b =>
    cases hc : StringRef.find (P.SPBuf.drop (b + 4)) "</tr>".toList with
    | none => rw [consumeNextSection_unterminated P b hf hc] at h; cases h
    | some e =>
      rw [consumeNextSection_some P b e hf hc] at h
      obtain ⟨-, h2, -⟩ := find_eq_some _ _ _ hc
      simp only [Prod.mk.injEq, Option.some.injEq] at h
      rw [← h.2]
      have h5 : "</tr>".toList.length = 5 := rfl
      rw [h5] at h2
      simp only [List.length_drop] at h2 ⊢
      omega

theorem parseSection_buf (P : NtCodeParser) (S X : StringRef) :
    parseSection { P with SPBuf := X } S
      = ((parseSection P S).1, { (parseSection P S).2 with SPBuf := X }) := by
  unfold parseSection
  dsimp only
  repeat (first | rfl | split)

theorem mapCodeGroup_buf (P : NtCodeParser) (G : StatusGroup) (C : NtStatus) (X : StringRef) :
    mapCodeGroup { P with SPBuf := X } G C
      = ((mapCodeGroup P G C).1, { (mapCodeGroup P G C).2 with SPBuf := X }) := by
  unfold mapCodeGroup
  split <;> rfl

theorem processSection_buf (P : NtCodeParser) (b : Bool) (S X : StringRef) :
    processSection ({ P with SPBuf := X }, b) S
      = ({ (processSection (P, b) S).1 with SPBuf := X }, (processSection (P, b) S).2) := by
  unfold processSection
  simp only [parseSection_buf]
  rcases hps : parseSection P S with ⟨_ | ⟨G, C⟩, P2⟩
  · rfl
  · simp only [mapCodeGroup_buf]

/-! ## The loop of `parseFile` as a fold over the slices -/

theorem finish_foldl_buf (L : List StringRef) (P : NtCodeParser) (b : Bool)
    (X R : StringRef) :
    finish (L.foldl processSection ({ P with SPBuf := X }, b)) R
      = finish (L.foldl processSection (P, b)) R := by
  induction L generalizing P b with
  | nil => rfl
  | cons S L ih =>
    simp only [List.foldl_cons]
    rw [processSection_buf]
    exact ih _ _

theorem processSection_SPBuf (P : NtCodeParser) (b : Bool) (S : StringRef) :
    (processSection (P, b) S).1.SPBuf = P.SPBuf := by
  have h := processSection_buf P b S P.SPBuf
  have e : ({ P with SPBuf := P.SPBuf } : NtCodeParser) = P := rfl
  rw [e] at h
  rw [h]

theorem parseFileLoop_step (fuel : Nat) (P P1 : NtCodeParser) (b : Bool) (S : StringRef)
    (h : consumeNextSection P = (some S, P1)) :
    parseFileLoop (fuel + 1) P b
      = parseFileLoop fuel (processSection (P1, b) S).1 (processSection (P1, b) S).2 := by
  rw [parseFileLoop, h]
  unfold processSection
  dsimp only
  rcases parseSection P1 S with ⟨_ | ⟨G, C⟩, P2⟩
  · rfl
  · rfl

theorem parseFileLoop_eq (fuel : Nat) (P : NtCodeParser) (b : Bool)
    (hfuel : P.SPBuf.length < fuel) :
    parseFileLoop fuel P b
      = some (finish ((sectionsLoop fuel P.SPBuf).foldl processSection (P, b))
          (scanRestLoop fuel P.SPBuf)) := by
  induction fuel generalizing P b with
  | zero => exact absurd hfuel (Nat.not_lt_zero _)
  | succ fuel ih =>
    have hb := consumeNextSection_buf P
    rcases hc : consumeNextSection (NtCodeParser.ofBuffer P.SPBuf) with ⟨_ | S, Q⟩
    · rw [hc] at hb
      rw [parseFileLoop, hb, sectionsLoop, scanRestLoop, hc]
      rfl
    · rw [hc] at hb
      have hlen := consumeNextSection_shorter _ _ _ hc
      have hlen2 : Q.SPBuf.length < fuel := by
        have e : (NtCodeParser.ofBuffer P.SPBuf).SPBuf = P.SPBuf := rfl
        rw [e] at hlen
        omega
      rw [parseFileLoop_step fuel P _ b S hb, sectionsLoop, scanRestLoop, hc]
      simp only [List.foldl_cons]
      have hbuf := processSection_SPBuf { P with SPBuf := Q.SPBuf } b S
      rw [ih _ _ (by rw [hbuf]; exact hlen2), hbuf, processSection_buf]
      simp only
      rw [finish_foldl_buf]

theorem parseFile_eq (P : NtCodeParser) :
    parseFile P
      = some (finish ((sections P.SPBuf).foldl processSection (P, true)) (scanRest P.SPBuf)) :=
  parseFileLoop_eq _ P true (Nat.lt_succ_self _)

/-! ## One slice: `parseSection` by the value of its code field -/

theorem codeField_lt (S : StringRef) (v : Nat) (h : codeField S = some v) : v < 2 ^ 32 := by
  unfold codeField at h
  rcases hf : FindAndConsume S "<p>".toList with ⟨_ | _, S1⟩
  · rw [hf] at h; cases h
  · rw [hf] at h
    dsimp only at h
    unfold StringRef.consumeInteger at h
    rcases hu : StringRef.consumeUnsignedInteger
        (StringRef.consume_front S1 "0x".toList).2 16 with _ | ⟨u, S2⟩
    · rw [hu] at h; cases h
    · rw [hu] at h
      dsimp only at h
      by_cases hfit : u % 2 ^ 32 ≠ u
      · rw [if_pos hfit] at h; cases h
      · rw [if_neg hfit] at h
        simp only [Option.some.injEq] at h
        subst h
        have := Nat.mod_lt u (show 0 < 2 ^ 32 by decide)
        omega

theorem parseSection_codeField_none (P : NtCodeParser) (S : StringRef)
    (h : codeField S = none) : parseSection P S = (none, P) := by
  unfold codeField at h
  unfold parseSection
  rcases hf : FindAndConsume S "<p>".toList with ⟨_ | _, S1⟩
  · rfl
  · rw [hf] at h
    dsimp only at h ⊢
    rcases hi : StringRef.consumeInteger (StringRef.consume_front S1 "0x".toList).2 16
      with _ | ⟨u, S2⟩
    · rfl
    · rw [hi] at h; cases h

theorem parseSection_duplicate (P : NtCodeParser) (S : StringRef) (v : Nat)
    (h : codeField S = some v) (hv : v ∈ P.parsedValues) :
    parseSection P S = (none, { P with hadDuplicate := true }) := by
  unfold codeField at h
  unfold parseSection
  rcases hf : FindAndConsume S "<p>".toList with ⟨_ | _, S1⟩
  · rw [hf] at h; cases h
  · rw [hf] at h
    dsimp only at h ⊢
    rcases hi : StringRef.consumeInteger (StringRef.consume_front S1 "0x".toList).2 16
      with _ | ⟨u, S2⟩
    · rw [hi] at h; cases h
    · rw [hi] at h
      simp only [Option.some.injEq] at h
      subst h
      dsimp only
      rw [if_pos (by simpa using hv)]

theorem parseSection_fresh (P : NtCodeParser) (S : StringRef) (v : Nat)
    (h : codeField S = some v) (hv : v ∉ P.parsedValues) :
    (parseSection P S).2 = { P with parsedValues := v :: P.parsedValues } ∧
    (GetSubgroupPrefix (v / 2 ^ 12 % 2 ^ 16) = [] → (parseSection P S).1 = none) ∧
    ∀ G Status, (parseSection P S).1 = some (G, Status) →
      G = v / 2 ^ 28 % 2 ^ 4 ∧ Status.SG = v / 2 ^ 12 % 2 ^ 16 ∧ Status.Code = v % 2 ^ 12 ∧
      GetSubgroupPrefix Status.SG ≠ [] := by
  unfold codeField at h
  unfold parseSection
  rcases hf : FindAndConsume S "<p>".toList with ⟨_ | _, S1⟩
  · rw [hf] at h; cases h
  · rw [hf] at h
    dsimp only at h ⊢
    rcases hi : StringRef.consumeInteger (StringRef.consume_front S1 "0x".toList).2 16
      with _ | ⟨u, S2⟩
    · rw [hi] at h; cases h
    · rw [hi] at h
      simp only [Option.some.injEq] at h
      subst h
      dsimp only
      rw [if_neg (by simpa using hv), ConsumeStatusCtx_eq]
      dsimp only
      cases hp : GetSubgroupPrefix (u / 2 ^ 12 % 2 ^ 16) with
      | nil =>
        refine ⟨rfl, fun _ => rfl, ?_⟩
        intro G Status hsome
        simp at hsome
      | cons c cs =>
        have hne : ((c :: cs : StringRef).isEmpty) = false := rfl
        rw [hne]
        simp only [Bool.false_eq_true, if_false]
        refine ⟨?_, ?_, ?_⟩
        · repeat (first | rfl | split)
        · intro hnil
          cases hnil
        · intro G Status
          repeat' split
          all_goals first
            | (intro hsome; cases hsome; done)
            | (intro hsome
               simp only [Option.some.injEq, Prod.mk.injEq] at hsome
               obtain ⟨rfl, rfl⟩ := hsome
               refine ⟨rfl, rfl, rfl, ?_⟩
               show GetSubgroupPrefix (u / 2 ^ 12 % 2 ^ 16) ≠ []
               rw [hp]
               exact List.cons_ne_nil _ _)

theorem mapCodeGroup_valid (P : NtCodeParser) (G : StatusGroup) (C : NtStatus)
    (hG : validSeverity G) :
    (mapCodeGroup P G C).1 = true ∧
    bucketOf (mapCodeGroup P G C).2 G = bucketOf P G ++ [C] ∧
    (∀ G1, validSeverity G1 → G1 ≠ G → bucketOf (mapCodeGroup P G C).2 G1 = bucketOf P G1) ∧
    (mapCodeGroup P G C).2.parsedValues = P.parsedValues ∧
    (mapCodeGroup P G C).2.hadDuplicate = P.hadDuplicate := by
  rcases hG with h | h | h | h <;> subst h <;>
    refine ⟨rfl, rfl, ?_, rfl, rfl⟩ <;>
    intro G1 h1 hne <;>
    rcases h1 with h | h | h | h <;> subst h <;> first | rfl | exact absurd rfl hne

theorem mapCodeGroup_invalid (P : NtCodeParser) (G : StatusGroup) (C : NtStatus)
    (hG : ¬ validSeverity G) : mapCodeGroup P G C = (false, P) := by
  unfold validSeverity at hG
  unfold mapCodeGroup
  split <;> first | rfl | (exfalso; apply hG; simp)

theorem step_spec (P : NtCodeParser) (b : Bool) (S : StringRef)
    (hd : P.hadDuplicate = false) :
    (codeField S = none ∧ sectionOutcome P S = Outcome.Rejected ∧
      processSection (P, b) S = (P, false)) ∨
    (∃ v, codeField S = some v ∧ v ∈ P.parsedValues ∧
      sectionOutcome P S = Outcome.DuplicateSkipped ∧ processSection (P, b) S = (P, b)) ∨
    (∃ v, codeField S = some v ∧ v ∉ P.parsedValues ∧
      sectionOutcome P S = Outcome.Rejected ∧
      processSection (P, b) S = ({ P with parsedValues := v :: P.parsedValues }, false)) ∨
    (∃ v C, codeField S = some v ∧ v ∉ P.parsedValues ∧
      validSeverity (severityOf v) ∧ GetSubgroupPrefix (subgroupOf v) ≠ [] ∧
      C.SG = subgroupOf v ∧ C.Code = codeOf v ∧
      sectionOutcome P S = Outcome.Accepted (severityOf v) C ∧
      processSection (P, b) S
        = ((mapCodeGroup { P with parsedValues := v :: P.parsedValues } (severityOf v) C).2,
            b)) := by
  have hP : ({ P with hadDuplicate := false } : NtCodeParser) = P := by
    cases P; cases hd; rfl
  cases hcf : codeField S with
  | none =>
    left
    have h := parseSection_codeField_none P S hcf
    refine ⟨rfl, ?_, ?_⟩
    · unfold sectionOutcome; rw [h]; simp [hd]
    · unfold processSection; rw [h]; simp [hd, hP]
  | some v =>
    right
    by_cases hv : v ∈ P.parsedValues
    · left
      have h := parseSection_duplicate P S v hcf hv
      refine ⟨v, rfl, hv, ?_, ?_⟩
      · unfold sectionOutcome; rw [h]; rfl
      · unfold processSection; rw [h]
        simp only [Bool.not_true, Bool.false_eq_true, if_false]
        exact congrArg (fun x => (x, b)) hP
    · right
      obtain ⟨h2, h3, h4⟩ := parseSection_fresh P S v hcf hv
      rcases hps : parseSection P S with ⟨_ | ⟨G, C⟩, P2⟩
      · left
        rw [hps] at h2
        dsimp only at h2
        subst h2
        refine ⟨v, rfl, hv, ?_, ?_⟩
        · unfold sectionOutcome; rw [hps]; simp [hd]
        · unfold processSection; rw [hps]; simp [hd]
      · rw [hps] at h2 h4
        dsimp only at h2
        subst h2
        obtain ⟨hG, hSG, hC, hpre⟩ := h4 G C rfl
        have hG2 : G = severityOf v := hG
        subst hG2
        by_cases hval : validSeverity (severityOf v)
        · right
          refine ⟨v, C, rfl, hv, hval, ?_, hSG, hC, ?_, ?_⟩
          · rw [← show C.SG = subgroupOf v from hSG]; exact hpre
          · unfold sectionOutcome; rw [hps]
            simp [(mapCodeGroup_valid _ _ C hval).1]
          · unfold processSection; rw [hps]
            have hm := (mapCodeGroup_valid
              { P with parsedValues := v :: P.parsedValues } _ C hval).1
            dsimp only
            rw [hm]
            rfl
        · left
          refine ⟨v, rfl, hv, ?_, ?_⟩
          · unfold sectionOutcome; rw [hps]
            simp [mapCodeGroup_invalid _ _ C hval]
          · unfold processSection; rw [hps]
            simp [mapCodeGroup_invalid _ _ C hval]

theorem step_hadDuplicate (P : NtCodeParser) (b : Bool) (S : StringRef)
    (hd : P.hadDuplicate = false) : (processSection (P, b) S).1.hadDuplicate = false := by
  rcases step_spec P b S hd with ⟨-, -, h⟩ | ⟨v, -, -, -, h⟩ | ⟨v, -, -, -, h⟩
    | ⟨v, C, -, -, hval, -, -, -, -, h⟩
  · rw [h]; exact hd
  · rw [h]; exact hd
  · rw [h]; exact hd
  · rw [h]
    exact (mapCodeGroup_valid _ _ C hval).2.2.2.2.trans hd

theorem step_flag (P : NtCodeParser) (b : Bool) (S : StringRef)
    (hd : P.hadDuplicate = false) :
    (processSection (P, b) S).2 = (b && decide (sectionOutcome P S ≠ Outcome.Rejected)) := by
  rcases step_spec P b S hd with ⟨-, ho, h⟩ | ⟨v, -, -, ho, h⟩ | ⟨v, -, -, ho, h⟩
    | ⟨v, C, -, -, hval, -, -, -, ho, h⟩ <;> rw [h, ho] <;> simp

theorem bucketOf_parsedValues (P : NtCodeParser) (X : List Nat) (G : StatusGroup) :
    bucketOf { P with parsedValues := X } G = bucketOf P G := rfl

theorem bucketOf_finish (St : NtCodeParser × Bool) (R : StringRef) (G : StatusGroup) :
    bucketOf (finish St R).2 G = bucketOf St.1 G := rfl

theorem bucketOf_ofBuffer (Buf : StringRef) (G : StatusGroup) :
    bucketOf (NtCodeParser.ofBuffer Buf) G = [] := by
  unfold bucketOf
  split <;> rfl

theorem step_bucket (P : NtCodeParser) (b : Bool) (S : StringRef)
    (hd : P.hadDuplicate = false) (G : StatusGroup) (hG : validSeverity G) :
    bucketOf (processSection (P, b) S).1 G
      = bucketOf P G ++ acceptedWith G [(S, sectionOutcome P S)] := by
  rcases step_spec P b S hd with ⟨-, ho, h⟩ | ⟨v, -, -, ho, h⟩ | ⟨v, -, -, ho, h⟩
    | ⟨v, C, -, -, hval, -, -, -, ho, h⟩
  · rw [h, ho]; simp [acceptedWith]
  · rw [h, ho]; simp [acceptedWith]
  · rw [h, ho]
    simp only [acceptedWith, List.filterMap_cons, List.filterMap_nil, List.append_nil]
    rw [bucketOf_parsedValues]
  · rw [h, ho]
    obtain ⟨-, h2, h3, -, -⟩ :=
      mapCodeGroup_valid { P with parsedValues := v :: P.parsedValues } _ C hval
    by_cases hGG : severityOf v = G
    · subst hGG
      simp only [acceptedWith, List.filterMap_cons, List.filterMap_nil, if_true]
      rw [h2, bucketOf_parsedValues]
    · simp only [acceptedWith, List.filterMap_cons, List.filterMap_nil, if_neg hGG,
        List.append_nil]
      rw [h3 G hG (fun e => hGG e.symm), bucketOf_parsedValues]

theorem step_parsedValues (P : NtCodeParser) (b : Bool) (S : StringRef)
    (hd : P.hadDuplicate = false) (w : Nat) :
    w ∈ (processSection (P, b) S).1.parsedValues ↔ w ∈ P.parsedValues ∨ codeField S = some w := by
  rcases step_spec P b S hd with ⟨hc, -, h⟩ | ⟨v, hc, hv, -, h⟩ | ⟨v, hc, -, -, h⟩
    | ⟨v, C, hc, -, hval, -, -, -, -, h⟩
  · rw [h, hc]; simp
  · rw [h, hc]
    simp only [Option.some.injEq]
    constructor
    · exact Or.inl
    · rintro (h1 | h1)
      · exact h1
      · subst h1; exact hv
  · rw [h, hc]
    simp only [List.mem_cons, Option.some.injEq]
    constructor
    · rintro (h1 | h1)
      · exact Or.inr h1.symm
      · exact Or.inl h1
    · rintro (h1 | h1)
      · exact Or.inr h1
      · exact Or.inl h1.symm
  · rw [h, hc, (mapCodeGroup_valid _ _ C hval).2.2.2.1]
    simp only [List.mem_cons, Option.some.injEq]
    constructor
    · rintro (h1 | h1)
      · exact Or.inr h1.symm
      · exact Or.inl h1
    · rintro (h1 | h1)
      · exact Or.inr h1
      · exact Or.inl h1.symm

theorem step_accepted (P : NtCodeParser) (S : StringRef) (G : StatusGroup) (C : NtStatus)
    (hd : P.hadDuplicate = false) (ho : sectionOutcome P S = Outcome.Accepted G C) :
    ∃ v, codeField S = some v ∧ v ∉ P.parsedValues ∧ v < 2 ^ 32 ∧ G = severityOf v ∧
      validSeverity G ∧ GetSubgroupPrefix (subgroupOf v) ≠ [] ∧
      C.SG = subgroupOf v ∧ C.Code = codeOf v := by
  rcases step_spec P true S hd with ⟨-, ho2, -⟩ | ⟨v, -, -, ho2, -⟩ | ⟨v, -, -, ho2, -⟩
    | ⟨v, C2, hc, hv, hval, hpre, hSG, hC, ho2, -⟩
  · rw [ho2] at ho; cases ho
  · rw [ho2] at ho; cases ho
  · rw [ho2] at ho; cases ho
  · rw [ho2] at ho
    cases ho
    exact ⟨v, hc, hv, codeField_lt S v hc, rfl, hval, hpre, hSG, hC⟩

theorem step_duplicate (P : NtCodeParser) (b : Bool) (S : StringRef) (v : Nat)
    (hd : P.hadDuplicate = false) (hc : codeField S = some v) (hv : v ∈ P.parsedValues) :
    sectionOutcome P S = Outcome.DuplicateSkipped ∧ processSection (P, b) S = (P, b) := by
  rcases step_spec P b S hd with ⟨hc2, -, -⟩ | ⟨v2, -, -, ho, h⟩ | ⟨v2, hc2, hv2, -, -⟩
    | ⟨v2, C, hc2, hv2, -⟩
  · rw [hc2] at hc; cases hc
  · exact ⟨ho, h⟩
  · rw [hc2] at hc; cases hc; exact absurd hv hv2
  · rw [hc2] at hc; cases hc; exact absurd hv hv2

theorem step_rejected (P : NtCodeParser) (S : StringRef) (v : Nat)
    (hd : P.hadDuplicate = false) (hc : codeField S = some v) (hv : v ∉ P.parsedValues)
    (hbad : ¬ validSeverity (severityOf v) ∨ GetSubgroupPrefix (subgroupOf v) = []) :
    sectionOutcome P S = Outcome.Rejected := by
  rcases step_spec P true S hd with ⟨-, ho, -⟩ | ⟨v2, hc2, hv2, -, -⟩ | ⟨v2, -, -, ho, -⟩
    | ⟨v2, C, hc2, -, hval, hpre, -⟩
  · exact ho
  · rw [hc2] at hc; cases hc; exact absurd hv2 hv
  · exact ho
  · rw [hc2] at hc; cases hc
    rcases hbad with hb | hb
    · exact absurd hval hb
    · exact absurd hb hpre

/-! ## The whole run -/

theorem run_hadDuplicate (L : List StringRef) (St : NtCodeParser × Bool)
    (hd : St.1.hadDuplicate = false) :
    (L.foldl processSection St).1.hadDuplicate = false := by
  induction L generalizing St with
  | nil => exact hd
  | cons S L ih =>
    obtain ⟨P, b⟩ := St
    exact ih _ (step_hadDuplicate P b S hd)

theorem run_flag (L : List StringRef) (St : NtCodeParser × Bool)
    (hd : St.1.hadDuplicate = false) :
    (L.foldl processSection St).2 = true ↔
      St.2 = true ∧ ∀ e ∈ outcomesFrom St L, e.2 ≠ Outcome.Rejected := by
  induction L generalizing St with
  | nil => simp [outcomesFrom]
  | cons S L ih =>
    obtain ⟨P, b⟩ := St
    simp only [List.foldl_cons, outcomesFrom, List.mem_cons, forall_eq_or_imp]
    rw [ih _ (step_hadDuplicate P b S hd), step_flag P b S hd]
    simp only [Bool.and_eq_true, decide_eq_true_eq, and_assoc]

theorem run_flag_false (L : List StringRef) (St : NtCodeParser × Bool)
    (hd : St.1.hadDuplicate = false) (hb : St.2 = false) :
    (L.foldl processSection St).2 = false := by
  cases h : (L.foldl processSection St).2 with
  | false => rfl
  | true =>
    have := ((run_flag L St hd).1 h).1
    rw [hb] at this
    cases this

theorem run_bucket (L : List StringRef) (St : NtCodeParser × Bool)
    (hd : St.1.hadDuplicate = false) (G : StatusGroup) (hG : validSeverity G) :
    bucketOf (L.foldl processSection St).1 G
      = bucketOf St.1 G ++ acceptedWith G (outcomesFrom St L) := by
  induction L generalizing St with
  | nil => simp [outcomesFrom, acceptedWith]
  | cons S L ih =>
    obtain ⟨P, b⟩ := St
    simp only [List.foldl_cons, outcomesFrom]
    rw [ih _ (step_hadDuplicate P b S hd), step_bucket P b S hd G hG, List.append_assoc]
    congr 1
    unfold acceptedWith
    rw [← List.filterMap_append]
    rfl

theorem run_parsedValues (L : List StringRef) (St : NtCodeParser × Bool)
    (hd : St.1.hadDuplicate = false) (w : Nat) :
    w ∈ (L.foldl processSection St).1.parsedValues ↔
      w ∈ St.1.parsedValues ∨ ∃ S ∈ L, codeField S = some w := by
  induction L generalizing St with
  | nil => simp
  | cons S L ih =>
    obtain ⟨P, b⟩ := St
    simp only [List.foldl_cons, List.mem_cons, exists_eq_or_imp]
    rw [ih _ (step_hadDuplicate P b S hd), step_parsedValues P b S hd, or_assoc]

theorem outcomesFrom_fst (L : List StringRef) (St : NtCodeParser × Bool) :
    (outcomesFrom St L).map Prod.fst = L := by
  induction L generalizing St with
  | nil => rfl
  | cons S L ih => simp [outcomesFrom, ih]

theorem outcomesFrom_append (L1 L2 : List StringRef) (St : NtCodeParser × Bool) :
    outcomesFrom St (L1 ++ L2)
      = outcomesFrom St L1 ++ outcomesFrom (L1.foldl processSection St) L2 := by
  induction L1 generalizing St with
  | nil => rfl
  | cons S L ih => simp [outcomesFrom, ih]

theorem outcomesFrom_accepted (L : List StringRef) (St : NtCodeParser × Bool)
    (hd : St.1.hadDuplicate = false) (S : StringRef) (G : StatusGroup) (C : NtStatus)
    (hmem : (S, Outcome.Accepted G C) ∈ outcomesFrom St L) :
    ∃ v, codeField S = some v ∧ v < 2 ^ 32 ∧ G = severityOf v ∧
      validSeverity G ∧ GetSubgroupPrefix (subgroupOf v) ≠ [] ∧
      C.SG = subgroupOf v ∧ C.Code = codeOf v := by
  induction L generalizing St with
  | nil => simp [outcomesFrom] at hmem
  | cons S0 L ih =>
    obtain ⟨P, b⟩ := St
    simp only [outcomesFrom, List.mem_cons, Prod.mk.injEq] at hmem
    rcases hmem with ⟨rfl, ho⟩ | hmem
    · obtain ⟨v, h1, -, h3, h4, h5, h6, h7, h8⟩ := step_accepted P S G C hd ho.symm
      exact ⟨v, h1, h3, h4, h5, h6, h7, h8⟩
    · exact ih _ (step_hadDuplicate P b S0 hd) hmem

theorem pack_fields (v : Nat) (hv : v < 2 ^ 32) :
    pack (severityOf v) (subgroupOf v) (codeOf v) = v := by
  unfold severityOf subgroupOf codeOf
  have hSG : v / 2 ^ 12 % 2 ^ 16 < 2 ^ 16 := Nat.mod_lt _ (by decide)
  have hc : v % 2 ^ 12 < 2 ^ 12 := Nat.mod_lt _ (by decide)
  rw [pack_eq _ _ _ hSG hc]
  omega

theorem step_duplicate_conv (P : NtCodeParser) (S : StringRef)
    (hd : P.hadDuplicate = false) (ho : sectionOutcome P S = Outcome.DuplicateSkipped) :
    ∃ v, codeField S = some v ∧ v ∈ P.parsedValues := by
  rcases step_spec P true S hd with ⟨-, ho2, -⟩ | ⟨v, hc, hv, -, -⟩ | ⟨v, -, -, ho2, -⟩
    | ⟨v, C, -, -, -, -, -, -, ho2, -⟩
  · rw [ho2] at ho; cases ho
  · exact ⟨v, hc, hv⟩
  · rw [ho2] at ho; cases ho
  · rw [ho2] at ho; cases ho

theorem outcomesFrom_duplicate (L : List StringRef) (St : NtCodeParser × Bool)
    (hd : St.1.hadDuplicate = false) (L1 L2 : List (StringRef × Outcome)) (S : StringRef)
    (h : outcomesFrom St L = L1 ++ (S, Outcome.DuplicateSkipped) :: L2) :
    ∃ v, codeField S = some v ∧
      (v ∈ St.1.parsedValues ∨ ∃ e ∈ L1, codeField e.1 = some v) := by
  induction L generalizing St L1 with
  | nil =>
    simp only [outcomesFrom] at h
    exact absurd h (by simp)
  | cons S0 L ih =>
    obtain ⟨P, b⟩ := St
    simp only [outcomesFrom] at h
    cases L1 with
    | nil =>
      simp only [List.nil_append, List.cons.injEq, Prod.mk.injEq] at h
      obtain ⟨⟨rfl, ho⟩, -⟩ := h
      obtain ⟨v, hc, hv⟩ := step_duplicate_conv P S0 hd ho
      exact ⟨v, hc, Or.inl hv⟩
    | cons e L1 =>
      simp only [List.cons_append, List.cons.injEq] at h
      obtain ⟨he, h⟩ := h
      obtain ⟨v, hc, hv⟩ := ih _ (step_hadDuplicate P b S0 hd) L1 h
      refine ⟨v, hc, ?_⟩
      rcases hv with hv | ⟨e1, he1, hce1⟩
      · rcases (step_parsedValues P b S0 hd v).1 hv with h1 | h1
        · exact Or.inl h1
        · exact Or.inr ⟨e, List.mem_cons_self _ _, by rw [← he]; exact h1⟩
      · exact Or.inr ⟨e1, List.mem_cons_of_mem _ he1, hce1⟩

theorem run_rejects (L : List StringRef) (St : NtCodeParser × Bool) (v : Nat)
    (hd : St.1.hadDuplicate = false)
    (hbad : ¬ validSeverity (severityOf v) ∨ GetSubgroupPrefix (subgroupOf v) = [])
    (hseen : v ∈ St.1.parsedValues → St.2 = false)
    (hmem : ∃ S ∈ L, codeField S = some v) :
    (L.foldl processSection St).2 = false := by
  induction L generalizing St with
  | nil => obtain ⟨S, hS, -⟩ := hmem; cases hS
  | cons S0 L ih =>
    obtain ⟨P, b⟩ := St
    simp only [List.foldl_cons]
    have hd2 := step_hadDuplicate P b S0 hd
    by_cases hb : b = false
    · apply run_flag_false _ _ hd2
      rw [step_flag P b S0 hd, hb]
      rfl
    · have hv : v ∉ P.parsedValues := fun hin => hb (hseen hin)
      by_cases hc : codeField S0 = some v
      · apply run_flag_false _ _ hd2
        rw [step_flag P b S0 hd, step_rejected P S0 v hd hc hv hbad]
        simp
      · apply ih _ hd2
        · intro hin
          rcases (step_parsedValues P b S0 hd v).1 hin with h1 | h1
          · exact absurd h1 hv
          · exact absurd h1 hc
        · obtain ⟨S, hS, hcS⟩ := hmem
          rcases List.mem_cons.1 hS with rfl | hS
          · exact absurd hcS hc
          · exact ⟨S, hS, hcS⟩

theorem accepted_count (Log : List (StringRef × Outcome))
    (hval : ∀ e ∈ Log, ∀ G C, e.2 = Outcome.Accepted G C → validSeverity G) :
    (acceptedWith 0x0 Log).length + (acceptedWith 0x4 Log).length
        + (acceptedWith 0x8 Log).length + (acceptedWith 0xC Log).length
      = (acceptedAll Log).length := by
  induction Log with
  | nil => rfl
  | cons e Log ih =>
    have ih2 := ih (fun e1 he1 => hval e1 (List.mem_cons_of_mem _ he1))
    have hv := hval e (List.mem_cons_self _ _)
    obtain ⟨S, o⟩ := e
    cases o with
    | Accepted G C =>
      have hG := hv G C rfl
      rcases hG with h | h | h | h <;> subst h <;>
        simp [acceptedWith, acceptedAll] at ih2 ⊢ <;> omega
    | DuplicateSkipped => simpa [acceptedWith, acceptedAll] using ih2
    | Rejected => simpa [acceptedWith, acceptedAll] using ih2

/-! ## Decoder round trips -/

/-- C1: for a severity nibble in 0x0, 0x4, 0x8, 0xC, a facility with a
non-empty prefix and a code of at most 4095, `ConsumeStatusCtx` applied to the
packed value gives back the severity, the facility and the code, and the
decoded facility passes the subgroup validation of `parseSection`. -/
theorem pack_decode_roundtrip (s g c : Nat)
    (hs : s = 0x0 ∨ s = 0x4 ∨ s = 0x8 ∨ s = 0xC)
    (hg : GetSubgroupPrefix g ≠ []) (hc : c ≤ 4095) :
    pack s g c < 2 ^ 32 ∧
    ConsumeStatusCtx (pack s g c) = ({ Group := s, SG := g }, c) ∧
    (GetSubgroupPrefix (ConsumeStatusCtx (pack s g c)).1.SG).isEmpty = false := by
  have hg2 : g ≤ 0x3A0 := by
    have := (GetSubgroupPrefix_ne_nil_iff g).1 hg
    simp only [knownFacilities, List.mem_cons, List.mem_singleton, List.mem_nil_iff,
      or_false] at this
    omega
  have hp := pack_eq s g c (by omega) (by omega)
  have hdec : ConsumeStatusCtx (pack s g c) = ({ Group := s, SG := g }, c) := by
    rw [ConsumeStatusCtx_eq, hp]
    have e1 : (s * 2 ^ 28 + g * 2 ^ 12 + c) / 2 ^ 28 % 2 ^ 4 = s := by omega
    have e2 : (s * 2 ^ 28 + g * 2 ^ 12 + c) / 2 ^ 12 % 2 ^ 16 = g := by omega
    have e3 : (s * 2 ^ 28 + g * 2 ^ 12 + c) % 2 ^ 12 = c := by omega
    rw [e1, e2, e3]
  refine ⟨by omega, hdec, ?_⟩
  rw [hdec]
  cases hgp : GetSubgroupPrefix g with
  | nil => exact absurd hgp hg
  | cons a l => rfl

theorem pack_decode_roundtrip_witness :
    pack 0xC 0x1C0 5 < 2 ^ 32 ∧
    ConsumeStatusCtx (pack 0xC 0x1C0 5) = ({ Group := 0xC, SG := 0x1C0 }, 5) ∧
    (GetSubgroupPrefix (ConsumeStatusCtx (pack 0xC 0x1C0 5)).1.SG).isEmpty = false :=
  pack_decode_roundtrip 0xC 0x1C0 5 (by decide) (by decide) (by decide)

/-- C2: for every 32-bit raw value, the severity nibble, subgroup and leftover
code that `ConsumeStatusCtx` yields are below 16, 2^16 and 2^12, and packing
them again gives the raw value back. -/
theorem decode_pack_roundtrip (r : Nat) (hr : r < 2 ^ 32) :
    (ConsumeStatusCtx r).1.Group < 16 ∧
    (ConsumeStatusCtx r).1.SG < 2 ^ 16 ∧
    (ConsumeStatusCtx r).2 < 2 ^ 12 ∧
    pack (ConsumeStatusCtx r).1.Group (ConsumeStatusCtx r).1.SG (ConsumeStatusCtx r).2 = r := by
  rw [ConsumeStatusCtx_eq]
  show r / 2 ^ 28 % 2 ^ 4 < 16 ∧ r / 2 ^ 12 % 2 ^ 16 < 2 ^ 16 ∧ r % 2 ^ 12 < 2 ^ 12 ∧
    pack (r / 2 ^ 28 % 2 ^ 4) (r / 2 ^ 12 % 2 ^ 16) (r % 2 ^ 12) = r
  have hSG : r / 2 ^ 12 % 2 ^ 16 < 2 ^ 16 := Nat.mod_lt _ (by decide)
  have hc : r % 2 ^ 12 < 2 ^ 12 := Nat.mod_lt _ (by decide)
  refine ⟨by omega, hSG, hc, ?_⟩
  rw [pack_eq _ _ _ hSG hc]
  omega

theorem decode_pack_roundtrip_witness :
    (ConsumeStatusCtx 0xC0000005).1.Group < 16 ∧
    (ConsumeStatusCtx 0xC0000005).1.SG < 2 ^ 16 ∧
    (ConsumeStatusCtx 0xC0000005).2 < 2 ^ 12 ∧
    pack (ConsumeStatusCtx 0xC0000005).1.Group (ConsumeStatusCtx 0xC0000005).1.SG
      (ConsumeStatusCtx 0xC0000005).2 = 0xC0000005 :=
  decode_pack_roundtrip 0xC0000005 (by decide)

/-! ## End-to-end example -/

set_option maxRecDepth 1000000 in
/-- C3: the two example records, written one after the other or on two lines,
parse with flag true into one SUCCESS record (facility STATUS, code 0, name
rendered `Success`) and one ERROR record (facility STATUS, code 5, name
rendered `AccessViolation`), the INFO and WARNING buckets stay empty, and with
the threshold 64 both buckets take the linear emission and `emitSuccessful` is
true afterwards. -/
theorem end_to_end_example :
    (∀ Buf ∈ [exampleRecordSuccess ++ exampleRecordError,
        exampleRecordSuccess ++ ['\n'] ++ exampleRecordError],
      parseFile (NtCodeParser.ofBuffer Buf)
        = some (true,
            { SPBuf := [], didParseSuccessfully := true,
              parsedValues := [0xC0000005, 0x00000000], hadDuplicate := false,
              successes := [exampleSuccess], infos := [], warnings := [],
              errors := [exampleError] }) ∧
      ((parseFile (NtCodeParser.ofBuffer Buf)).bind fun r =>
          emitSuccessThenError largeGroupSizeDefault r.2).map
        (fun E => (emitSuccessful E, getFailures E)) = some (true, [])) ∧
    MakePascalcase exampleSuccess.Name = some "Success".toList ∧
    MakePascalcase exampleError.Name = some "AccessViolation".toList ∧
    IsLargeGroup largeGroupSizeDefault [exampleSuccess] = false ∧
    IsLargeGroup largeGroupSizeDefault [exampleError] = false ∧
    (∀ E, doEmit largeGroupSizeDefault E StatusGroup.SUCCESS [exampleSuccess]
        = linearEmit E StatusGroup.SUCCESS [exampleSuccess]) ∧
    (∀ E, doEmit largeGroupSizeDefault E StatusGroup.ERROR [exampleError]
        = linearEmit E StatusGroup.ERROR [exampleError]) := by
  refine ⟨?_, by decide, by decide, by decide, by decide, fun E => rfl, fun E => rfl⟩
  intro Buf hBuf
  simp only [List.mem_cons, List.mem_singleton, List.mem_nil_iff, or_false] at hBuf
  rcases hBuf with h | h <;> subst h <;> exact ⟨by decide, by decide⟩

/-! ## The registry -/

/-- C4: after `parseFile`, the SUCCESS, INFO, WARNING and ERROR buckets are
the accepted records of severity 0x0, 0x4, 0x8 and 0xC in the order of the
slices; the severity of an accepted record is the top nibble of the raw value
read from its slice; the four buckets together hold as many records as were
accepted; and `mapCodeGroup` appends to one bucket and leaves the other three
as they were. -/
theorem buckets_by_severity (Buf : StringRef) :
    ∃ Flag P, parseFile (NtCodeParser.ofBuffer Buf) = some (Flag, P) ∧
      (outcomes Buf).map Prod.fst = sections Buf ∧
      P.successes = acceptedWith StatusGroup.SUCCESS (outcomes Buf) ∧
      P.infos = acceptedWith StatusGroup.INFO (outcomes Buf) ∧
      P.warnings = acceptedWith StatusGroup.WARNING (outcomes Buf) ∧
      P.errors = acceptedWith StatusGroup.ERROR (outcomes Buf) ∧
      (∀ S G C, (S, Outcome.Accepted G C) ∈ outcomes Buf →
        ∃ v, codeField S = some v ∧ v < 2 ^ 32 ∧ G = v / 2 ^ 28 ∧ validSeverity G ∧
          pack G C.SG C.Code = v) ∧
      P.successes.length + P.infos.length + P.warnings.length + P.errors.length
        = (acceptedAll (outcomes Buf)).length ∧
      (∀ (Q : NtCodeParser) G C, validSeverity G →
        bucketOf (mapCodeGroup Q G C).2 G = bucketOf Q G ++ [C] ∧
        ∀ G1, validSeverity G1 → G1 ≠ G →
          bucketOf (mapCodeGroup Q G C).2 G1 = bucketOf Q G1) := by
  have hd : (NtCodeParser.ofBuffer Buf, true).1.hadDuplicate = false := rfl
  have hrun := run_bucket (sections Buf) (NtCodeParser.ofBuffer Buf, true) hd
  have h0 := hrun 0x0 (Or.inl rfl)
  have h4 := hrun 0x4 (Or.inr (Or.inl rfl))
  have h8 := hrun 0x8 (Or.inr (Or.inr (Or.inl rfl)))
  have hC := hrun 0xC (Or.inr (Or.inr (Or.inr rfl)))
  have hacc : ∀ S G C, (S, Outcome.Accepted G C) ∈ outcomes Buf →
      ∃ v, codeField S = some v ∧ v < 2 ^ 32 ∧ G = v / 2 ^ 28 ∧ validSeverity G ∧
        pack G C.SG C.Code = v := by
    intro S G C hmem
    obtain ⟨v, h1, h2, h3, h4, -, h6, h7⟩ := outcomesFrom_accepted _ _ hd S G C hmem
    have e : v / 2 ^ 28 % 2 ^ 4 = v / 2 ^ 28 := by omega
    refine ⟨v, h1, h2, h3.trans e, h4, ?_⟩
    rw [h3, h6, h7]
    exact pack_fields v h2
  obtain ⟨Flag, P, hP, hs, hi, hw, he⟩ :
      ∃ Flag P, parseFile (NtCodeParser.ofBuffer Buf) = some (Flag, P) ∧
        P.successes = acceptedWith StatusGroup.SUCCESS (outcomes Buf) ∧
        P.infos = acceptedWith StatusGroup.INFO (outcomes Buf) ∧
        P.warnings = acceptedWith StatusGroup.WARNING (outcomes Buf) ∧
        P.errors = acceptedWith StatusGroup.ERROR (outcomes Buf) :=
    ⟨_, _, parseFile_eq _, h0, h4, h8, hC⟩
  refine ⟨Flag, P, hP, outcomesFrom_fst _ _, hs, hi, hw, he, hacc, ?_, ?_⟩
  · have hcount := accepted_count (outcomes Buf) (by
      intro e he G C heq
      obtain ⟨S, o⟩ := e
      cases heq
      obtain ⟨v, -, -, -, hv, -⟩ := hacc S G C he
      exact hv)
    rw [hs, hi, hw, he]
    exact hcount
  · intro Q G C hG
    obtain ⟨-, h2, h3, -, -⟩ := mapCodeGroup_valid Q G C hG
    exact ⟨h2, h3⟩

/-- C5: a slice whose code field holds a raw value that an earlier slice of
the buffer also holds is skipped as a duplicate: processing it leaves the whole
parser state and the flag as they were, so `parseFile` gives the result of the
run without that slice; and when a buffer has two slices, the first accepted
and the second with the same raw value, `parseFile` returns true and only the
first record is stored. -/
theorem duplicate_skipped (Buf : StringRef) (Pre Post : List StringRef) (S : StringRef)
    (v : Nat) (hsec : sections Buf = Pre ++ S :: Post) (hS : codeField S = some v)
    (hearlier : ∃ S0 ∈ Pre, codeField S0 = some v) :
    processSection (Pre.foldl processSection (NtCodeParser.ofBuffer Buf, true)) S
      = Pre.foldl processSection (NtCodeParser.ofBuffer Buf, true) ∧
    outcomes Buf
      = outcomesFrom (NtCodeParser.ofBuffer Buf, true) Pre
        ++ (S, Outcome.DuplicateSkipped)
          :: outcomesFrom (Pre.foldl processSection (NtCodeParser.ofBuffer Buf, true)) Post ∧
    parseFile (NtCodeParser.ofBuffer Buf)
      = some (finish ((Pre ++ Post).foldl processSection (NtCodeParser.ofBuffer Buf, true))
          (scanRest Buf)) ∧
    (∀ S0 G C, Pre = [S0] → Post = [] →
      sectionOutcome (NtCodeParser.ofBuffer Buf) S0 = Outcome.Accepted G C →
      ∃ P, parseFile (NtCodeParser.ofBuffer Buf) = some (true, P) ∧
        bucketOf P G = [C] ∧
        ∀ G1, validSeverity G1 → G1 ≠ G → bucketOf P G1 = []) := by
  have hd : (NtCodeParser.ofBuffer Buf, true).1.hadDuplicate = false := rfl
  have hd2 := run_hadDuplicate Pre _ hd
  have hseen : v ∈ (Pre.foldl processSection (NtCodeParser.ofBuffer Buf, true)).1.parsedValues :=
    (run_parsedValues Pre _ hd v).2 (Or.inr hearlier)
  obtain ⟨ho, hstep⟩ := step_duplicate _
    (Pre.foldl processSection (NtCodeParser.ofBuffer Buf, true)).2 S v hd2 hS hseen
  have hstep2 : processSection (Pre.foldl processSection (NtCodeParser.ofBuffer Buf, true)) S
      = Pre.foldl processSection (NtCodeParser.ofBuffer Buf, true) := hstep
  have hfold : (Pre ++ S :: Post).foldl processSection (NtCodeParser.ofBuffer Buf, true)
      = (Pre ++ Post).foldl processSection (NtCodeParser.ofBuffer Buf, true) := by
    rw [List.foldl_append, List.foldl_cons, hstep2, List.foldl_append]
  have hparse : parseFile (NtCodeParser.ofBuffer Buf)
      = some (finish ((Pre ++ Post).foldl processSection (NtCodeParser.ofBuffer Buf, true))
          (scanRest Buf)) := by
    rw [parseFile_eq]
    show some (finish ((sections Buf).foldl processSection _) _) = _
    rw [hsec, hfold]
    rfl
  refine ⟨hstep2, ?_, hparse, ?_⟩
  · unfold outcomes
    rw [hsec, outcomesFrom_append]
    simp only [outcomesFrom]
    rw [ho, hstep2]
  · intro S0 G C hPre hPost hacc
    subst hPre hPost
    obtain ⟨w, -, -, -, -, hG, -⟩ := step_accepted _ S0 G C rfl hacc
    have hflag := step_flag (NtCodeParser.ofBuffer Buf) true S0 rfl
    have hb := step_bucket (NtCodeParser.ofBuffer Buf) true S0 rfl
    rw [hacc] at hflag hb
    have hfl : (processSection (NtCodeParser.ofBuffer Buf, true) S0).2 = true := by
      rw [hflag]; simp
    refine ⟨(finish (processSection (NtCodeParser.ofBuffer Buf, true) S0) (scanRest Buf)).2,
      ?_, ?_, ?_⟩
    · rw [hparse]
      simp only [List.append_nil, List.foldl_cons, List.foldl_nil]
      unfold finish
      rw [hfl]
    · rw [bucketOf_finish, hb G hG, bucketOf_ofBuffer]
      simp [acceptedWith]
    · intro G1 hG1 hne
      have hne2 : ¬ G = G1 := fun e => hne e.symm
      rw [bucketOf_finish, hb G1 hG1, bucketOf_ofBuffer]
      simp [acceptedWith, hne2]

set_option maxRecDepth 1000000 in
theorem duplicate_skipped_witness :
    sections dupBuffer = [dupFirst] ++ dupSecond :: [] ∧
    codeField dupSecond = some 0x40000001 ∧
    (∃ S0 ∈ [dupFirst], codeField S0 = some 0x40000001) ∧
    (processSection ([dupFirst].foldl processSection (NtCodeParser.ofBuffer dupBuffer, true))
        dupSecond
      = [dupFirst].foldl processSection (NtCodeParser.ofBuffer dupBuffer, true) ∧
    outcomes dupBuffer
      = outcomesFrom (NtCodeParser.ofBuffer dupBuffer, true) [dupFirst]
        ++ (dupSecond, Outcome.DuplicateSkipped)
          :: outcomesFrom
            ([dupFirst].foldl processSection (NtCodeParser.ofBuffer dupBuffer, true)) [] ∧
    parseFile (NtCodeParser.ofBuffer dupBuffer)
      = some (finish
          (([dupFirst] ++ []).foldl processSection (NtCodeParser.ofBuffer dupBuffer, true))
          (scanRest dupBuffer)) ∧
    (∀ S0 G C, [dupFirst] = [S0] → ([] : List StringRef) = [] →
      sectionOutcome (NtCodeParser.ofBuffer dupBuffer) S0 = Outcome.Accepted G C →
      ∃ P, parseFile (NtCodeParser.ofBuffer dupBuffer) = some (true, P) ∧
        bucketOf P G = [C] ∧
        ∀ G1, validSeverity G1 → G1 ≠ G → bucketOf P G1 = [])) :=
  ⟨by decide, by decide, ⟨dupFirst, List.mem_singleton.2 rfl, by decide⟩,
    duplicate_skipped dupBuffer [dupFirst] [] dupSecond 0x40000001 (by decide) (by decide)
      ⟨dupFirst, List.mem_singleton.2 rfl, by decide⟩⟩

theorem mem_acceptedWith (Log : List (StringRef × Outcome)) (S : StringRef)
    (G : StatusGroup) (C : NtStatus) (h : (S, Outcome.Accepted G C) ∈ Log) :
    C ∈ acceptedWith G Log := by
  unfold acceptedWith
  rw [List.mem_filterMap]
  exact ⟨(S, Outcome.Accepted G C), h, by simp⟩

theorem acceptedWith_mem (Log : List (StringRef × Outcome)) (G : StatusGroup) (C : NtStatus)
    (h : C ∈ acceptedWith G Log) : ∃ S, (S, Outcome.Accepted G C) ∈ Log := by
  unfold acceptedWith at h
  rw [List.mem_filterMap] at h
  obtain ⟨⟨S, o⟩, hmem, hf⟩ := h
  cases o with
  | Accepted G1 C1 =>
    dsimp only at hf
    by_cases hG : G1 = G
    · rw [if_pos hG] at hf
      cases hf
      subst hG
      exact ⟨S, hmem⟩
    · rw [if_neg hG] at hf
      cases hf
  | DuplicateSkipped => cases hf
  | Rejected => cases hf

set_option maxRecDepth 1000000 in
/-- C6: `parseFile` returns true, and `parseSuccessful` is true afterwards,
exactly when every slice of the buffer was accepted or skipped as a duplicate;
an accepted record is in the bucket of its severity whatever the flag; a
skipped duplicate repeats the raw value of an earlier slice; a buffer without
slices parses with flag true and empty buckets; and in the three-record
example the records before and after the rejected one are stored while the
flag is false. -/
theorem parse_flag_iff :
    (∀ Buf : StringRef,
      ∃ Flag P, parseFile (NtCodeParser.ofBuffer Buf) = some (Flag, P) ∧
        parseSuccessful P = Flag ∧
        (outcomes Buf).map Prod.fst = sections Buf ∧
        (Flag = true ↔
          ∀ e ∈ outcomes Buf, (∃ G C, e.2 = Outcome.Accepted G C)
            ∨ e.2 = Outcome.DuplicateSkipped) ∧
        (∀ S G C, (S, Outcome.Accepted G C) ∈ outcomes Buf →
          validSeverity G ∧ C ∈ bucketOf P G) ∧
        (∀ L1 L2 S, outcomes Buf = L1 ++ (S, Outcome.DuplicateSkipped) :: L2 →
          ∃ v, codeField S = some v ∧ ∃ e ∈ L1, codeField e.1 = some v) ∧
        (sections Buf = [] →
          Flag = true ∧ P.successes = [] ∧ P.infos = [] ∧ P.warnings = [] ∧ P.errors = [])) ∧
    parseFile (NtCodeParser.ofBuffer mixedBuffer)
      = some (false,
          { SPBuf := [], didParseSuccessfully := false,
            parsedValues := [0x80000005, 0x00000001], hadDuplicate := false,
            successes := [{ Code := 1, SG := Subgroup.STATUS, Name := "WAIT_1".toList,
                            Message := "One.".toList }],
            infos := [],
            warnings := [{ Code := 5, SG := Subgroup.STATUS,
                           Name := "BUFFER_OVERFLOW".toList, Message := "Three.".toList }],
            errors := [] }) := by
  refine ⟨?_, by decide⟩
  intro Buf
  have hd : (NtCodeParser.ofBuffer Buf, true).1.hadDuplicate = false := rfl
  refine ⟨_, _, parseFile_eq _, rfl, outcomesFrom_fst _ _, ?_, ?_, ?_, ?_⟩
  · show ((sections Buf).foldl processSection (NtCodeParser.ofBuffer Buf, true)).2 = true ↔ _
    rw [run_flag _ _ hd]
    constructor
    · rintro ⟨-, h⟩ e he
      have hne := h e he
      cases ho : e.2 with
      | Accepted G C => exact Or.inl ⟨G, C, rfl⟩
      | DuplicateSkipped => exact Or.inr rfl
      | Rejected => exact absurd ho hne
    · intro h
      refine ⟨rfl, fun e he => ?_⟩
      rcases h e he with ⟨G, C, ho⟩ | ho <;> rw [ho] <;> simp
  · intro S G C hmem
    obtain ⟨v, -, -, -, hG, -⟩ := outcomesFrom_accepted _ _ hd S G C hmem
    refine ⟨hG, ?_⟩
    have hb := run_bucket (sections Buf) _ hd G hG
    rw [bucketOf_ofBuffer, List.nil_append] at hb
    show C ∈ bucketOf ((sections Buf).foldl processSection (NtCodeParser.ofBuffer Buf, true)).1 G
    rw [hb]
    exact mem_acceptedWith _ S G C hmem
  · intro L1 L2 S hL
    obtain ⟨v, hc, hv⟩ := outcomesFrom_duplicate _ _ hd L1 L2 S hL
    rcases hv with hv | hv
    · cases hv
    · exact ⟨v, hc, hv⟩
  · intro hnil
    have e : (NtCodeParser.ofBuffer Buf).SPBuf = Buf := rfl
    rw [e, hnil]
    exact ⟨rfl, rfl, rfl, rfl, rfl⟩

theorem bucketOf_invalid (P : NtCodeParser) (G : StatusGroup) (hG : ¬ validSeverity G) :
    bucketOf P G = [] := by
  unfold validSeverity at hG
  unfold bucketOf
  split <;> first | rfl | (exfalso; apply hG; simp)

theorem bad_value_rejected (Buf S : StringRef) (v : Nat) (hS : S ∈ sections Buf)
    (hc : codeField S = some v)
    (hbad : ¬ validSeverity (severityOf v) ∨ GetSubgroupPrefix (subgroupOf v) = []) :
    ∃ P, parseFile (NtCodeParser.ofBuffer Buf) = some (false, P) ∧
      parseSuccessful P = false ∧
      (∀ o, (S, o) ∈ outcomes Buf → o = Outcome.Rejected ∨ o = Outcome.DuplicateSkipped) ∧
      (∀ G C, C ∈ bucketOf P G → pack G C.SG C.Code ≠ v) := by
  have hd : (NtCodeParser.ofBuffer Buf, true).1.hadDuplicate = false := rfl
  have hflag : ((sections Buf).foldl processSection (NtCodeParser.ofBuffer Buf, true)).2
      = false :=
    run_rejects _ _ v hd hbad (fun hin => by cases hin) ⟨S, hS, hc⟩
  have hnot : ∀ S1 G C, (S1, Outcome.Accepted G C) ∈ outcomes Buf →
      pack G C.SG C.Code ≠ v ∧ codeField S1 ≠ some v := by
    intro S1 G C hmem
    obtain ⟨w, h1, h2, h3, h4, h5, h6, h7⟩ := outcomesFrom_accepted _ _ hd S1 G C hmem
    have hw : ¬ (¬ validSeverity (severityOf w) ∨ GetSubgroupPrefix (subgroupOf w) = []) := by
      rintro (hb | hb)
      · exact hb (h3 ▸ h4)
      · exact h5 hb
    have hpk : pack G C.SG C.Code = w := by
      rw [h3, h6, h7]; exact pack_fields w h2
    constructor
    · rw [hpk]; rintro rfl; exact hw hbad
    · rw [h1]; intro e; cases e; exact hw hbad
  refine ⟨(finish ((sections Buf).foldl processSection (NtCodeParser.ofBuffer Buf, true))
      (scanRest Buf)).2, ?_, ?_, ?_, ?_⟩
  · rw [parseFile_eq]
    show some (finish ((sections Buf).foldl processSection (NtCodeParser.ofBuffer Buf, true))
      (scanRest Buf)) = _
    unfold finish
    rw [hflag]
  · exact hflag
  · intro o hmem
    cases o with
    | Accepted G C => exact absurd hc (hnot S G C hmem).2
    | DuplicateSkipped => exact Or.inr rfl
    | Rejected => exact Or.inl rfl
  · intro G C hC
    by_cases hG : validSeverity G
    · rw [bucketOf_finish, run_bucket _ _ hd G hG, bucketOf_ofBuffer, List.nil_append] at hC
      obtain ⟨S1, hmem⟩ := acceptedWith_mem _ G C hC
      exact (hnot S1 G C hmem).1
    · rw [bucketOf_invalid _ G hG] at hC
      cases hC

theorem bad_value_step_buckets (P : NtCodeParser) (b : Bool) (S : StringRef) (v : Nat)
    (hd : P.hadDuplicate = false) (hc : codeField S = some v)
    (hbad : ¬ validSeverity (severityOf v) ∨ GetSubgroupPrefix (subgroupOf v) = [])
    (G : StatusGroup) :
    bucketOf (processSection (P, b) S).1 G = bucketOf P G := by
  by_cases hG : validSeverity G
  · rw [step_bucket P b S hd G hG]
    have hnone : acceptedWith G [(S, sectionOutcome P S)] = [] := by
      cases ho : sectionOutcome P S with
      | Accepted G1 C1 =>
        exfalso
        obtain ⟨w, h1, -, -, h3, h4, h5, -⟩ := step_accepted P S G1 C1 hd ho
        rw [hc] at h1
        cases h1
        rcases hbad with hb | hb
        · exact hb (h3 ▸ h4)
        · exact h5 hb
      | DuplicateSkipped => simp [acceptedWith]
      | Rejected => simp [acceptedWith]
    rw [hnone, List.append_nil]
  · rw [bucketOf_invalid _ G hG, bucketOf_invalid _ G hG]

theorem bad_value_sources (Buf S : StringRef) (v : Nat) (hc : codeField S = some v)
    (hbad : ¬ validSeverity (severityOf v) ∨ GetSubgroupPrefix (subgroupOf v) = [])
    (G : StatusGroup) (C : NtStatus)
    (hC : C ∈ bucketOf (finish ((sections Buf).foldl processSection
      (NtCodeParser.ofBuffer Buf, true)) (scanRest Buf)).2 G) :
    ∃ S1 w, (S1, Outcome.Accepted G C) ∈ outcomes Buf ∧ codeField S1 = some w ∧ w ≠ v ∧
      S1 ≠ S := by
  have hd : (NtCodeParser.ofBuffer Buf, true).1.hadDuplicate = false := rfl
  by_cases hG : validSeverity G
  · rw [bucketOf_finish, run_bucket _ _ hd G hG, bucketOf_ofBuffer, List.nil_append] at hC
    obtain ⟨S1, hmem⟩ := acceptedWith_mem _ G C hC
    obtain ⟨w, h1, -, h3, h4, h5, -, -⟩ := outcomesFrom_accepted _ _ hd S1 G C hmem
    have hw : w ≠ v := by
      rintro rfl
      rcases hbad with hb | hb
      · exact hb (h3 ▸ h4)
      · exact h5 hb
    refine ⟨S1, w, hmem, h1, hw, ?_⟩
    rintro rfl
    rw [hc] at h1
    cases h1
    exact hw rfl
  · rw [bucketOf_invalid _ G hG] at hC
    cases hC

/-- C7: when a slice of the buffer has a code field whose raw value has a top
nibble other than 0x0, 0x4, 0x8, 0xC, `parseFile` returns false; that slice
is never accepted; wherever the slice stands in the run, processing it leaves
every bucket as it was; every record a bucket holds at the end was accepted
from another slice, whose raw value is a different one; and no bucket holds a
record that packs to that raw value. -/
theorem invalid_severity_rejected (Buf S : StringRef) (v : Nat) (hS : S ∈ sections Buf)
    (hc : codeField S = some v) (hbad : ¬ validSeverity (v / 2 ^ 28)) :
    (∃ P, parseFile (NtCodeParser.ofBuffer Buf) = some (false, P) ∧
      parseSuccessful P = false ∧
      (∀ o, (S, o) ∈ outcomes Buf → o = Outcome.Rejected ∨ o = Outcome.DuplicateSkipped) ∧
      (∀ G C, C ∈ bucketOf P G → pack G C.SG C.Code ≠ v) ∧
      (∀ G C, C ∈ bucketOf P G →
        ∃ S1 w, (S1, Outcome.Accepted G C) ∈ outcomes Buf ∧ codeField S1 = some w ∧
          w ≠ v ∧ S1 ≠ S)) ∧
    (∀ Pre Post, sections Buf = Pre ++ S :: Post → ∀ G,
      bucketOf (processSection
          (Pre.foldl processSection (NtCodeParser.ofBuffer Buf, true)) S).1 G
        = bucketOf (Pre.foldl processSection (NtCodeParser.ofBuffer Buf, true)).1 G) ∧
    (∀ P0 b, P0.hadDuplicate = false → ∀ G,
      bucketOf (processSection (P0, b) S).1 G = bucketOf P0 G) := by
  have hv := codeField_lt S v hc
  have e : severityOf v = v / 2 ^ 28 := by
    have e1 : v / 2 ^ 28 % 2 ^ 4 = v / 2 ^ 28 := by omega
    exact e1
  have hbad2 : ¬ validSeverity (severityOf v) ∨ GetSubgroupPrefix (subgroupOf v) = [] :=
    Or.inl (by rw [e]; exact hbad)
  have hd : (NtCodeParser.ofBuffer Buf, true).1.hadDuplicate = false := rfl
  refine ⟨?_, ?_, ?_⟩
  · obtain ⟨P, h1, h2, h3, h4⟩ := bad_value_rejected Buf S v hS hc hbad2
    refine ⟨P, h1, h2, h3, h4, ?_⟩
    intro G C hC
    have hP : P = (finish ((sections Buf).foldl processSection
        (NtCodeParser.ofBuffer Buf, true)) (scanRest Buf)).2 := by
      have h5 := parseFile_eq (NtCodeParser.ofBuffer Buf)
      rw [h1] at h5
      have h6 := congrArg (Option.map Prod.snd) h5
      simp only [Option.map_some', Option.some.injEq] at h6
      exact h6
    rw [hP] at hC
    exact bad_value_sources Buf S v hc hbad2 G C hC
  · intro Pre Post _ G
    have hd0 := run_hadDuplicate Pre _ hd
    rcases hst : Pre.foldl processSection (NtCodeParser.ofBuffer Buf, true) with ⟨P0, b0⟩
    rw [hst] at hd0
    exact bad_value_step_buckets P0 b0 S v hd0 hc hbad2 G
  · intro P0 b hd0 G
    exact bad_value_step_buckets P0 b S v hd0 hc hbad2 G

set_option maxRecDepth 1000000 in
theorem invalid_severity_rejected_witness :
    badSeveritySlice ∈ sections badSeverityBuffer ∧
    codeField badSeveritySlice = some 0x10000005 ∧
    ¬ validSeverity (0x10000005 / 2 ^ 28) ∧
    ((∃ P, parseFile (NtCodeParser.ofBuffer badSeverityBuffer) = some (false, P) ∧
      parseSuccessful P = false ∧
      (∀ o, (badSeveritySlice, o) ∈ outcomes badSeverityBuffer →
        o = Outcome.Rejected ∨ o = Outcome.DuplicateSkipped) ∧
      (∀ G C, C ∈ bucketOf P G → pack G C.SG C.Code ≠ 0x10000005) ∧
      (∀ G C, C ∈ bucketOf P G →
        ∃ S1 w, (S1, Outcome.Accepted G C) ∈ outcomes badSeverityBuffer ∧
          codeField S1 = some w ∧ w ≠ 0x10000005 ∧ S1 ≠ badSeveritySlice)) ∧
    (∀ Pre Post, sections badSeverityBuffer = Pre ++ badSeveritySlice :: Post → ∀ G,
      bucketOf (processSection
          (Pre.foldl processSection (NtCodeParser.ofBuffer badSeverityBuffer, true))
          badSeveritySlice).1 G
        = bucketOf (Pre.foldl processSection
            (NtCodeParser.ofBuffer badSeverityBuffer, true)).1 G) ∧
    (∀ P0 b, P0.hadDuplicate = false → ∀ G,
      bucketOf (processSection (P0, b) badSeveritySlice).1 G = bucketOf P0 G)) :=
  ⟨by decide, by decide, by decide,
    invalid_severity_rejected badSeverityBuffer badSeveritySlice 0x10000005
      (by decide) (by decide) (by decide)⟩

/-- C8: when a slice of the buffer has a code field whose raw value has
subgroup bits 12 to 27 outside the known raw facility values, `parseFile`
returns false, that slice is never accepted, and no bucket holds a record that
packs to that raw value; the meta-subgroup identifiers 0xF00, 0xF01 and 0xF02
are not known facilities and have an empty prefix. -/
theorem invalid_subgroup_rejected (Buf S : StringRef) (v : Nat) (hS : S ∈ sections Buf)
    (hc : codeField S = some v) (hbad : v / 2 ^ 12 % 2 ^ 16 ∉ knownFacilities) :
    (∃ P, parseFile (NtCodeParser.ofBuffer Buf) = some (false, P) ∧
      parseSuccessful P = false ∧
      (∀ o, (S, o) ∈ outcomes Buf → o = Outcome.Rejected ∨ o = Outcome.DuplicateSkipped) ∧
      (∀ G C, C ∈ bucketOf P G → pack G C.SG C.Code ≠ v)) ∧
    (∀ SG ∈ [Subgroup.RPC, Subgroup.NDIS, Subgroup.IPSEC],
      SG ∉ knownFacilities ∧ GetSubgroupPrefix SG = []) := by
  constructor
  · have hpre : GetSubgroupPrefix (subgroupOf v) = [] := by
      by_contra hne
      exact hbad ((GetSubgroupPrefix_ne_nil_iff _).1 hne)
    exact bad_value_rejected Buf S v hS hc (Or.inr hpre)
  · decide

set_option maxRecDepth 1000000 in
theorem invalid_subgroup_rejected_witness :
    badSubgroupSlice ∈ sections badSubgroupBuffer ∧
    codeField badSubgroupSlice = some 0xC0F00001 ∧
    0xC0F00001 / 2 ^ 12 % 2 ^ 16 ∉ knownFacilities ∧
    (∃ P, parseFile (NtCodeParser.ofBuffer badSubgroupBuffer) = some (false, P) ∧
      parseSuccessful P = false ∧
      (∀ o, (badSubgroupSlice, o) ∈ outcomes badSubgroupBuffer →
        o = Outcome.Rejected ∨ o = Outcome.DuplicateSkipped) ∧
      (∀ G C, C ∈ bucketOf P G → pack G C.SG C.Code ≠ 0xC0F00001)) ∧
    (∀ SG ∈ [Subgroup.RPC, Subgroup.NDIS, Subgroup.IPSEC],
      SG ∉ knownFacilities ∧ GetSubgroupPrefix SG = []) :=
  ⟨by decide, by decide, by decide,
    invalid_subgroup_rejected badSubgroupBuffer badSubgroupSlice 0xC0F00001
      (by decide) (by decide) (by decide)⟩

/-! ## The tag scanner: claims -/

/-- C9, as stated, fails on `<tr>x</tr>y`: the first `<tr>` is at offset 0, the
first `</tr>` after it follows one character later, the text strictly between
them is `x`, and `consumeNextSection` returns `<tr>x`. -/
theorem scanner_slice_keeps_open_marker :
    StringRef.find "<tr>x</tr>y".toList "<tr>".toList = some 0 ∧
    StringRef.find ("<tr>x</tr>y".toList.drop (0 + 4)) "</tr>".toList = some 1 ∧
    ("<tr>x</tr>y".toList.drop (0 + 4)).take 1 = "x".toList ∧
    (consumeNextSection (NtCodeParser.ofBuffer "<tr>x</tr>y".toList)).1
      = some "<tr>x".toList ∧
    (consumeNextSection (NtCodeParser.ofBuffer "<tr>x</tr>y".toList)).1
      ≠ some "x".toList := by
  decide

/-- C9, amended: when the first `<tr>` of the buffer is at offset `b` and the
first `</tr>` after it starts `e` characters behind that marker,
`consumeNextSection` returns the text from that `<tr>`, the marker included,
up to the `</tr>`, the closing marker excluded, and leaves the cursor right
after that `</tr>`. -/
theorem scanner_slice (P : NtCodeParser) (b e : Nat)
    (hopen : StringRef.find P.SPBuf "<tr>".toList = some b)
    (hclose : StringRef.find (P.SPBuf.drop (b + 4)) "</tr>".toList = some e) :
    consumeNextSection P
      = (some ("<tr>".toList ++ (P.SPBuf.drop (b + 4)).take e),
          { P with SPBuf := P.SPBuf.drop (b + 4 + e + 5) }) ∧
    P.SPBuf = P.SPBuf.take b ++ ("<tr>".toList ++ (P.SPBuf.drop (b + 4)).take e)
      ++ "</tr>".toList ++ P.SPBuf.drop (b + 4 + e + 5) ∧
    (∀ m, m < b → ¬ "<tr>".toList <+: P.SPBuf.drop m) ∧
    (∀ m, m < e → ¬ "</tr>".toList <+: P.SPBuf.drop (b + 4 + m)) := by
  obtain ⟨-, -, hfirst⟩ := find_eq_some _ _ _ hopen
  obtain ⟨hdec, -, hfirst2⟩ := find_eq_some _ _ _ hclose
  have ho := consumeNextSection_open P b hopen
  refine ⟨consumeNextSection_some P b e hopen hclose, ?_, hfirst, ?_⟩
  · have h5 : "</tr>".toList.length = 5 := rfl
    rw [h5, List.drop_drop] at hdec
    have e1 : b + 4 + (e + 5) = b + 4 + e + 5 := by omega
    rw [e1] at hdec
    calc P.SPBuf = P.SPBuf.take b ++ P.SPBuf.drop b := (List.take_append_drop b _).symm
      _ = P.SPBuf.take b ++ ("<tr>".toList ++ P.SPBuf.drop (b + 4)) := by rw [ho]
      _ = P.SPBuf.take b ++ ("<tr>".toList ++ ((P.SPBuf.drop (b + 4)).take e
            ++ "</tr>".toList ++ P.SPBuf.drop (b + 4 + e + 5))) := by rw [← hdec]
      _ = _ := by simp only [List.append_assoc]
  · intro m hm
    have := hfirst2 m hm
    rw [List.drop_drop] at this
    exact this

theorem scanner_slice_witness :
    StringRef.find (NtCodeParser.ofBuffer scanBuffer).SPBuf "<tr>".toList = some 2 ∧
    StringRef.find ((NtCodeParser.ofBuffer scanBuffer).SPBuf.drop (2 + 4)) "</tr>".toList
      = some 1 ∧
    (consumeNextSection (NtCodeParser.ofBuffer scanBuffer)
      = (some ("<tr>".toList ++ ((NtCodeParser.ofBuffer scanBuffer).SPBuf.drop (2 + 4)).take 1),
          { NtCodeParser.ofBuffer scanBuffer with
            SPBuf := (NtCodeParser.ofBuffer scanBuffer).SPBuf.drop (2 + 4 + 1 + 5) }) ∧
    (NtCodeParser.ofBuffer scanBuffer).SPBuf
      = (NtCodeParser.ofBuffer scanBuffer).SPBuf.take 2
        ++ ("<tr>".toList ++ ((NtCodeParser.ofBuffer scanBuffer).SPBuf.drop (2 + 4)).take 1)
        ++ "</tr>".toList ++ (NtCodeParser.ofBuffer scanBuffer).SPBuf.drop (2 + 4 + 1 + 5) ∧
    (∀ m, m < 2 → ¬ "<tr>".toList <+: (NtCodeParser.ofBuffer scanBuffer).SPBuf.drop m) ∧
    (∀ m, m < 1 →
      ¬ "</tr>".toList <+: (NtCodeParser.ofBuffer scanBuffer).SPBuf.drop (2 + 4 + m))) :=
  ⟨by decide, by decide,
    scanner_slice (NtCodeParser.ofBuffer scanBuffer) 2 1 (by decide) (by decide)⟩

set_option maxRecDepth 1000000 in
/-- C10: when the remaining buffer holds no `<tr>`, or its first `<tr>` is not
followed by any `</tr>`, `consumeNextSection` returns none and the scanner
yields no slice; the loop of `parseFile` then stops at once, keeping the flag
and the four buckets it has reached; so `parseFile` on a buffer that ends in
a record that is never closed stores the complete records only and returns
true. -/
theorem scanner_end_of_input (P : NtCodeParser) (Flag : Bool) (fuel : Nat)
    (h : ¬ "<tr>".toList <:+: P.SPBuf ∨
      ∃ b, StringRef.find P.SPBuf "<tr>".toList = some b ∧
        ¬ "</tr>".toList <:+: P.SPBuf.drop (b + 4)) :
    (consumeNextSection P).1 = none ∧
    sections P.SPBuf = [] ∧
    (∃ P1, parseFileLoop (fuel + 1) P Flag = some (Flag, P1) ∧
      P1.didParseSuccessfully = Flag ∧
      P1.successes = P.successes ∧ P1.infos = P.infos ∧
      P1.warnings = P.warnings ∧ P1.errors = P.errors ∧
      P1.parsedValues = P.parsedValues) ∧
    parseFile (NtCodeParser.ofBuffer trailingBuffer)
      = some (true,
          { SPBuf := ("<tr><p>0xC0000005</p><p>STATUS_ACCESS_VIOLATION</p>"
              ++ "<p>Cut off").toList,
            didParseSuccessfully := true, parsedValues := [0x00000000],
            hadDuplicate := false,
            successes := [{ Code := 0, SG := Subgroup.STATUS, Name := "SUCCESS".toList,
                            Message := "Fine.".toList }],
            infos := [], warnings := [], errors := [] }) := by
  have hnone : ∃ R, consumeNextSection P = (none, { P with SPBuf := R }) := by
    rcases h with h | ⟨b, hb, hc⟩
    · exact ⟨P.SPBuf, consumeNextSection_none P ((find_eq_none_iff _ _).2 h)⟩
    · exact ⟨_, consumeNextSection_unterminated P b hb ((find_eq_none_iff _ _).2 hc)⟩
  obtain ⟨R, hR⟩ := hnone
  refine ⟨by rw [hR], ?_, ?_, by decide⟩
  · have hb := consumeNextSection_buf P
    rw [hR] at hb
    have h1 : (consumeNextSection (NtCodeParser.ofBuffer P.SPBuf)).1 = none :=
      (congrArg Prod.fst hb).symm
    unfold sections
    rw [sectionsLoop]
    rcases hc : consumeNextSection (NtCodeParser.ofBuffer P.SPBuf) with ⟨_ | S, Q⟩
    · rfl
    · rw [hc] at h1; cases h1
  · refine ⟨{ P with SPBuf := R, didParseSuccessfully := Flag }, ?_, rfl, rfl, rfl, rfl, rfl,
      rfl⟩
    rw [parseFileLoop, hR]

set_option maxRecDepth 1000000 in
theorem scanner_end_of_input_witness :
    (¬ "<tr>".toList <:+: (NtCodeParser.ofBuffer unclosedBuffer).SPBuf ∨
      ∃ b, StringRef.find (NtCodeParser.ofBuffer unclosedBuffer).SPBuf "<tr>".toList = some b ∧
        ¬ "</tr>".toList <:+: (NtCodeParser.ofBuffer unclosedBuffer).SPBuf.drop (b + 4)) ∧
    ((consumeNextSection (NtCodeParser.ofBuffer unclosedBuffer)).1 = none ∧
    sections (NtCodeParser.ofBuffer unclosedBuffer).SPBuf = [] ∧
    (∃ P1, parseFileLoop (0 + 1) (NtCodeParser.ofBuffer unclosedBuffer) true = some (true, P1) ∧
      P1.didParseSuccessfully = true ∧
      P1.successes = (NtCodeParser.ofBuffer unclosedBuffer).successes ∧
      P1.infos = (NtCodeParser.ofBuffer unclosedBuffer).infos ∧
      P1.warnings = (NtCodeParser.ofBuffer unclosedBuffer).warnings ∧
      P1.errors = (NtCodeParser.ofBuffer unclosedBuffer).errors ∧
      P1.parsedValues = (NtCodeParser.ofBuffer unclosedBuffer).parsedValues) ∧
    parseFile (NtCodeParser.ofBuffer trailingBuffer)
      = some (true,
          { SPBuf := ("<tr><p>0xC0000005</p><p>STATUS_ACCESS_VIOLATION</p>"
              ++ "<p>Cut off").toList,
            didParseSuccessfully := true, parsedValues := [0x00000000],
            hadDuplicate := false,
            successes := [{ Code := 0, SG := Subgroup.STATUS, Name := "SUCCESS".toList,
                            Message := "Fine.".toList }],
            infos := [], warnings := [], errors := [] })) :=
  have h : ¬ "<tr>".toList <:+: (NtCodeParser.ofBuffer unclosedBuffer).SPBuf ∨
      ∃ b, StringRef.find (NtCodeParser.ofBuffer unclosedBuffer).SPBuf "<tr>".toList = some b ∧
        ¬ "</tr>".toList <:+: (NtCodeParser.ofBuffer unclosedBuffer).SPBuf.drop (b + 4) :=
    Or.inr ⟨2, by decide, (find_eq_none_iff _ _).1 (by decide)⟩
  ⟨h, scanner_end_of_input (NtCodeParser.ofBuffer unclosedBuffer) true 0 h⟩

/-! ## The large group threshold -/

/-- C14: `IsLargeGroup` is true exactly when the bucket holds more records than
the threshold, so a bucket of exactly the threshold size is not large and one
record more makes it large; the initial threshold is 64; and after
`SetLargeGroupSize(-1)`, where the argument converts to the largest `size_t`
value, no bucket whose size fits `size_t` is large. -/
theorem isLargeGroup_boundary (t old : Nat) (Statuses : List NtStatus)
    (hsize : Statuses.length < 2 ^ 64) :
    (IsLargeGroup t Statuses = true ↔ Statuses.length > t) ∧
    (Statuses.length = t → IsLargeGroup t Statuses = false) ∧
    (Statuses.length = t + 1 → IsLargeGroup t Statuses = true) ∧
    GetLargeGroupSize largeGroupSizeDefault = 64 ∧
    (IsLargeGroup (GetLargeGroupSize largeGroupSizeDefault) Statuses = true
      ↔ Statuses.length > 64) ∧
    toSizeT (-1) = 2 ^ 64 - 1 ∧
    GetLargeGroupSize (SetLargeGroupSize old (toSizeT (-1))) = 2 ^ 64 - 1 ∧
    IsLargeGroup (SetLargeGroupSize old (toSizeT (-1))) Statuses = false := by
  have hmax : toSizeT (-1) = 2 ^ 64 - 1 := by decide
  refine ⟨?_, ?_, ?_, rfl, ?_, hmax, ?_, ?_⟩
  · simp [IsLargeGroup]
  · intro h; simp [IsLargeGroup, h]
  · intro h; simp [IsLargeGroup, h]
  · simp [IsLargeGroup, GetLargeGroupSize, largeGroupSizeDefault]
  · simp [GetLargeGroupSize, SetLargeGroupSize, hmax]
  · simp only [IsLargeGroup, SetLargeGroupSize, hmax, decide_eq_false_iff_not, not_lt]
    omega

theorem isLargeGroup_boundary_witness :
    [exampleSuccess, exampleError].length < 2 ^ 64 ∧
    ((IsLargeGroup 1 [exampleSuccess, exampleError] = true
        ↔ [exampleSuccess, exampleError].length > 1) ∧
    ([exampleSuccess, exampleError].length = 1
      → IsLargeGroup 1 [exampleSuccess, exampleError] = false) ∧
    ([exampleSuccess, exampleError].length = 1 + 1
      → IsLargeGroup 1 [exampleSuccess, exampleError] = true) ∧
    GetLargeGroupSize largeGroupSizeDefault = 64 ∧
    (IsLargeGroup (GetLargeGroupSize largeGroupSizeDefault) [exampleSuccess, exampleError] = true
      ↔ [exampleSuccess, exampleError].length > 64) ∧
    toSizeT (-1) = 2 ^ 64 - 1 ∧
    GetLargeGroupSize (SetLargeGroupSize 64 (toSizeT (-1))) = 2 ^ 64 - 1 ∧
    IsLargeGroup (SetLargeGroupSize 64 (toSizeT (-1))) [exampleSuccess, exampleError] = false) :=
  ⟨by decide, isLargeGroup_boundary 1 64 [exampleSuccess, exampleError] (by decide)⟩

/-! ## Message normalisation -/

theorem find_crlf_cons2 (c d : Char) (t : StringRef) :
    StringRef.find (c :: d :: t) CRLF
      = if c = '\r' ∧ d = '\n' then some 0 else (StringRef.find (d :: t) CRLF).map (· + 1) := by
  rw [StringRef.find]
  simp only [CRLF, StringRef.starts_with]
  by_cases hc : c = '\r' <;> by_cases hd : d = '\n' <;> simp [hc, hd]

theorem find_crlf_short (c : Char) :
    StringRef.find [] CRLF = none ∧ StringRef.find [c] CRLF = none := by
  constructor
  · rfl
  · simp [StringRef.find, CRLF, StringRef.starts_with]

theorem stripCRLF_of_find_none (m : StringRef) (h : StringRef.find m CRLF = none) :
    stripCRLF m = m := by
  induction m using stripCRLF.induct with
  | case1 => rfl
  | case2 c => rfl
  | case3 c d t hcd ih =>
    rw [find_crlf_cons2, if_pos hcd] at h
    cases h
  | case4 c d t hcd ih =>
    rw [find_crlf_cons2, if_neg hcd, Option.map_eq_none'] at h
    rw [stripCRLF, if_neg hcd, ih h]

theorem stripCRLF_of_find_some (m : StringRef) (p : Nat)
    (h : StringRef.find m CRLF = some p) :
    stripCRLF m = m.take p ++ stripCRLF (m.drop (p + 2)) ∧ p + 2 ≤ m.length := by
  induction m using stripCRLF.induct generalizing p with
  | case1 => rw [(find_crlf_short 'a').1] at h; cases h
  | case2 c => rw [(find_crlf_short c).2] at h; cases h
  | case3 c d t hcd ih =>
    rw [find_crlf_cons2, if_pos hcd] at h
    cases h
    rw [stripCRLF, if_pos hcd]
    simp
  | case4 c d t hcd ih =>
    rw [find_crlf_cons2, if_neg hcd, Option.map_eq_some'] at h
    obtain ⟨q, hq, rfl⟩ := h
    obtain ⟨h1, h2⟩ := ih q hq
    rw [stripCRLF, if_neg hcd, h1]
    constructor
    · simp
    · simp only [List.length_cons] at h2 ⊢
      omega

theorem formatMessageLoop_eq (fuel : Nat) (Msg acc : StringRef) (hfuel : Msg.length < fuel) :
    ∃ Rest acc1, formatMessageLoop fuel Msg acc = some (Rest, acc1) ∧
      acc1 ++ Rest = acc ++ stripCRLF Msg := by
  induction fuel generalizing Msg acc with
  | zero => exact absurd hfuel (Nat.not_lt_zero _)
  | succ fuel ih =>
    rw [formatMessageLoop]
    have hcrlf : "\r\n".toList = CRLF := rfl
    rw [hcrlf]
    cases hf : StringRef.find Msg CRLF with
    | none => exact ⟨Msg, acc, rfl, by rw [stripCRLF_of_find_none Msg hf]⟩
    | some p =>
      obtain ⟨h1, h2⟩ := stripCRLF_of_find_some Msg p hf
      have hlen : (StringRef.drop_front Msg (p + 2)).length < fuel := by
        simp only [StringRef.drop_front, List.length_drop]
        omega
      obtain ⟨Rest, acc1, h3, h4⟩ := ih (StringRef.drop_front Msg (p + 2))
        (acc ++ StringRef.take_front Msg p) hlen
      refine ⟨Rest, acc1, h3, ?_⟩
      rw [h4, h1, List.append_assoc]
      rfl

theorem formatMessage_eq (E : GroupEmitter) (Status : NtStatus) :
    formatMessage E Status
      = some (stripCRLF Status.Message, { E with storedMsg := stripCRLF Status.Message }) := by
  obtain ⟨Rest, acc1, h1, h2⟩ :=
    formatMessageLoop_eq (Status.Message.length + 1) Status.Message [] (Nat.lt_succ_self _)
  rw [formatMessage, h1]
  simp only [List.nil_append] at h2
  simp only [h2]

theorem crlfPieces_head (d : Char) (t : StringRef) :
    ∃ p0 ps, crlfPieces (d :: t) = p0 :: ps ∧ (p0 = [] ∨ ∃ q, p0 = d :: q) := by
  cases t with
  | nil => exact ⟨[d], [], rfl, Or.inr ⟨[], rfl⟩⟩
  | cons e t =>
    rw [crlfPieces]
    by_cases hcd : d = '\r' ∧ e = '\n'
    · rw [if_pos hcd]
      exact ⟨[], _, rfl, Or.inl rfl⟩
    · rw [if_neg hcd]
      cases crlfPieces (e :: t) with
      | nil => exact ⟨[d], [], rfl, Or.inr ⟨[], rfl⟩⟩
      | cons p ps => exact ⟨d :: p, ps, rfl, Or.inr ⟨p, rfl⟩⟩

theorem crlfPieces_ne_nil (m : StringRef) : crlfPieces m ≠ [] := by
  cases m with
  | nil => simp [crlfPieces]
  | cons d t =>
    obtain ⟨p0, ps, h, -⟩ := crlfPieces_head d t
    rw [h]
    exact List.cons_ne_nil _ _

theorem crlfPieces_flatten (m : StringRef) : (crlfPieces m).flatten = stripCRLF m := by
  induction m using crlfPieces.induct with
  | case1 => rfl
  | case2 c => rfl
  | case3 c d t hcd ih =>
    rw [crlfPieces, if_pos hcd, stripCRLF, if_pos hcd, List.flatten_cons, List.nil_append, ih]
  | case4 c d t hcd ih =>
    rw [crlfPieces, if_neg hcd, stripCRLF, if_neg hcd, ← ih]
    obtain ⟨p0, ps, h, -⟩ := crlfPieces_head d t
    rw [h]
    rfl

theorem rejoinCRLF_cons_head (c : Char) (p : StringRef) (ps : List StringRef) :
    rejoinCRLF ((c :: p) :: ps) = c :: rejoinCRLF (p :: ps) := by
  cases ps <;> rfl

theorem crlfPieces_rejoin (m : StringRef) : rejoinCRLF (crlfPieces m) = m := by
  induction m using crlfPieces.induct with
  | case1 => rfl
  | case2 c => rfl
  | case3 c d t hcd ih =>
    rw [crlfPieces, if_pos hcd]
    obtain ⟨rfl, rfl⟩ := hcd
    cases hp : crlfPieces t with
    | nil => exact absurd hp (crlfPieces_ne_nil t)
    | cons q qs =>
      rw [hp] at ih
      rw [rejoinCRLF, ih]
      rfl
  | case4 c d t hcd ih =>
    rw [crlfPieces, if_neg hcd]
    obtain ⟨p0, ps, h, -⟩ := crlfPieces_head d t
    rw [h] at ih ⊢
    show rejoinCRLF ((c :: p0) :: ps) = _
    rw [rejoinCRLF_cons_head, ih]

theorem crlfPieces_free (m : StringRef) :
    ∀ p ∈ crlfPieces m, StringRef.find p CRLF = none := by
  induction m using crlfPieces.induct with
  | case1 =>
    intro p hp
    simp only [crlfPieces, List.mem_singleton] at hp
    subst hp
    rfl
  | case2 c =>
    intro p hp
    simp only [crlfPieces, List.mem_singleton] at hp
    subst hp
    exact (find_crlf_short c).2
  | case3 c d t hcd ih =>
    intro p hp
    rw [crlfPieces, if_pos hcd, List.mem_cons] at hp
    rcases hp with rfl | hp
    · rfl
    · exact ih p hp
  | case4 c d t hcd ih =>
    intro p hp
    rw [crlfPieces, if_neg hcd] at hp
    obtain ⟨p0, ps, h, hhead⟩ := crlfPieces_head d t
    rw [h] at ih hp
    simp only [consHead, List.mem_cons] at hp
    rcases hp with rfl | hp
    · rcases hhead with rfl | ⟨q, rfl⟩
      · exact (find_crlf_short c).2
      · rw [find_crlf_cons2, if_neg hcd, ih (d :: q) (List.mem_cons_self _ _)]
        rfl
    · exact ih p (List.mem_cons_of_mem _ hp)

/-- C19: `formatMessage` returns the pieces of the message, cut at every CRLF
found by a left-to-right scan, put one after the other with nothing between
them; the pieces with a CRLF between neighbours are the message itself and no
piece holds a CRLF, so every other character, a lone CR or LF included, is
kept in order; a message without CRLF comes back unchanged, and
`Line one<CRLF>Line two` renders as `Line oneLine two`. -/
theorem formatMessage_pieces (E : GroupEmitter) (Status : NtStatus) :
    formatMessage E Status
      = some ((crlfPieces Status.Message).flatten,
          { E with storedMsg := (crlfPieces Status.Message).flatten }) ∧
    rejoinCRLF (crlfPieces Status.Message) = Status.Message ∧
    (∀ p ∈ crlfPieces Status.Message, ¬ CRLF <:+: p) ∧
    (crlfPieces Status.Message).flatten = stripCRLF Status.Message ∧
    (¬ CRLF <:+: Status.Message →
      formatMessage E Status = some (Status.Message, { E with storedMsg := Status.Message })) ∧
    (formatMessage E (messageOnly "Line one\r\nLine two".toList)).map Prod.fst
      = some "Line oneLine two".toList ∧
    (formatMessage E (messageOnly "a\rb\nc\n\rd".toList)).map Prod.fst
      = some "a\rb\nc\n\rd".toList := by
  have hflat := crlfPieces_flatten Status.Message
  refine ⟨?_, crlfPieces_rejoin _, ?_, hflat, ?_, ?_, ?_⟩
  · rw [formatMessage_eq, hflat]
  · intro p hp
    exact (find_eq_none_iff _ _).1 (crlfPieces_free _ p hp)
  · intro hfree
    rw [formatMessage_eq, stripCRLF_of_find_none _ ((find_eq_none_iff _ _).2 hfree)]
  · rw [formatMessage_eq]
    exact congrArg some (by decide : stripCRLF "Line one\r\nLine two".toList
      = "Line oneLine two".toList)
  · rw [formatMessage_eq]
    exact congrArg some (by decide : stripCRLF "a\rb\nc\n\rd".toList
      = "a\rb\nc\n\rd".toList)

theorem stripCRLF_head_lf (t u : StringRef) (h : stripCRLF t = '\n' :: u) :
    ∃ j t1, t = crlfs j ++ '\n' :: t1 := by
  induction t using stripCRLF.induct with
  | case1 => simp [stripCRLF] at h
  | case2 c =>
    simp only [stripCRLF, List.cons.injEq] at h
    exact ⟨0, [], by rw [h.1]; rfl⟩
  | case3 c d t hcd ih =>
    rw [stripCRLF, if_pos hcd] at h
    obtain ⟨j, t1, ht⟩ := ih h
    obtain ⟨rfl, rfl⟩ := hcd
    exact ⟨j + 1, t1, by rw [ht]; rfl⟩
  | case4 c d t hcd ih =>
    rw [stripCRLF, if_neg hcd] at h
    simp only [List.cons.injEq] at h
    exact ⟨0, d :: t, by rw [h.1]; rfl⟩

theorem stripCRLF_crlf_origin (m : StringRef) (h : CRLF <:+: stripCRLF m) :
    ∃ k, 1 ≤ k ∧ crCrlfsLf k <:+: m := by
  induction m using stripCRLF.induct with
  | case1 =>
    have := List.eq_nil_of_infix_nil h
    cases this
  | case2 c =>
    have := h.length_le
    simp [stripCRLF, CRLF] at this
  | case3 c d t hcd ih =>
    rw [stripCRLF, if_pos hcd] at h
    obtain ⟨k, hk, hin⟩ := ih h
    exact ⟨k, hk, hin.trans ((List.suffix_cons d t).isInfix.trans (List.suffix_cons c _).isInfix)⟩
  | case4 c d t hcd ih =>
    rw [stripCRLF, if_neg hcd, List.infix_cons_iff] at h
    rcases h with h | h
    · obtain ⟨u, hu⟩ := h
      simp only [CRLF, List.cons_append, List.nil_append, List.cons.injEq] at hu
      obtain ⟨hc, hu⟩ := hu
      obtain ⟨j, t1, ht⟩ := stripCRLF_head_lf (d :: t) u hu.symm
      cases j with
      | zero =>
        simp only [crlfs, List.nil_append, List.cons.injEq] at ht
        exact absurd ⟨hc.symm, ht.1⟩ hcd
      | succ j =>
        refine ⟨j + 1, by omega, ?_⟩
        rw [ht, ← hc]
        refine (List.IsPrefix.isInfix ⟨t1, ?_⟩)
        simp [crCrlfsLf]
    · obtain ⟨k, hk, hin⟩ := ih h
      exact ⟨k, hk, hin.trans (List.suffix_cons c _).isInfix⟩

theorem stripCRLF_length (m : StringRef) : (stripCRLF m).length ≤ m.length := by
  induction m using stripCRLF.induct with
  | case1 => simp [stripCRLF]
  | case2 c => simp [stripCRLF]
  | case3 c d t hcd ih =>
    rw [stripCRLF, if_pos hcd]
    simp only [List.length_cons]
    omega
  | case4 c d t hcd ih =>
    rw [stripCRLF, if_neg hcd]
    simp only [List.length_cons] at ih ⊢
    omega

theorem stripCRLF_fixed_iff (m : StringRef) : stripCRLF m = m ↔ ¬ CRLF <:+: m := by
  constructor
  · intro hfix hin
    cases hf : StringRef.find m CRLF with
    | none => exact (find_eq_none_iff _ _).1 hf hin
    | some p =>
      obtain ⟨h1, h2⟩ := stripCRLF_of_find_some m p hf
      have hlen := congrArg List.length h1
      rw [hfix] at hlen
      have h3 := stripCRLF_length (List.drop (p + 2) m)
      simp only [List.length_append, List.length_take, List.length_drop] at hlen h3
      omega
  · intro hfree
    exact stripCRLF_of_find_none m ((find_eq_none_iff _ _).2 hfree)

theorem crCrlfsLf_not_infix (m : StringRef) (h : ¬ ['\r', '\r'] <:+: m) :
    ∀ k, 1 ≤ k → ¬ crCrlfsLf k <:+: m := by
  intro k hk hin
  cases k with
  | zero => omega
  | succ k =>
    apply h
    refine List.IsInfix.trans (List.IsPrefix.isInfix ⟨'\n' :: (crlfs k ++ ['\n']), ?_⟩) hin
    simp [crCrlfsLf, crlfs]

/-- C20, as stated, fails on the message CR CR LF LF: the scan removes the one
CRLF in the middle, the CR before it and the LF after it come together, and
the text returned is a CRLF, which a second normalisation would remove. -/
theorem formatMessage_result_with_crlf :
    (formatMessage {} (messageOnly ['\r', '\r', '\n', '\n'])).map Prod.fst
      = some ['\r', '\n'] ∧
    CRLF <:+: ['\r', '\n'] ∧
    (formatMessage {} (messageOnly ['\r', '\n'])).map Prod.fst = some [] ∧
    (formatMessage {} (messageOnly ['\r', '\n'])).map Prod.fst ≠ some ['\r', '\n'] := by
  refine ⟨by decide, ⟨[], [], rfl⟩, by decide, by decide⟩

/-- C20, amended: for a message in which no CR is followed by one or more CRLF
and then an LF, the text returned by `formatMessage` holds no CRLF, and
`formatMessage` applied to that text returns it unchanged; for any text, to
hold no CRLF and to be returned unchanged are the same. -/
theorem formatMessage_no_crlf (E E2 : GroupEmitter) (Status : NtStatus)
    (hno : ∀ k, 1 ≤ k → ¬ crCrlfsLf k <:+: Status.Message) :
    ∃ r Eo, formatMessage E Status = some (r, Eo) ∧
      ¬ CRLF <:+: r ∧
      formatMessage E2 { Status with Message := r } = some (r, { E2 with storedMsg := r }) ∧
      ∀ x : StringRef,
        ¬ CRLF <:+: x ↔
          formatMessage E2 { Status with Message := x } = some (x, { E2 with storedMsg := x }) := by
  have hfix : ∀ x : StringRef,
      ¬ CRLF <:+: x ↔
        formatMessage E2 { Status with Message := x }
          = some (x, { E2 with storedMsg := x }) := by
    intro x
    rw [formatMessage_eq, ← stripCRLF_fixed_iff]
    constructor
    · intro h
      simp only [h]
    · intro h
      simp only [Option.some.injEq, Prod.mk.injEq] at h
      exact h.1
  have hfree : ¬ CRLF <:+: stripCRLF Status.Message := by
    intro hin
    obtain ⟨k, hk, hpat⟩ := stripCRLF_crlf_origin _ hin
    exact hno k hk hpat
  exact ⟨_, _, formatMessage_eq E Status, hfree, (hfix _).1 hfree, hfix⟩

theorem formatMessage_no_crlf_witness :
    (∀ k, 1 ≤ k → ¬ crCrlfsLf k <:+: (messageOnly "Line one\r\nLine two".toList).Message) ∧
    ∃ r Eo, formatMessage {} (messageOnly "Line one\r\nLine two".toList) = some (r, Eo) ∧
      ¬ CRLF <:+: r ∧
      formatMessage {} { messageOnly "Line one\r\nLine two".toList with Message := r }
        = some (r, { ({} : GroupEmitter) with storedMsg := r }) ∧
      ∀ x : StringRef,
        ¬ CRLF <:+: x ↔
          formatMessage {} { messageOnly "Line one\r\nLine two".toList with Message := x }
            = some (x, { ({} : GroupEmitter) with storedMsg := x }) :=
  have h : ∀ k, 1 ≤ k →
      ¬ crCrlfsLf k <:+: (messageOnly "Line one\r\nLine two".toList).Message :=
    crCrlfsLf_not_infix _ ((find_eq_none_iff _ _).1 (by decide))
  ⟨h, formatMessage_no_crlf {} {} (messageOnly "Line one\r\nLine two".toList) h⟩

/-! ## Pascal-casing -/

theorem find_char_cons (x c : Char) (xs : StringRef) :
    StringRef.find (x :: xs) [c]
      = if x = c then some 0 else (StringRef.find xs [c]).map (· + 1) := by
  rw [StringRef.find]
  by_cases h : x = c
  · simp [StringRef.starts_with, h]
  · simp [StringRef.starts_with, h]

theorem find_char_none (A : StringRef) (c : Char) (h : c ∉ A) :
    StringRef.find A [c] = none := by
  induction A with
  | nil => rfl
  | cons x xs ih =>
    rw [List.mem_cons, not_or] at h
    rw [find_char_cons, if_neg (fun e => h.1 e.symm), ih h.2]
    rfl

theorem find_char_first (A R : StringRef) (c : Char) (h : c ∉ A) :
    StringRef.find (A ++ c :: R) [c] = some A.length := by
  induction A with
  | nil => rw [List.nil_append, find_char_cons, if_pos rfl]; rfl
  | cons x xs ih =>
    rw [List.mem_cons, not_or] at h
    rw [List.cons_append, find_char_cons, if_neg (fun e => h.1 e.symm), ih h.2]
    rfl

theorem MakePascalcase_eq_loop (Name : StringRef) :
    MakePascalcase Name
      = (MakePascalcaseLoop (Name.length + 1) Name []).map finishPascalcase := by
  unfold MakePascalcase
  cases MakePascalcaseLoop (Name.length + 1) Name [] with
  | none => rfl
  | some r =>
    obtain ⟨N, O⟩ := r
    cases N <;> rfl

theorem MakePascalcaseLoop_segments (segs : List StringRef) (fuel : Nat) (Output : StringRef)
    (hne : segs ≠ []) (hseg : ∀ s ∈ segs, s ≠ [] ∧ '_' ∉ s)
    (hfuel : (joinUnderscore segs).length < fuel) :
    (MakePascalcaseLoop fuel (joinUnderscore segs) Output).map finishPascalcase
      = some (Output ++ (segs.map keepFirstLowerRest).flatten) := by
  induction segs generalizing fuel Output with
  | nil => exact absurd rfl hne
  | cons s rest ih =>
    obtain ⟨hs1, hs2⟩ := hseg s (List.mem_cons_self _ _)
    cases fuel with
    | zero => exact absurd hfuel (Nat.not_lt_zero _)
    | succ fuel =>
      cases rest with
      | nil =>
        rw [joinUnderscore, MakePascalcaseLoop, find_char_none s '_' hs2]
        cases s with
        | nil => exact absurd rfl hs1
        | cons c cs => simp [finishPascalcase, keepFirstLowerRest]
      | cons t rest =>
        rw [joinUnderscore] at hfuel ⊢
        rw [MakePascalcaseLoop, find_char_first s _ '_' hs2]
        simp only [StringRef.take_front, StringRef.drop_front, List.take_left',
          List.drop_left']
        cases s with
        | nil => exact absurd rfl hs1
        | cons c cs =>
          have hlen : (joinUnderscore (t :: rest)).length < fuel := by
            simp only [List.length_append, List.length_cons] at hfuel
            omega
          have hih := ih fuel (Output ++ [c] ++ List.map tolower cs) (List.cons_ne_nil _ _)
            (fun s1 hs1 => hseg s1 (List.mem_cons_of_mem _ hs1)) hlen
          have hd : List.drop ((c :: cs).length + 1) (c :: cs ++ '_' :: joinUnderscore (t :: rest))
              = joinUnderscore (t :: rest) := by
            have := @List.drop_left' _ (c :: cs ++ ['_']) (joinUnderscore (t :: rest))
              ((c :: cs).length + 1) (by simp)
            simp at this
            simp [this]
          rw [hd]
          dsimp only
          rw [hih]
          simp [keepFirstLowerRest]

theorem upperFirst_eq_keepFirst (segs : List StringRef)
    (h : ∀ s ∈ segs, ∀ c ∈ s.head?, c.toUpper = c) :
    segs.map upperFirstLowerRest = segs.map keepFirstLowerRest := by
  apply List.map_congr_left
  intro s hs
  cases s with
  | nil => rfl
  | cons c cs =>
    have := h (c :: cs) hs c rfl
    simp [upperFirstLowerRest, keepFirstLowerRest, this]

/-- C18, as stated, fails on `access_denied`: the two segments begin with a
lower-case letter, `MakePascalcase` copies the first character of a segment as
it is, and the result is `accessdenied`, not `AccessDenied`. -/
theorem MakePascalcase_keeps_first_character :
    joinUnderscore ["access".toList, "denied".toList] = "access_denied".toList ∧
    MakePascalcase "access_denied".toList = some "accessdenied".toList ∧
    (["access".toList, "denied".toList].map upperFirstLowerRest).flatten
      = "AccessDenied".toList ∧
    MakePascalcase "access_denied".toList
      ≠ some (["access".toList, "denied".toList].map upperFirstLowerRest).flatten := by
  decide

/-- C18, amended: for a name made of one or more non-empty segments separated
by single `_`, `MakePascalcase` returns the segments one after the other with
the separators removed, the first character of each segment kept as it is and
every later character lower-cased; when every segment already begins with a
character that upper-casing leaves alone, this is the upper-cased form, as for
`ACCESS_VIOLATION`, `ACCESS_DENIED` and `SUCCESS`. -/
theorem MakePascalcase_segments (segs : List StringRef) (hne : segs ≠ [])
    (hseg : ∀ s ∈ segs, s ≠ [] ∧ '_' ∉ s) :
    MakePascalcase (joinUnderscore segs) = some (segs.map keepFirstLowerRest).flatten ∧
    ((∀ s ∈ segs, ∀ c ∈ s.head?, c.toUpper = c) →
      MakePascalcase (joinUnderscore segs) = some (segs.map upperFirstLowerRest).flatten) ∧
    MakePascalcase "ACCESS_VIOLATION".toList = some "AccessViolation".toList ∧
    MakePascalcase "ACCESS_DENIED".toList = some "AccessDenied".toList ∧
    MakePascalcase "SUCCESS".toList = some "Success".toList := by
  have hmain : MakePascalcase (joinUnderscore segs)
      = some (segs.map keepFirstLowerRest).flatten := by
    rw [MakePascalcase_eq_loop,
      MakePascalcaseLoop_segments segs _ [] hne hseg (Nat.lt_succ_self _)]
    rfl
  refine ⟨hmain, ?_, by decide, by decide, by decide⟩
  intro hup
  rw [hmain, upperFirst_eq_keepFirst segs hup]

theorem MakePascalcase_segments_witness :
    ["ACCESS".toList, "VIOLATION".toList] ≠ [] ∧
    (∀ s ∈ ["ACCESS".toList, "VIOLATION".toList], s ≠ [] ∧ '_' ∉ s) ∧
    (MakePascalcase (joinUnderscore ["ACCESS".toList, "VIOLATION".toList])
      = some (["ACCESS".toList, "VIOLATION".toList].map keepFirstLowerRest).flatten ∧
    ((∀ s ∈ ["ACCESS".toList, "VIOLATION".toList], ∀ c ∈ s.head?, c.toUpper = c) →
      MakePascalcase (joinUnderscore ["ACCESS".toList, "VIOLATION".toList])
        = some (["ACCESS".toList, "VIOLATION".toList].map upperFirstLowerRest).flatten) ∧
    MakePascalcase "ACCESS_VIOLATION".toList = some "AccessViolation".toList ∧
    MakePascalcase "ACCESS_DENIED".toList = some "AccessDenied".toList ∧
    MakePascalcase "SUCCESS".toList = some "Success".toList) :=
  ⟨by decide, by decide,
    MakePascalcase_segments ["ACCESS".toList, "VIOLATION".toList] (by decide) (by decide)⟩

/-! ## The emitter -/

theorem messageOf_eq (Status : NtStatus) : messageOf Status = stripCRLF Status.Message := by
  unfold messageOf
  rw [formatMessage_eq]
  rfl

theorem emitTableValue_eq (E : GroupEmitter) (Status : NtStatus) (NoComma : Bool)
    (h : MakePascalcase Status.Name ≠ none) :
    emitTableValue E Status NoComma
      = some { E with OS := E.OS ++ tableEntry Status NoComma,
                      storedMsg := messageOf Status } := by
  cases hp : MakePascalcase Status.Name with
  | none => exact absurd hp h
  | some Pascal =>
    rw [emitTableValue, hp]
    simp only [formatMessage_eq, messageOf_eq, tableEntry, pascalOf, hp, Option.getD_some,
      List.append_assoc]

theorem emitTableValues_eq (L : List NtStatus) (E : GroupEmitter)
    (h : ∀ s ∈ L, MakePascalcase s.Name ≠ none) :
    ∃ sm, emitTableValues E L
      = some { E with OS := E.OS ++ (L.map fun s => tableEntry s false).flatten,
                      storedMsg := sm } := by
  induction L generalizing E with
  | nil => exact ⟨E.storedMsg, by simp [emitTableValues]⟩
  | cons s L ih =>
    rw [emitTableValues, emitTableValue_eq E s false (h s (List.mem_cons_self _ _))]
    obtain ⟨sm, hsm⟩ := ih
      { E with OS := E.OS ++ tableEntry s false, storedMsg := messageOf s }
      (fun s1 hs1 => h s1 (List.mem_cons_of_mem _ hs1))
    refine ⟨sm, ?_⟩
    dsimp only
    rw [hsm]
    simp only [List.map_cons, List.flatten_cons, List.append_assoc]

theorem tableLines_split (L : List NtStatus) (Back : NtStatus)
    (h : L.getLast? = some Back) :
    (tableLines L).flatten
      = (L.dropLast.map fun s => tableEntry s false).flatten ++ tableEntry Back true := by
  induction L using tableLines.induct with
  | case1 => cases h
  | case2 s =>
    simp only [List.getLast?_singleton, Option.some.injEq] at h
    subst h
    simp [tableLines]
  | case3 s n rest ih =>
    rw [List.getLast?_cons_cons] at h
    rw [tableLines, List.flatten_cons, ih h, List.dropLast_cons₂]
    simp only [List.map_cons, List.flatten_cons, List.append_assoc]

theorem emitTable_eq (E : GroupEmitter) (L : List NtStatus) (Name : StringRef)
    (Back : NtStatus) (hback : L.getLast? = some Back)
    (h : ∀ s ∈ L, MakePascalcase s.Name ≠ none) :
    emitTable E L Name
      = some { E with
          OS := E.OS ++ (indent 2 ++ "static constexpr IOpaqueError ".toList ++ Name
              ++ "[] \x7b\n".toList)
            ++ (tableLines L).flatten ++ (indent 2 ++ "\x7d;\n\n".toList),
          storedMsg := messageOf Back } := by
  rw [emitTable, hback]
  dsimp only
  obtain ⟨sm, hsm⟩ := emitTableValues_eq L.dropLast
    { E with
      OS := E.OS ++ indent 2 ++ "static constexpr IOpaqueError ".toList ++ Name
        ++ "[] \x7b\n".toList }
    (fun s hs => h s (List.mem_of_mem_dropLast hs))
  rw [hsm]
  dsimp only
  rw [emitTableValue_eq _ Back true (h Back (List.mem_of_getLast?_eq_some hback))]
  dsimp only
  rw [tableLines_split L Back hback]
  simp only [List.append_assoc]

theorem emitSwitchValues_eq (L : List NtStatus) (E : GroupEmitter) (TableName : StringRef)
    (Ix : Nat) :
    emitSwitchValues E TableName L Ix
      = { E with OS := E.OS ++ (caseLines TableName L Ix).flatten } := by
  induction L generalizing E Ix with
  | nil => simp [emitSwitchValues, caseLines]
  | cons s L ih =>
    rw [emitSwitchValues, ih]
    simp only [emitSwitchValue, FormatMergedCode, caseLines, caseBranch, List.flatten_cons,
      List.append_assoc]

theorem linearEmit_eq (E : GroupEmitter) (G : StatusGroup) (L : List NtStatus)
    (Back : NtStatus) (hback : L.getLast? = some Back)
    (h : ∀ s ∈ L, MakePascalcase s.Name ≠ none) :
    linearEmit E G L
      = some (true, { E with OS := E.OS ++ linearText E.groupName L,
                             storedMsg := messageOf Back }) := by
  rw [linearEmit]
  dsimp only
  rw [emitTableSwitchPair, emitTable_eq _ L _ Back hback h]
  dsimp only
  rw [emitSwitch]
  dsimp only
  rw [emitSwitchValues_eq]
  simp only [linearText, List.append_assoc]

theorem getLast?_of_ne_nil (L : List NtStatus) (h : L ≠ []) : ∃ Back, L.getLast? = some Back := by
  cases hl : L.getLast? with
  | none => exact absurd (List.getLast?_eq_none_iff.1 hl) h
  | some Back => exact ⟨Back, rfl⟩

theorem tableLines_length (L : List NtStatus) : (tableLines L).length = L.length := by
  induction L using tableLines.induct with
  | case1 => rfl
  | case2 s => rfl
  | case3 s n rest ih => simp only [tableLines, List.length_cons] at ih ⊢; omega

theorem tableLines_getElem? (L : List NtStatus) (i : Nat) :
    (tableLines L)[i]? = (L[i]?).map fun s => tableEntry s (decide (i + 1 = L.length)) := by
  induction L using tableLines.induct generalizing i with
  | case1 => rfl
  | case2 s =>
    cases i with
    | zero => rfl
    | succ i => rfl
  | case3 s n rest ih =>
    cases i with
    | zero => simp [tableLines]
    | succ i =>
      simp only [tableLines, List.getElem?_cons_succ, ih i, List.length_cons]
      congr 1
      funext s1
      congr 1
      simp

theorem caseLines_length (T : StringRef) (L : List NtStatus) (k : Nat) :
    (caseLines T L k).length = L.length := by
  induction L generalizing k with
  | nil => rfl
  | cons s L ih => simp [caseLines, ih]

theorem caseLines_getElem? (T : StringRef) (L : List NtStatus) (k i : Nat) :
    (caseLines T L k)[i]? = (L[i]?).map fun s => caseBranch s T (k + i) := by
  induction L generalizing k i with
  | nil => rfl
  | cons s L ih =>
    cases i with
    | zero => simp [caseLines]
    | succ i =>
      simp only [caseLines, List.getElem?_cons_succ, ih (k + 1) i]
      congr 1
      funext s1
      congr 1
      omega

theorem MergeStatusAndCode_eq (s : NtStatus) (h : s.SG < 2 ^ 16) :
    MergeStatusAndCode s = (s.SG <<< 12) ||| s.Code := by
  unfold MergeStatusAndCode
  have e : s.SG <<< (3 * 4) = s.SG * 2 ^ 12 := by rw [Nat.shiftLeft_eq]
  have e2 : s.SG <<< 12 = s.SG * 2 ^ 12 := by rw [Nat.shiftLeft_eq]
  have hlt : s.SG * 2 ^ 12 < 2 ^ 32 := by
    have h1 : s.SG * 2 ^ 12 < 2 ^ 16 * 2 ^ 12 := Nat.mul_lt_mul_of_pos_right h (by decide)
    have h2 : (2 : Nat) ^ 16 * 2 ^ 12 ≤ 2 ^ 32 := by decide
    exact Nat.lt_of_lt_of_le h1 h2
  show (s.SG <<< (3 * 4)) % 2 ^ 32 ||| s.Code = _
  rw [e, Nat.mod_eq_of_lt hlt]

theorem emitTableValue_some_name (E E1 : GroupEmitter) (Status : NtStatus) (NoComma : Bool)
    (h : emitTableValue E Status NoComma = some E1) : MakePascalcase Status.Name ≠ none := by
  intro hn
  rw [emitTableValue, hn] at h
  cases h

theorem emitTableValues_some_names (L : List NtStatus) (E E1 : GroupEmitter)
    (h : emitTableValues E L = some E1) : ∀ s ∈ L, MakePascalcase s.Name ≠ none := by
  induction L generalizing E with
  | nil => intro s hs; cases hs
  | cons x xs ih =>
    rw [emitTableValues] at h
    cases hx : emitTableValue E x false with
    | none => rw [hx] at h; cases h
    | some E2 =>
      rw [hx] at h
      intro s hs
      rcases List.mem_cons.1 hs with e | e
      · rw [e]
        exact emitTableValue_some_name E E2 x false hx
      · exact ih E2 h s e

theorem emitTable_some_renderable (E E1 : GroupEmitter) (L : List NtStatus) (Name : StringRef)
    (h : emitTable E L Name = some E1) : renderable L := by
  rw [emitTable] at h
  cases hb : L.getLast? with
  | none => rw [hb] at h; cases h
  | some Back =>
    rw [hb] at h
    dsimp only at h
    have hL : L.dropLast ++ [Back] = L := List.dropLast_append_getLast? Back hb
    have hne : L ≠ [] := by
      intro e
      rw [e] at hb
      cases hb
    refine ⟨hne, ?_⟩
    rcases hv : emitTableValues
        { E with OS := E.OS ++ indent 2 ++ "static constexpr IOpaqueError ".toList
          ++ Name ++ "[] \x7b\n".toList } L.dropLast with _ | E2
    · rw [hv] at h; cases h
    · rw [hv] at h
      dsimp only at h
      cases hlast : emitTableValue E2 Back true with
      | none => rw [hlast] at h; cases h
      | some E3 =>
        intro s hs
        rw [← hL] at hs
        rcases List.mem_append.1 hs with e | e
        · exact emitTableValues_some_names _ _ E2 hv s e
        · rw [List.mem_singleton] at e
          rw [e]
          exact emitTableValue_some_name E2 E3 Back true hlast

theorem linearEmit_some_renderable (E : GroupEmitter) (G : StatusGroup) (L : List NtStatus)
    (r : Bool × GroupEmitter) (h : linearEmit E G L = some r) : renderable L := by
  rw [linearEmit] at h
  dsimp only at h
  rw [emitTableSwitchPair] at h
  rcases ht : emitTable
      { E with OS := E.OS ++ "#define CURR_SEVERITY ".toList ++ E.groupName ++ "\n".toList
          ++ "struct _".toList ++ E.groupName ++ "Group \x7b\n".toList }
      L "table".toList with _ | E2
  · rw [ht] at h; cases h
  · exact emitTable_some_renderable _ E2 L _ ht

theorem linearEmit_some_iff (E : GroupEmitter) (G : StatusGroup) (L : List NtStatus) :
    (∃ r, linearEmit E G L = some r) ↔ renderable L := by
  constructor
  · rintro ⟨r, hr⟩
    exact linearEmit_some_renderable E G L r hr
  · rintro ⟨hne, hnames⟩
    obtain ⟨Back, hback⟩ := getLast?_of_ne_nil L hne
    exact ⟨_, linearEmit_eq E G L Back hback hnames⟩

theorem linearEmit_none_of_name (E : GroupEmitter) (G : StatusGroup) (L : List NtStatus)
    (h : ∃ s ∈ L, MakePascalcase s.Name = none) : linearEmit E G L = none := by
  cases hl : linearEmit E G L with
  | none => rfl
  | some r =>
    obtain ⟨s, hs, hn⟩ := h
    exact absurd hn ((linearEmit_some_renderable E G L r hl).2 s hs)

set_option maxRecDepth 1000000 in
/-- The layout of a linear emission on a non-empty bucket whose names are in
the domain of `MakePascalcase`: one table entry per record in bucket order,
entry `i` made of `MakePascalcase` of the name and `formatMessage` of the
record and followed by a comma unless it is the last, then one `case` branch
per record in the same order, branch `i` keyed by the merged value
`(SG << 12) | Code` and returning the address of table entry `i`, and after
them one `default` branch returning `nullptr`. -/
theorem layout_on_renderable (E : GroupEmitter) (G : StatusGroup) (Statuses : List NtStatus)
    (hne : Statuses ≠ []) (hnames : ∀ s ∈ Statuses, MakePascalcase s.Name ≠ none) :
    (∃ Back, Statuses.getLast? = some Back ∧
      linearEmit E G Statuses
        = some (true, { E with OS := E.OS ++ linearText E.groupName Statuses,
                               storedMsg := messageOf Back })) ∧
    (tableLines Statuses).length = Statuses.length ∧
    (∀ i, (tableLines Statuses)[i]?
      = (Statuses[i]?).map fun s => tableEntry s (decide (i + 1 = Statuses.length))) ∧
    (caseLines "table".toList Statuses 0).length = Statuses.length ∧
    (∀ i, (caseLines "table".toList Statuses 0)[i]?
      = (Statuses[i]?).map fun s => caseBranch s "table".toList i) ∧
    (∀ s ∈ Statuses, MakePascalcase s.Name = some (pascalOf s) ∧
      (formatMessage E s).map Prod.fst = some (messageOf s)) ∧
    (∀ s : NtStatus, s.SG < 2 ^ 16 → MergeStatusAndCode s = (s.SG <<< 12) ||| s.Code) ∧
    linearText "Error".toList [exampleError, exampleSuccess]
      = ("#define CURR_SEVERITY Error\nstruct _ErrorGroup \x7b\n"
        ++ "  static constexpr IOpaqueError table[] \x7b\n"
        ++ "    $NewPErr(\"AccessViolation\", \"The instruction referenced invalid memory.\"),\n"
        ++ "    $NewPErr(\"Success\", \"The operation completed successfully.\")\n"
        ++ "  \x7d;\n\n"
        ++ "  static OpaqueError Get(OpqErrorID ID) \x7b\n"
        ++ "    switch (ID) \x7b\n"
        ++ "     case 0x000005: return &table[0];\n"
        ++ "     case 0x000000: return &table[1];\n"
        ++ "     default: return nullptr;\n"
        ++ "    \x7d\n"
        ++ "  \x7d\n"
        ++ "\x7d;\n#undef CURR_SEVERITY\n\n").toList := by
  obtain ⟨Back, hback⟩ := getLast?_of_ne_nil Statuses hne
  refine ⟨⟨Back, hback, linearEmit_eq E G Statuses Back hback hnames⟩,
    tableLines_length _, tableLines_getElem? _, caseLines_length _ _ _, ?_, ?_,
    MergeStatusAndCode_eq, by decide⟩
  · intro i
    rw [caseLines_getElem?]
    simp
  · intro s hs
    constructor
    · cases hp : MakePascalcase s.Name with
      | none => exact absurd hp (hnames s hs)
      | some p => simp [pascalOf, hp]
    · rw [formatMessage_eq, messageOf_eq]
      rfl

/-- C17 fails on the code for a bucket that holds a name with an empty leading
or inner segment: `emitTableValue` calls `MakePascalcase`, which reads
`Substr[0]` of the empty segment, and `linearEmit` gives no result, so nothing
is rendered. For every other non-empty bucket `linearEmit` returns true and
writes the layout of the claim: one table entry per record in bucket order,
each but the last followed by a comma, then one `case` branch per record in
the same order, keyed by `(SG << 12) | Code` and returning the address of its
table entry, and one `default` branch returning `nullptr`. -/
theorem linearEmit_layout (E : GroupEmitter) (G : StatusGroup) (Statuses : List NtStatus)
    (hne : Statuses ≠ []) :
    ((∃ s ∈ Statuses, MakePascalcase s.Name = none) → linearEmit E G Statuses = none) ∧
    ((∀ s ∈ Statuses, MakePascalcase s.Name ≠ none) →
      (∃ Back, Statuses.getLast? = some Back ∧
        linearEmit E G Statuses
          = some (true, { E with OS := E.OS ++ linearText E.groupName Statuses,
                                 storedMsg := messageOf Back })) ∧
      (tableLines Statuses).length = Statuses.length ∧
      (∀ i, (tableLines Statuses)[i]?
        = (Statuses[i]?).map fun s => tableEntry s (decide (i + 1 = Statuses.length))) ∧
      (caseLines "table".toList Statuses 0).length = Statuses.length ∧
      (∀ i, (caseLines "table".toList Statuses 0)[i]?
        = (Statuses[i]?).map fun s => caseBranch s "table".toList i) ∧
      (∀ s ∈ Statuses, MakePascalcase s.Name = some (pascalOf s) ∧
        (formatMessage E s).map Prod.fst = some (messageOf s)) ∧
      (∀ s : NtStatus, s.SG < 2 ^ 16 → MergeStatusAndCode s = (s.SG <<< 12) ||| s.Code)) ∧
    ((∃ r, linearEmit E G Statuses = some r) ↔ ∀ s ∈ Statuses, MakePascalcase s.Name ≠ none) := by
  refine ⟨linearEmit_none_of_name E G Statuses, ?_, ?_⟩
  · intro hnames
    obtain ⟨h1, h2, h3, h4, h5, h6, h7, -⟩ := layout_on_renderable E G Statuses hne hnames
    exact ⟨h1, h2, h3, h4, h5, h6, h7⟩
  · rw [linearEmit_some_iff]
    exact ⟨fun h => h.2, fun h => ⟨hne, h⟩⟩

set_option maxRecDepth 1000000 in
theorem linearEmit_layout_witness :
    [underscoreRecord] ≠ [] ∧
    parseFile (NtCodeParser.ofBuffer underscoreBuffer)
      = some (true,
          { SPBuf := [], didParseSuccessfully := true, parsedValues := [1],
            hadDuplicate := false, successes := [underscoreRecord],
            infos := [], warnings := [], errors := [] }) ∧
    MakePascalcase underscoreRecord.Name = none ∧
    linearEmit { groupName := "Success".toList } StatusGroup.SUCCESS [underscoreRecord] = none ∧
    [exampleError, exampleSuccess] ≠ [] ∧
    (∀ s ∈ [exampleError, exampleSuccess], MakePascalcase s.Name ≠ none) ∧
    (∃ Back, [exampleError, exampleSuccess].getLast? = some Back ∧
      linearEmit { groupName := "Error".toList } StatusGroup.ERROR [exampleError, exampleSuccess]
        = some (true,
            { ({ groupName := "Error".toList } : GroupEmitter) with
              OS := ({ groupName := "Error".toList } : GroupEmitter).OS
                ++ linearText ({ groupName := "Error".toList } : GroupEmitter).groupName
                  [exampleError, exampleSuccess],
              storedMsg := messageOf Back })) :=
  ⟨by decide, by decide, by decide,
    (linearEmit_layout { groupName := "Success".toList } StatusGroup.SUCCESS
      [underscoreRecord] (by decide)).1 ⟨underscoreRecord, List.mem_singleton.2 rfl, by decide⟩,
    by decide, by decide,
    ((linearEmit_layout { groupName := "Error".toList } StatusGroup.ERROR
      [exampleError, exampleSuccess] (by decide)).2.1 (by decide)).1⟩

theorem doEmit_large (t : Nat) (E : GroupEmitter) (G : StatusGroup) (L : List NtStatus)
    (h : IsLargeGroup t L = true) : doEmit t E G L = some (false, E) := by
  rw [doEmit, if_pos h]
  rfl

theorem doEmit_small (t : Nat) (E : GroupEmitter) (G : StatusGroup) (L : List NtStatus)
    (Back : NtStatus) (h : IsLargeGroup t L = false) (hback : L.getLast? = some Back)
    (hnames : ∀ s ∈ L, MakePascalcase s.Name ≠ none) :
    doEmit t E G L
      = some (true, { E with OS := E.OS ++ linearText E.groupName L,
                             storedMsg := messageOf Back }) := by
  rw [doEmit, if_neg (by rw [h]; exact Bool.false_ne_true), linearEmit_eq E G L Back hback hnames]

theorem doEmit_flag (t : Nat) (E : GroupEmitter) (G : StatusGroup) (L : List NtStatus)
    (hok : IsLargeGroup t L = true ∨ renderable L) :
    (doEmit t E G L).map Prod.fst = some (!IsLargeGroup t L) := by
  cases hl : IsLargeGroup t L with
  | true => rw [doEmit_large t E G L hl]; rfl
  | false =>
    rcases hok with hok | ⟨hne, hnames⟩
    · rw [hl] at hok; cases hok
    · obtain ⟨Back, hback⟩ := getLast?_of_ne_nil L hne
      rw [doEmit_small t E G L Back hl hback hnames]
      rfl

theorem emit_large (t : Nat) (E : GroupEmitter) (G : StatusGroup) (L : List NtStatus)
    (h : IsLargeGroup t L = true) :
    emit t E G L
      = some { E with groupName := GetGroupName G, didEmitSuccessfully := false,
                      failures := E.failures ++ [GetGroupName G] } := by
  rw [emit]
  rw [doEmit_large t _ G L h]
  rfl

theorem emit_small (t : Nat) (E : GroupEmitter) (G : StatusGroup) (L : List NtStatus)
    (Back : NtStatus) (h : IsLargeGroup t L = false) (hback : L.getLast? = some Back)
    (hnames : ∀ s ∈ L, MakePascalcase s.Name ≠ none) :
    emit t E G L
      = some { E with groupName := GetGroupName G,
                      OS := E.OS ++ linearText (GetGroupName G) L,
                      storedMsg := messageOf Back } := by
  rw [emit]
  rw [doEmit_small t _ G L Back h hback hnames]
  rfl

theorem emitAll_eq (t : Nat) (cs : List (StatusGroup × List NtStatus)) (E : GroupEmitter)
    (hok : ∀ c ∈ cs, IsLargeGroup t c.2 = true ∨ renderable c.2) :
    ∃ Eo, emitAll t E cs = some Eo ∧
      Eo.didEmitSuccessfully
        = (E.didEmitSuccessfully && cs.all fun c => !IsLargeGroup t c.2) ∧
      Eo.failures
        = E.failures ++ (cs.filter fun c => IsLargeGroup t c.2).map fun c => GetGroupName c.1 := by
  induction cs generalizing E with
  | nil => exact ⟨E, rfl, by simp, by simp⟩
  | cons c cs ih =>
    have hrest : ∀ c1 ∈ cs, IsLargeGroup t c1.2 = true ∨ renderable c1.2 :=
      fun c1 hc1 => hok c1 (List.mem_cons_of_mem _ hc1)
    rw [emitAll]
    cases hl : IsLargeGroup t c.2 with
    | true =>
      rw [emit_large t E c.1 c.2 hl]
      obtain ⟨Eo, h1, h2, h3⟩ := ih
        { E with groupName := GetGroupName c.1, didEmitSuccessfully := false,
                 failures := E.failures ++ [GetGroupName c.1] } hrest
      refine ⟨Eo, h1, ?_, ?_⟩
      · rw [h2]; simp [hl]
      · rw [h3]; simp [hl]
    | false =>
      rcases hok c (List.mem_cons_self _ _) with hbig | ⟨hne, hnames⟩
      · rw [hl] at hbig; cases hbig
      · obtain ⟨Back, hback⟩ := getLast?_of_ne_nil c.2 hne
        rw [emit_small t E c.1 c.2 Back hl hback hnames]
        obtain ⟨Eo, h1, h2, h3⟩ := ih
          { E with groupName := GetGroupName c.1,
                   OS := E.OS ++ linearText (GetGroupName c.1) c.2,
                   storedMsg := messageOf Back } hrest
        refine ⟨Eo, h1, ?_, ?_⟩
        · rw [h2]; simp [hl]
        · rw [h3]; simp [hl]

theorem books_emitTableValue (E E1 : GroupEmitter) (s : NtStatus) (nc : Bool)
    (h : emitTableValue E s nc = some E1) : books E1 = books E := by
  rw [emitTableValue] at h
  cases hp : MakePascalcase s.Name with
  | none => rw [hp] at h; cases h
  | some p =>
    rw [hp] at h
    simp only [formatMessage_eq, Option.some.injEq] at h
    rw [← h]
    rfl

theorem books_emitTableValues (L : List NtStatus) (E E1 : GroupEmitter)
    (h : emitTableValues E L = some E1) : books E1 = books E := by
  induction L generalizing E with
  | nil =>
    simp only [emitTableValues, Option.some.injEq] at h
    rw [h]
  | cons s L ih =>
    rw [emitTableValues] at h
    cases hv : emitTableValue E s false with
    | none => rw [hv] at h; cases h
    | some E2 =>
      rw [hv] at h
      exact (ih E2 h).trans (books_emitTableValue E E2 s false hv)

theorem books_emitTable (E E1 : GroupEmitter) (L : List NtStatus) (Name : StringRef)
    (h : emitTable E L Name = some E1) : books E1 = books E := by
  rw [emitTable] at h
  cases hl : L.getLast? with
  | none => rw [hl] at h; cases h
  | some Back =>
    rw [hl] at h
    dsimp only at h
    cases hv : emitTableValues
        { E with OS := E.OS ++ indent 2 ++ "static constexpr IOpaqueError ".toList
          ++ Name ++ "[] \x7b\n".toList } L.dropLast with
    | none => rw [hv] at h; cases h
    | some E2 =>
      rw [hv] at h
      dsimp only at h
      cases hb : emitTableValue E2 Back true with
      | none => rw [hb] at h; cases h
      | some E3 =>
        rw [hb] at h
        simp only [Option.some.injEq] at h
        rw [← h]
        have h2 := books_emitTableValues _ _ _ hv
        exact (books_emitTableValue E2 E3 Back true hb).trans h2

theorem books_linearEmit (E E1 : GroupEmitter) (G : StatusGroup) (L : List NtStatus)
    (ok : Bool) (h : linearEmit E G L = some (ok, E1)) : books E1 = books E := by
  rw [linearEmit] at h
  dsimp only at h
  rw [emitTableSwitchPair] at h
  cases ht : emitTable
      { E with OS := E.OS ++ "#define CURR_SEVERITY ".toList ++ E.groupName ++ "\n".toList
        ++ "struct _".toList ++ E.groupName ++ "Group \x7b\n".toList } L "table".toList with
  | none => rw [ht] at h; cases h
  | some E2 =>
    rw [ht] at h
    dsimp only at h
    rw [emitSwitch] at h
    dsimp only at h
    rw [emitSwitchValues_eq] at h
    simp only [Option.some.injEq, Prod.mk.injEq] at h
    rw [← h.2]
    have h2 := books_emitTable _ E2 L _ ht
    exact h2

theorem books_doEmit (t : Nat) (E : GroupEmitter) (G : StatusGroup) (L : List NtStatus)
    (ok : Bool) (E1 : GroupEmitter) (h : doEmit t E G L = some (ok, E1)) :
    books E1 = books E := by
  rw [doEmit] at h
  by_cases hl : IsLargeGroup t L = true
  · rw [if_pos hl] at h
    simp only [groupedEmit, Option.some.injEq, Prod.mk.injEq] at h
    rw [← h.2]
  · rw [if_neg hl] at h
    exact books_linearEmit E E1 G L ok h

theorem doEmit_none_iff (t : Nat) (E : GroupEmitter) (G : StatusGroup) (L : List NtStatus) :
    doEmit t E G L = none ↔ IsLargeGroup t L = false ∧ ¬ renderable L := by
  cases hl : IsLargeGroup t L with
  | true =>
    rw [doEmit_large t E G L hl]
    simp
  | false =>
    rw [doEmit, if_neg (by rw [hl]; exact Bool.false_ne_true), ← linearEmit_some_iff E G L]
    cases linearEmit E G L with
    | none => simp
    | some r => simp

theorem emit_none_iff (t : Nat) (E : GroupEmitter) (G : StatusGroup) (L : List NtStatus) :
    emit t E G L = none ↔ IsLargeGroup t L = false ∧ ¬ renderable L := by
  rw [← doEmit_none_iff t { E with groupName := GetGroupName G } G L, emit]
  rcases hd : doEmit t { E with groupName := GetGroupName G } G L with _ | ⟨ok, E2⟩
  · simp
  · cases ok <;> simp

theorem emitAll_some_iff (t : Nat) (cs : List (StatusGroup × List NtStatus))
    (E : GroupEmitter) :
    (∃ Eo, emitAll t E cs = some Eo) ↔ ∀ c ∈ cs, IsLargeGroup t c.2 = true ∨ renderable c.2 := by
  induction cs generalizing E with
  | nil => simp [emitAll]
  | cons c cs ih =>
    rw [emitAll]
    cases he : emit t E c.1 c.2 with
    | none =>
      have hbad := (emit_none_iff t E c.1 c.2).1 he
      simp only [List.mem_cons, forall_eq_or_imp]
      constructor
      · rintro ⟨Eo, h⟩
        cases h
      · rintro ⟨h | h, -⟩
        · rw [hbad.1] at h
          cases h
        · exact absurd h hbad.2
    | some E1 =>
      have hgood : IsLargeGroup t c.2 = true ∨ renderable c.2 := by
        by_contra hn
        rw [not_or] at hn
        have : emit t E c.1 c.2 = none :=
          (emit_none_iff t E c.1 c.2).2 ⟨by simpa using hn.1, hn.2⟩
        rw [he] at this
        cases this
      dsimp only
      rw [ih E1]
      simp only [List.mem_cons, forall_eq_or_imp]
      exact ⟨fun h => ⟨hgood, h⟩, fun h => h.2⟩

/-- The strategy of `doEmit` on a bucket on which `linearEmit` returns:
`doEmit` is `linearEmit` and returns true when `IsLargeGroup` is false, and is
`groupedEmit`, which returns false whatever it is given, when `IsLargeGroup`
is true; so `doEmit` returns true exactly when the size of the bucket is at
most the threshold. -/
theorem strategy_on_renderable (t : Nat) (E : GroupEmitter) (G : StatusGroup)
    (Statuses : List NtStatus) (hok : renderable Statuses) :
    (IsLargeGroup t Statuses = false →
      doEmit t E G Statuses = linearEmit E G Statuses ∧
      ∃ Eo, doEmit t E G Statuses = some (true, Eo)) ∧
    (IsLargeGroup t Statuses = true →
      doEmit t E G Statuses = groupedEmit E G Statuses ∧
      doEmit t E G Statuses = some (false, E)) ∧
    (∀ E1 G1 L1, groupedEmit E1 G1 L1 = some (false, E1)) ∧
    ((doEmit t E G Statuses).map Prod.fst = some true ↔ Statuses.length ≤ t) ∧
    ((doEmit t E G Statuses).map Prod.fst = some false ↔ t < Statuses.length) := by
  obtain ⟨hne, hnames⟩ := hok
  obtain ⟨Back, hback⟩ := getLast?_of_ne_nil Statuses hne
  have hflag := doEmit_flag t E G Statuses (Or.inr ⟨hne, hnames⟩)
  refine ⟨?_, ?_, fun _ _ _ => rfl, ?_, ?_⟩
  · intro hl
    refine ⟨?_, _, doEmit_small t E G Statuses Back hl hback hnames⟩
    rw [doEmit, if_neg (by rw [hl]; exact Bool.false_ne_true)]
  · intro hl
    exact ⟨by rw [doEmit, if_pos hl], doEmit_large t E G Statuses hl⟩
  · rw [hflag]
    simp [IsLargeGroup]
  · rw [hflag]
    simp [IsLargeGroup]

/-- C15 fails on the code for a non-empty bucket below the threshold that
holds a name with an empty leading or inner segment: `doEmit` calls
`linearEmit`, `MakePascalcase` reads `Substr[0]` of the empty segment, and
`doEmit` gives no result instead of true. For every other non-empty bucket
`doEmit` is `linearEmit` and returns true when `IsLargeGroup` is false, and is
`groupedEmit`, which returns false whatever it is given, when `IsLargeGroup`
is true, so that it returns true exactly when the size is at most the
threshold. -/
theorem doEmit_strategy (t : Nat) (E : GroupEmitter) (G : StatusGroup)
    (Statuses : List NtStatus) (hne : Statuses ≠ []) :
    (IsLargeGroup t Statuses = false → (∃ s ∈ Statuses, MakePascalcase s.Name = none) →
      doEmit t E G Statuses = linearEmit E G Statuses ∧ doEmit t E G Statuses = none) ∧
    (IsLargeGroup t Statuses = false → (∀ s ∈ Statuses, MakePascalcase s.Name ≠ none) →
      doEmit t E G Statuses = linearEmit E G Statuses ∧
      ∃ Eo, doEmit t E G Statuses = some (true, Eo)) ∧
    (IsLargeGroup t Statuses = true →
      doEmit t E G Statuses = groupedEmit E G Statuses ∧
      doEmit t E G Statuses = some (false, E)) ∧
    (∀ E1 G1 L1, groupedEmit E1 G1 L1 = some (false, E1)) ∧
    ((∀ s ∈ Statuses, MakePascalcase s.Name ≠ none) →
      ((doEmit t E G Statuses).map Prod.fst = some true ↔ Statuses.length ≤ t) ∧
      ((doEmit t E G Statuses).map Prod.fst = some false ↔ t < Statuses.length)) ∧
    ((doEmit t E G Statuses).map Prod.fst = some true
      ↔ Statuses.length ≤ t ∧ ∀ s ∈ Statuses, MakePascalcase s.Name ≠ none) ∧
    ((doEmit t E G Statuses).map Prod.fst = some false ↔ t < Statuses.length) := by
  have hlin : IsLargeGroup t Statuses = false →
      doEmit t E G Statuses = linearEmit E G Statuses := by
    intro hl
    rw [doEmit, if_neg (by rw [hl]; exact Bool.false_ne_true)]
  have hbadnone : IsLargeGroup t Statuses = false →
      (∃ s ∈ Statuses, MakePascalcase s.Name = none) → doEmit t E G Statuses = none := by
    intro hl hbad
    rw [hlin hl]
    exact linearEmit_none_of_name E G Statuses hbad
  have hlarge : IsLargeGroup t Statuses = true ↔ t < Statuses.length := by
    simp [IsLargeGroup]
  refine ⟨fun hl hbad => ⟨hlin hl, hbadnone hl hbad⟩, ?_, ?_, fun _ _ _ => rfl, ?_, ?_, ?_⟩
  · intro hl hnames
    exact (strategy_on_renderable t E G Statuses ⟨hne, hnames⟩).1 hl
  · intro hl
    exact ⟨by rw [doEmit, if_pos hl], doEmit_large t E G Statuses hl⟩
  · intro hnames
    exact (strategy_on_renderable t E G Statuses ⟨hne, hnames⟩).2.2.2
  · constructor
    · intro h
      cases hl : IsLargeGroup t Statuses with
      | true =>
        rw [doEmit_large t E G Statuses hl] at h
        cases h
      | false =>
        have hnames : ∀ s ∈ Statuses, MakePascalcase s.Name ≠ none := by
          intro s hs hn
          rw [hbadnone hl ⟨s, hs, hn⟩] at h
          cases h
        exact ⟨((strategy_on_renderable t E G Statuses ⟨hne, hnames⟩).2.2.2.1).1 h, hnames⟩
    · rintro ⟨hlen, hnames⟩
      exact ((strategy_on_renderable t E G Statuses ⟨hne, hnames⟩).2.2.2.1).2 hlen
  · constructor
    · intro h
      cases hl : IsLargeGroup t Statuses with
      | true => exact hlarge.1 hl
      | false =>
        exfalso
        by_cases hnames : ∀ s ∈ Statuses, MakePascalcase s.Name ≠ none
        · obtain ⟨-, Eo, hEo⟩ := (strategy_on_renderable t E G Statuses ⟨hne, hnames⟩).1 hl
          rw [hEo] at h
          cases h
        · have hbad : ∃ s ∈ Statuses, MakePascalcase s.Name = none := by
            by_contra hno
            apply hnames
            intro s hs hn
            exact hno ⟨s, hs, hn⟩
          rw [hbadnone hl hbad] at h
          cases h
    · intro h
      rw [doEmit_large t E G Statuses (hlarge.2 h)]
      rfl

set_option maxRecDepth 1000000 in
theorem doEmit_strategy_witness :
    [underscoreRecord] ≠ [] ∧
    parseFile (NtCodeParser.ofBuffer underscoreBuffer)
      = some (true,
          { SPBuf := [], didParseSuccessfully := true, parsedValues := [1],
            hadDuplicate := false, successes := [underscoreRecord],
            infos := [], warnings := [], errors := [] }) ∧
    IsLargeGroup largeGroupSizeDefault [underscoreRecord] = false ∧
    MakePascalcase underscoreRecord.Name = none ∧
    (doEmit largeGroupSizeDefault {} StatusGroup.SUCCESS [underscoreRecord]
        = linearEmit {} StatusGroup.SUCCESS [underscoreRecord] ∧
      doEmit largeGroupSizeDefault {} StatusGroup.SUCCESS [underscoreRecord] = none) ∧
    (doEmit largeGroupSizeDefault {} StatusGroup.SUCCESS [underscoreRecord]).map Prod.fst
      ≠ some true ∧
    (doEmit 2 {} StatusGroup.SUCCESS (bucketOfSize 3)
        = groupedEmit {} StatusGroup.SUCCESS (bucketOfSize 3) ∧
      doEmit 2 {} StatusGroup.SUCCESS (bucketOfSize 3) = some (false, {})) ∧
    (doEmit 2 {} StatusGroup.SUCCESS (bucketOfSize 2)
        = linearEmit {} StatusGroup.SUCCESS (bucketOfSize 2) ∧
      ∃ Eo, doEmit 2 {} StatusGroup.SUCCESS (bucketOfSize 2) = some (true, Eo)) :=
  ⟨by decide, by decide, by decide, by decide,
    (doEmit_strategy largeGroupSizeDefault {} StatusGroup.SUCCESS [underscoreRecord]
      (by decide)).1 (by decide) ⟨underscoreRecord, List.mem_singleton.2 rfl, by decide⟩,
    by decide,
    (doEmit_strategy 2 {} StatusGroup.SUCCESS (bucketOfSize 3) (by decide)).2.2.1 (by decide),
    (doEmit_strategy 2 {} StatusGroup.SUCCESS (bucketOfSize 2) (by decide)).2.1
      (by decide) (by decide)⟩

/-- The bookkeeping of the emitter after a sequence of `emit` calls that all
return, each being on a bucket that is large or on which `linearEmit`
returns: `emitSuccessful` is true exactly when `doEmit` returned true for
every call, and `getFailures` lists, in call order, the group names of the
calls for which it returned false; the names of the four severities are
`Success`, `Info`, `Warning`, `Error`; an `emit` on an emitter that has
already failed still writes its bucket and leaves the flag false. -/
theorem bookkeeping_on_renderable (t : Nat) (cs : List (StatusGroup × List NtStatus))
    (hok : ∀ c ∈ cs, IsLargeGroup t c.2 = true ∨ renderable c.2) :
    (∃ Eo, emitAll t {} cs = some Eo ∧
      (emitSuccessful Eo = true ↔
        ∀ c ∈ cs, ∀ E, (doEmit t E c.1 c.2).map Prod.fst = some true) ∧
      getFailures Eo
        = (cs.filter fun c => (doEmit t {} c.1 c.2).map Prod.fst = some false).map
            fun c => GetGroupName c.1) ∧
    GetGroupName StatusGroup.SUCCESS = "Success".toList ∧
    GetGroupName StatusGroup.INFO = "Info".toList ∧
    GetGroupName StatusGroup.WARNING = "Warning".toList ∧
    GetGroupName StatusGroup.ERROR = "Error".toList ∧
    (∀ E G L E1, emit t E G L = some E1 → emitSuccessful E = false →
      emitSuccessful E1 = false) ∧
    (∀ E G L, IsLargeGroup t L = false → renderable L →
      ∃ E1, emit t E G L = some E1 ∧
        E1.OS = E.OS ++ linearText (GetGroupName G) L ∧
        emitSuccessful E1 = emitSuccessful E ∧ getFailures E1 = getFailures E) := by
  refine ⟨?_, rfl, rfl, rfl, rfl, ?_, ?_⟩
  · obtain ⟨Eo, h1, h2, h3⟩ := emitAll_eq t cs {} hok
    refine ⟨Eo, h1, ?_, ?_⟩
    · show Eo.didEmitSuccessfully = true ↔ _
      rw [h2]
      simp only [Bool.true_and, List.all_eq_true, Bool.not_eq_true']
      constructor
      · intro h c hc E
        rw [doEmit_flag t E c.1 c.2 (hok c hc), h c hc]
        rfl
      · intro h c hc
        have := h c hc {}
        rw [doEmit_flag t {} c.1 c.2 (hok c hc)] at this
        simpa using this
    · show Eo.failures = _
      rw [h3, List.nil_append]
      congr 1
      apply List.filter_congr
      intro c hc
      rw [doEmit_flag t {} c.1 c.2 (hok c hc)]
      cases IsLargeGroup t c.2 <;> simp
  · intro E G L E1 hemit hfail
    rw [emit] at hemit
    rcases hd : doEmit t { E with groupName := GetGroupName G } G L with _ | ⟨ok, E2⟩
    · rw [hd] at hemit; cases hemit
    · rw [hd] at hemit
      have hb := books_doEmit t _ G L ok E2 hd
      have hdid : E2.didEmitSuccessfully = false := by
        have := congrArg Prod.fst hb
        exact this.trans hfail
      cases ok with
      | false =>
        simp only [Bool.not_false, if_true, Option.some.injEq] at hemit
        rw [← hemit]
        rfl
      | true =>
        simp only [Bool.not_true, Bool.false_eq_true, if_false, Option.some.injEq] at hemit
        rw [← hemit]
        exact hdid
  · intro E G L hl ⟨hne, hnames⟩
    obtain ⟨Back, hback⟩ := getLast?_of_ne_nil L hne
    exact ⟨_, emit_small t E G L Back hl hback hnames, rfl, rfl, rfl⟩

/-- C16 fails on the code for a sequence of `emit` calls in which a bucket
below the threshold holds a name with an empty leading or inner segment:
`MakePascalcase` reads `Substr[0]` of the empty segment, that `emit` gives no
emitter back, and neither the flag nor the later buckets follow. The calls of
a sequence all return exactly when every bucket is large or is non-empty with
every name in the domain of `MakePascalcase`; then `emitSuccessful` is true
exactly when `doEmit` returned true for every call, `getFailures` lists in
call order the group names of the calls for which it returned false, the
names being `Success`, `Info`, `Warning`, `Error`, and an `emit` on an emitter
that has already failed still writes its bucket and leaves the flag false. -/
theorem emitter_bookkeeping (t : Nat) (cs : List (StatusGroup × List NtStatus)) :
    (∀ E G L Rest, IsLargeGroup t L = false → (∃ s ∈ L, MakePascalcase s.Name = none) →
      emit t E G L = none ∧ emitAll t E ((G, L) :: Rest) = none) ∧
    ((∃ Eo, emitAll t {} cs = some Eo)
      ↔ ∀ c ∈ cs, IsLargeGroup t c.2 = true ∨ renderable c.2) ∧
    (∀ Eo, emitAll t {} cs = some Eo →
      (emitSuccessful Eo = true ↔
        ∀ c ∈ cs, ∀ E, (doEmit t E c.1 c.2).map Prod.fst = some true) ∧
      getFailures Eo
        = (cs.filter fun c => (doEmit t {} c.1 c.2).map Prod.fst = some false).map
            fun c => GetGroupName c.1) ∧
    GetGroupName StatusGroup.SUCCESS = "Success".toList ∧
    GetGroupName StatusGroup.INFO = "Info".toList ∧
    GetGroupName StatusGroup.WARNING = "Warning".toList ∧
    GetGroupName StatusGroup.ERROR = "Error".toList ∧
    (∀ E G L E1, emit t E G L = some E1 → emitSuccessful E = false →
      emitSuccessful E1 = false) ∧
    (∀ E G L, IsLargeGroup t L = false → renderable L →
      ∃ E1, emit t E G L = some E1 ∧
        E1.OS = E.OS ++ linearText (GetGroupName G) L ∧
        emitSuccessful E1 = emitSuccessful E ∧ getFailures E1 = getFailures E) := by
  refine ⟨?_, emitAll_some_iff t cs {}, ?_, rfl, rfl, rfl, rfl, ?_, ?_⟩
  · intro E G L Rest hl hbad
    have hnone : emit t E G L = none := by
      rw [emit_none_iff]
      refine ⟨hl, ?_⟩
      rintro ⟨-, hnames⟩
      obtain ⟨s, hs, hn⟩ := hbad
      exact hnames s hs hn
    refine ⟨hnone, ?_⟩
    rw [emitAll]
    dsimp only
    rw [hnone]
  · intro Eo hEo
    have hok := (emitAll_some_iff t cs {}).1 ⟨Eo, hEo⟩
    obtain ⟨⟨Eo2, h1, h2, h3⟩, -⟩ := bookkeeping_on_renderable t cs hok
    rw [hEo] at h1
    cases h1
    exact ⟨h2, h3⟩
  · exact (bookkeeping_on_renderable t [] (by intro c hc; cases hc)).2.2.2.2.2.1
  · exact (bookkeeping_on_renderable t [] (by intro c hc; cases hc)).2.2.2.2.2.2

set_option maxRecDepth 1000000 in
theorem emitter_bookkeeping_witness :
    parseFile (NtCodeParser.ofBuffer underscoreBuffer)
      = some (true,
          { SPBuf := [], didParseSuccessfully := true, parsedValues := [1],
            hadDuplicate := false, successes := [underscoreRecord],
            infos := [], warnings := [], errors := [] }) ∧
    IsLargeGroup largeGroupSizeDefault [underscoreRecord] = false ∧
    MakePascalcase underscoreRecord.Name = none ∧
    (emit largeGroupSizeDefault {} StatusGroup.SUCCESS [underscoreRecord] = none ∧
      emitAll largeGroupSizeDefault {}
        ((StatusGroup.SUCCESS, [underscoreRecord]) :: [(StatusGroup.ERROR, [exampleError])])
        = none) ∧
    (∀ Eo, emitAll 2 {} [(StatusGroup.SUCCESS, [exampleSuccess]),
        (StatusGroup.ERROR, bucketOfSize 3), (StatusGroup.INFO, [exampleError])] = some Eo →
      (emitSuccessful Eo = true ↔
        ∀ c ∈ [(StatusGroup.SUCCESS, [exampleSuccess]), (StatusGroup.ERROR, bucketOfSize 3),
            (StatusGroup.INFO, [exampleError])],
          ∀ E, (doEmit 2 E c.1 c.2).map Prod.fst = some true) ∧
      getFailures Eo
        = ([(StatusGroup.SUCCESS, [exampleSuccess]), (StatusGroup.ERROR, bucketOfSize 3),
            (StatusGroup.INFO, [exampleError])].filter
              fun c => (doEmit 2 {} c.1 c.2).map Prod.fst = some false).map
            fun c => GetGroupName c.1) ∧
    (emitAll 2 {} [(StatusGroup.SUCCESS, [exampleSuccess]),
        (StatusGroup.ERROR, bucketOfSize 3), (StatusGroup.INFO, [exampleError])]).map
      (fun E => (emitSuccessful E, getFailures E,
        decide (E.OS = linearText "Success".toList [exampleSuccess]
          ++ linearText "Info".toList [exampleError])))
      = some (false, ["Error".toList], true) :=
  ⟨by decide, by decide, by decide,
    (emitter_bookkeeping largeGroupSizeDefault []).1 {} StatusGroup.SUCCESS [underscoreRecord]
      [(StatusGroup.ERROR, [exampleError])] (by decide)
      ⟨underscoreRecord, List.mem_singleton.2 rfl, by decide⟩,
    (emitter_bookkeeping 2 [(StatusGroup.SUCCESS, [exampleSuccess]),
      (StatusGroup.ERROR, bucketOfSize 3), (StatusGroup.INFO, [exampleError])]).2.2.1,
    by decide⟩

/-! ## The code field -/

theorem charVal_of_hexDigit (c : Char) (h : isHexDigit c = true) :
    StringRef.charVal c = some (hexDigitValue c) ∧ hexDigitValue c < 16 := by
  have h0 : '0'.toNat = 48 := rfl
  have h9 : '9'.toNat = 57 := rfl
  have ha : 'a'.toNat = 97 := rfl
  have hf : 'f'.toNat = 102 := rfl
  have hz : 'z'.toNat = 122 := rfl
  have hA : 'A'.toNat = 65 := rfl
  have hF : 'F'.toNat = 70 := rfl
  have hZ : 'Z'.toNat = 90 := rfl
  simp only [isHexDigit, h0, h9, ha, hf, hA, hF, decide_eq_true_eq] at h
  unfold StringRef.charVal hexDigitValue
  simp only [h0, h9, ha, hf, hz, hA, hF, hZ]
  rcases h with h | h | h
  · rw [if_pos h, if_pos h]
    exact ⟨rfl, by omega⟩
  · have n1 : ¬ (48 ≤ c.toNat ∧ c.toNat ≤ 57) := by omega
    have p1 : 97 ≤ c.toNat ∧ c.toNat ≤ 122 := by omega
    rw [if_neg n1, if_pos p1, if_neg n1, if_pos h]
    exact ⟨rfl, by omega⟩
  · have n1 : ¬ (48 ≤ c.toNat ∧ c.toNat ≤ 57) := by omega
    have n2 : ¬ (97 ≤ c.toNat ∧ c.toNat ≤ 122) := by omega
    have n3 : ¬ (97 ≤ c.toNat ∧ c.toNat ≤ 102) := by omega
    have p1 : 65 ≤ c.toNat ∧ c.toNat ≤ 90 := by omega
    rw [if_neg n1, if_neg n2, if_pos p1, if_neg n1, if_neg n3]
    exact ⟨rfl, by omega⟩

theorem charVal_of_not_hexDigit (c : Char) (h : isHexDigit c = false) :
    StringRef.charVal c = none ∨ ∃ d, StringRef.charVal c = some d ∧ 16 ≤ d := by
  have h0 : '0'.toNat = 48 := rfl
  have h9 : '9'.toNat = 57 := rfl
  have ha : 'a'.toNat = 97 := rfl
  have hf : 'f'.toNat = 102 := rfl
  have hz : 'z'.toNat = 122 := rfl
  have hA : 'A'.toNat = 65 := rfl
  have hF : 'F'.toNat = 70 := rfl
  have hZ : 'Z'.toNat = 90 := rfl
  simp only [isHexDigit, h0, h9, ha, hf, hA, hF, decide_eq_false_iff_not, not_or] at h
  obtain ⟨n1, n2, n3⟩ := h
  unfold StringRef.charVal
  simp only [h0, h9, ha, hz, hA, hZ]
  rw [if_neg n1]
  by_cases p1 : 97 ≤ c.toNat ∧ c.toNat ≤ 122
  · rw [if_pos p1]
    exact Or.inr ⟨_, rfl, by omega⟩
  · rw [if_neg p1]
    by_cases p2 : 65 ≤ c.toNat ∧ c.toNat ≤ 90
    · rw [if_pos p2]
      exact Or.inr ⟨_, rfl, by omega⟩
    · rw [if_neg p2]
      exact Or.inl rfl

theorem hexValueFrom_ge (ds : List Char) (acc : Nat) : acc ≤ hexValueFrom acc ds := by
  induction ds generalizing acc with
  | nil => exact Nat.le_refl _
  | cons c cs ih =>
    have := ih (acc * 16 + hexDigitValue c)
    simp only [hexValueFrom]
    omega

theorem consumeDigits_eq (T : StringRef) (acc : Nat) (hacc : acc < 2 ^ 64) :
    StringRef.consumeDigits 16 T acc
      = if hexValueFrom acc (hexRun T) < 2 ^ 64 then
          some (hexValueFrom acc (hexRun T), T.dropWhile isHexDigit)
        else none := by
  induction T generalizing acc with
  | nil =>
    have hrun : hexRun [] = [] := rfl
    rw [StringRef.consumeDigits, hrun]
    simp only [hexValueFrom, List.dropWhile_nil]
    rw [if_pos hacc]
  | cons c cs ih =>
    rw [StringRef.consumeDigits]
    cases hc : isHexDigit c with
    | false =>
      have hrun : hexRun (c :: cs) = [] := by simp [hexRun, List.takeWhile, hc]
      have hdrop : (c :: cs).dropWhile isHexDigit = c :: cs := by simp [List.dropWhile, hc]
      rw [hrun, hdrop]
      simp only [hexValueFrom, hacc, if_true]
      rcases charVal_of_not_hexDigit c hc with h | ⟨d, h, hd⟩
      · rw [h]
      · rw [h]
        simp only
        rw [if_pos hd]
    | true =>
      obtain ⟨hv, hlt⟩ := charVal_of_hexDigit c hc
      have hrun : hexRun (c :: cs) = c :: hexRun cs := by simp [hexRun, List.takeWhile, hc]
      have hdrop : (c :: cs).dropWhile isHexDigit = cs.dropWhile isHexDigit := by
        simp [List.dropWhile, hc]
      rw [hv, hrun, hdrop]
      simp only [hexValueFrom]
      rw [if_neg (by omega)]
      by_cases hov : acc * 16 + hexDigitValue c < 2 ^ 64
      · have hmod : (acc * 16 + hexDigitValue c) % 2 ^ 64 = acc * 16 + hexDigitValue c :=
          Nat.mod_eq_of_lt hov
        rw [hmod, if_neg (by omega), ih _ hov]
      · have hge := hexValueFrom_ge (hexRun cs) (acc * 16 + hexDigitValue c)
        rw [if_pos (by omega), if_neg (by omega)]

theorem hexRun_length (T : StringRef) :
    (hexRun T).length + (T.dropWhile isHexDigit).length = T.length := by
  have := congrArg List.length (List.takeWhile_append_dropWhile isHexDigit T)
  rw [List.length_append] at this
  exact this

theorem consumeInteger_eq (T : StringRef) : StringRef.consumeInteger T 16 = hexLiteral T := by
  unfold StringRef.consumeInteger StringRef.consumeUnsignedInteger hexLiteral hexValue
  have hlen := hexRun_length T
  cases T with
  | nil => simp [hexRun]
  | cons c cs =>
    simp only [List.isEmpty_cons, Bool.false_eq_true, if_false]
    rw [consumeDigits_eq _ 0 (by decide)]
    by_cases h64 : hexValueFrom 0 (hexRun (c :: cs)) < 2 ^ 64
    · rw [if_pos h64]
      dsimp only
      by_cases hrun : hexRun (c :: cs) = []
      · rw [hrun] at hlen
        simp only [List.length_nil, Nat.zero_add] at hlen
        rw [if_pos hlen.symm, if_neg (by simp [hrun])]
      · have hne : ¬ (c :: cs).length = ((c :: cs).dropWhile isHexDigit).length := by
          have : 0 < (hexRun (c :: cs)).length := List.length_pos.2 hrun
          omega
        rw [if_neg hne]
        dsimp only
        by_cases h32 : hexValueFrom 0 (hexRun (c :: cs)) < 2 ^ 32
        · rw [if_neg (by rw [Nat.mod_eq_of_lt h32]; exact fun h => h rfl),
            if_pos ⟨hrun, h32⟩]
        · have hmod : hexValueFrom 0 (hexRun (c :: cs)) % 2 ^ 32
              ≠ hexValueFrom 0 (hexRun (c :: cs)) := by
            have := Nat.mod_lt (hexValueFrom 0 (hexRun (c :: cs))) (show 0 < 2 ^ 32 by decide)
            omega
          rw [if_pos hmod, if_neg (fun h => h32 h.2)]
    · rw [if_neg h64, if_neg (fun h => h64 (by omega))]

theorem consume_front_0x (T : StringRef) :
    (StringRef.consume_front T "0x".toList).2 = strip0x T := by
  unfold StringRef.consume_front
  show (if StringRef.starts_with T ['0', 'x'] = true then
      (true, StringRef.drop_front T 2) else (false, T)).2 = _
  cases T with
  | nil => rfl
  | cons c t =>
    cases t with
    | nil =>
      by_cases hc : c = '0'
      · subst hc; rfl
      · simp only [StringRef.starts_with, if_neg hc, Bool.false_eq_true, if_false]
        unfold strip0x
        split
        · rename_i heq; cases heq
        · rfl
    | cons d t =>
      by_cases hc : c = '0'
      · by_cases hd : d = 'x'
        · subst hc; subst hd
          simp [strip0x, StringRef.starts_with, StringRef.drop_front]
        · subst hc
          simp only [StringRef.starts_with, if_true, if_neg hd, Bool.false_eq_true, if_false]
          unfold strip0x
          split
          · rename_i heq
            simp only [List.cons.injEq] at heq
            exact absurd heq.2.1 hd
          · rfl
      · simp only [StringRef.starts_with, if_neg hc, Bool.false_eq_true, if_false]
        unfold strip0x
        split
        · rename_i heq
          simp only [List.cons.injEq] at heq
          exact absurd heq.1 hc
        · rfl

theorem codeFieldRest_eq (S : StringRef) :
    codeFieldRest S = (codeText S).bind fun T => hexLiteral (strip0x T) := by
  unfold codeFieldRest codeText FindAndConsume
  cases hf : StringRef.find S "<p>".toList with
  | none => rfl
  | some Off =>
    simp only [Option.map_some', Option.some_bind, consume_front_0x, consumeInteger_eq]
    rfl

theorem codeField_eq_rest (S : StringRef) : codeField S = (codeFieldRest S).map Prod.fst := by
  unfold codeField codeFieldRest
  rcases FindAndConsume S "<p>".toList with ⟨_ | _, S1⟩
  · rfl
  · dsimp only
    rcases StringRef.consumeInteger (StringRef.consume_front S1 "0x".toList).2 16
      with _ | ⟨v, R⟩
    · rfl
    · rfl

theorem parseSection_by_rest (P : NtCodeParser) (S R : StringRef) (v : Nat)
    (h : codeFieldRest S = some (v, R)) (hv : v ∉ P.parsedValues) :
    parseSection P S
      = (if (GetSubgroupPrefix (ConsumeStatusCtx v).1.SG).isEmpty then none
          else fieldsAfter (ConsumeStatusCtx v).1 (ConsumeStatusCtx v).2 R,
        { P with parsedValues := v :: P.parsedValues }) := by
  unfold codeFieldRest at h
  unfold parseSection
  rcases hf : FindAndConsume S "<p>".toList with ⟨_ | _, S1⟩
  · rw [hf] at h; cases h
  · rw [hf] at h
    dsimp only at h ⊢
    rw [h]
    dsimp only
    rw [if_neg (by simpa using hv)]
    by_cases hpre : (GetSubgroupPrefix (ConsumeStatusCtx v).1.SG).isEmpty = true
    · rw [if_pos hpre, if_pos hpre]
    · rw [if_neg hpre, if_neg hpre]
      unfold fieldsAfter
      rcases h1 : FindAndConsume R "<p>".toList with ⟨_ | _, S2⟩
      · rfl
      · dsimp only
        cases h2 : StringRef.find S2 "</p>".toList with
        | none => rfl
        | some NameEnd =>
          dsimp only
          rcases h3 : FindAndConsume (StringRef.consume_front S2 "</p>".toList).2 "<p>".toList
            with ⟨_ | _, S3⟩
          · rfl
          · dsimp only
            cases h4 : StringRef.find S3 "</p>".toList with
            | none => rfl
            | some MsgEnd => rfl

theorem outcomesFrom_codeField_none (L : List StringRef) (St : NtCodeParser × Bool)
    (hd : St.1.hadDuplicate = false) (S : StringRef) (hS : S ∈ L)
    (hc : codeField S = none) : (S, Outcome.Rejected) ∈ outcomesFrom St L := by
  induction L generalizing St with
  | nil => cases hS
  | cons S0 L ih =>
    obtain ⟨P, b⟩ := St
    simp only [outcomesFrom, List.mem_cons, Prod.mk.injEq]
    rcases List.mem_cons.1 hS with rfl | hS
    · left
      refine ⟨rfl, ?_⟩
      rcases step_spec P b S hd with ⟨-, ho, -⟩ | ⟨v, hc2, -⟩ | ⟨v, hc2, -⟩ | ⟨v, C, hc2, -⟩
      · exact ho.symm
      · rw [hc] at hc2; cases hc2
      · rw [hc] at hc2; cases hc2
      · rw [hc] at hc2; cases hc2
    · right
      exact ih _ (step_hadDuplicate P b S0 hd) hS

theorem hexValueFrom_bound (ds : List Char) (acc : Nat) (h : ∀ c ∈ ds, isHexDigit c = true) :
    hexValueFrom acc ds + 1 ≤ (acc + 1) * 16 ^ ds.length := by
  induction ds generalizing acc with
  | nil => simp [hexValueFrom]
  | cons c cs ih =>
    have hc := (charVal_of_hexDigit c (h c (List.mem_cons_self _ _))).2
    have h1 := ih (acc * 16 + hexDigitValue c) (fun c1 hc1 => h c1 (List.mem_cons_of_mem _ hc1))
    have h2 : (acc * 16 + hexDigitValue c + 1) * 16 ^ cs.length
        ≤ ((acc + 1) * 16) * 16 ^ cs.length :=
      Nat.mul_le_mul_right _ (by omega)
    simp only [hexValueFrom, List.length_cons, Nat.pow_succ]
    calc hexValueFrom (acc * 16 + hexDigitValue c) cs + 1
        ≤ (acc * 16 + hexDigitValue c + 1) * 16 ^ cs.length := h1
      _ ≤ ((acc + 1) * 16) * 16 ^ cs.length := h2
      _ = (acc + 1) * (16 ^ cs.length * 16) := by ring

theorem hexValue_short (T : StringRef) (h : (hexRun T).length ≤ 8) :
    hexValue (hexRun T) < 2 ^ 32 := by
  have hall : ∀ c ∈ hexRun T, isHexDigit c = true := fun c hc => (List.mem_takeWhile_imp hc)
  have h1 := hexValueFrom_bound (hexRun T) 0 hall
  have h2 : 16 ^ (hexRun T).length ≤ 16 ^ 8 := Nat.pow_le_pow_right (by decide) h
  have h3 : (16 : Nat) ^ 8 = 2 ^ 32 := by decide
  unfold hexValue
  omega

set_option maxRecDepth 1000000 in
/-- C12, as stated, fails on a record whose code is `0x000000001`: the run of
hexadecimal digits after the prefix has nine digits, the code field is
accepted with raw value 1, the record is stored and `parseFile` returns
true. -/
theorem nine_digit_code_accepted :
    codeText nineDigitSlice
      = some "0x000000001</p><p>STATUS_WAIT_1</p><p>Nine digits.</p>".toList ∧
    hexRun (strip0x "0x000000001</p><p>STATUS_WAIT_1</p><p>Nine digits.</p>".toList)
      = "000000001".toList ∧
    "000000001".toList.length = 9 ∧
    codeField nineDigitSlice = some 1 ∧
    sections nineDigitBuffer = [nineDigitSlice] ∧
    parseFile (NtCodeParser.ofBuffer nineDigitBuffer)
      = some (true,
          { SPBuf := [], didParseSuccessfully := true, parsedValues := [1],
            hadDuplicate := false,
            successes := [{ Code := 1, SG := Subgroup.STATUS, Name := "WAIT_1".toList,
                            Message := "Nine digits.".toList }],
            infos := [], warnings := [], errors := [] }) := by
  refine ⟨by decide, by decide, by decide, by decide, by decide, by decide⟩

set_option maxRecDepth 1000000 in
/-- C12, amended: the code field of a slice is accepted exactly when the slice
has a `<p>` and the text after the first `<p>`, without one leading `0x` if it
has one, begins with a run of hexadecimal digits that is not empty and denotes
a number below 2^32; the raw value is that number; a run of one to eight
digits always does, and a longer run does when its leading zeros keep the
number below 2^32. A slice with no `<p>`, with no hexadecimal digit at that
place, or with digits that denote 2^32 or more is rejected by `parseSection`
without the duplicate mark, and `parseFile` returns false on a buffer that has
such a slice. -/
theorem code_field_accepted_iff (S : StringRef) :
    (codeText S = none ↔ ¬ "<p>".toList <:+: S) ∧
    (∀ v, codeField S = some v ↔
      ∃ T, codeText S = some T ∧ hexRun (strip0x T) ≠ [] ∧
        hexValue (hexRun (strip0x T)) < 2 ^ 32 ∧ v = hexValue (hexRun (strip0x T))) ∧
    (codeField S = none ↔
      codeText S = none ∨
      ∃ T, codeText S = some T ∧
        (hexRun (strip0x T) = [] ∨ 2 ^ 32 ≤ hexValue (hexRun (strip0x T)))) ∧
    (∀ T, (hexRun (strip0x T)).length ≤ 8 → hexValue (hexRun (strip0x T)) < 2 ^ 32) ∧
    (∀ P, codeField S = none → parseSection P S = (none, P)) ∧
    (∀ Buf, S ∈ sections Buf → codeField S = none →
      ∃ P, parseFile (NtCodeParser.ofBuffer Buf) = some (false, P)) ∧
    codeField "<tr><p>0xC0000005</p>".toList = some 0xC0000005 ∧
    codeField "<tr><p>c0000005</p>".toList = some 0xC0000005 ∧
    codeField "<tr><p>0x100000000</p>".toList = none ∧
    codeField "<tr><p>0xZZ</p>".toList = none ∧
    codeField "<tr>0x5</tr>".toList = none := by
  have hsome : ∀ v, codeField S = some v ↔
      ∃ T, codeText S = some T ∧ hexRun (strip0x T) ≠ [] ∧
        hexValue (hexRun (strip0x T)) < 2 ^ 32 ∧ v = hexValue (hexRun (strip0x T)) := by
    intro v
    rw [codeField_eq_rest, codeFieldRest_eq]
    cases hT : codeText S with
    | none => simp
    | some T =>
      simp only [Option.some_bind, hexLiteral, Option.some.injEq, exists_eq_left']
      by_cases hc : hexRun (strip0x T) ≠ [] ∧ hexValue (hexRun (strip0x T)) < 2 ^ 32
      · rw [if_pos hc]
        simp only [Option.map_some', Option.some.injEq]
        constructor
        · intro h; exact ⟨hc.1, hc.2, h.symm⟩
        · intro h; exact h.2.2.symm
      · rw [if_neg hc]
        constructor
        · intro h; cases h
        · intro h; exact absurd ⟨h.1, h.2.1⟩ hc
  have hnone : codeField S = none ↔
      codeText S = none ∨
      ∃ T, codeText S = some T ∧
        (hexRun (strip0x T) = [] ∨ 2 ^ 32 ≤ hexValue (hexRun (strip0x T))) := by
    rw [codeField_eq_rest, codeFieldRest_eq]
    cases hT : codeText S with
    | none => simp
    | some T =>
      simp only [Option.some_bind, hexLiteral]
      by_cases hc : hexRun (strip0x T) ≠ [] ∧ hexValue (hexRun (strip0x T)) < 2 ^ 32
      · rw [if_pos hc]
        constructor
        · intro h; cases h
        · rintro (h | ⟨T1, hT1, h⟩)
          · cases h
          · cases hT1
            rcases h with h | h
            · exact absurd h hc.1
            · exact absurd hc.2 (by omega)
      · rw [if_neg hc]
        refine ⟨fun _ => Or.inr ⟨T, rfl, ?_⟩, fun _ => rfl⟩
        by_cases hr : hexRun (strip0x T) = []
        · exact Or.inl hr
        · right
          have : ¬ hexValue (hexRun (strip0x T)) < 2 ^ 32 := fun h => hc ⟨hr, h⟩
          omega
  refine ⟨?_, hsome, hnone, fun T h => hexValue_short _ h,
    fun P h => parseSection_codeField_none P S h, ?_,
    by decide, by decide, by decide, by decide, by decide⟩
  · unfold codeText
    rw [Option.map_eq_none', find_eq_none_iff]
  · intro Buf hS hc
    have hd : (NtCodeParser.ofBuffer Buf, true).1.hadDuplicate = false := rfl
    have hmem := outcomesFrom_codeField_none (sections Buf) _ hd S hS hc
    have hflag : ((sections Buf).foldl processSection (NtCodeParser.ofBuffer Buf, true)).2
        = false := by
      cases hf : ((sections Buf).foldl processSection (NtCodeParser.ofBuffer Buf, true)).2 with
      | false => rfl
      | true => exact absurd rfl (((run_flag _ _ hd).1 hf).2 _ hmem)
    refine ⟨(finish ((sections Buf).foldl processSection (NtCodeParser.ofBuffer Buf, true))
      (scanRest Buf)).2, ?_⟩
    rw [parseFile_eq]
    show some (finish ((sections Buf).foldl processSection (NtCodeParser.ofBuffer Buf, true))
      (scanRest Buf)) = _
    unfold finish
    rw [hflag]

/-! ## The inner markers -/

theorem find_skip_open (A R : StringRef) (hA : ¬ "<p>".toList <:+: A) :
    StringRef.find (A ++ '<' :: R) "<p>".toList
      = (StringRef.find ('<' :: R) "<p>".toList).map (· + A.length) := by
  induction A with
  | nil => simp
  | cons a A ih =>
    have hA2 : ¬ "<p>".toList <:+: A := fun h => hA (h.trans (List.suffix_cons a A).isInfix)
    have hs : StringRef.starts_with (a :: (A ++ '<' :: R)) "<p>".toList = false := by
      cases hst : StringRef.starts_with (a :: (A ++ '<' :: R)) "<p>".toList with
      | false => rfl
      | true =>
        exfalso
        obtain ⟨t, ht⟩ := (starts_with_iff _ _).1 hst
        have hp : "<p>".toList = ['<', 'p', '>'] := rfl
        rw [hp] at ht
        cases A with
        | nil => simp at ht
        | cons b A =>
          cases A with
          | nil => simp at ht
          | cons c A =>
            simp only [List.cons_append, List.cons.injEq, List.nil_append] at ht
            obtain ⟨h1, h2, h3, -⟩ := ht
            apply hA
            rw [hp, ← h1, ← h2, ← h3]
            exact (List.prefix_append ['<', 'p', '>'] A).isInfix
    rw [List.cons_append, StringRef.find, hs, ih hA2]
    simp only [Bool.false_eq_true, if_false, Option.map_map, List.length_cons]
    congr 1

theorem find_skip_close (A R : StringRef) (hA : ¬ "</p>".toList <:+: A) :
    StringRef.find (A ++ '<' :: R) "</p>".toList
      = (StringRef.find ('<' :: R) "</p>".toList).map (· + A.length) := by
  induction A with
  | nil => simp
  | cons a A ih =>
    have hA2 : ¬ "</p>".toList <:+: A := fun h => hA (h.trans (List.suffix_cons a A).isInfix)
    have hs : StringRef.starts_with (a :: (A ++ '<' :: R)) "</p>".toList = false := by
      cases hst : StringRef.starts_with (a :: (A ++ '<' :: R)) "</p>".toList with
      | false => rfl
      | true =>
        exfalso
        obtain ⟨t, ht⟩ := (starts_with_iff _ _).1 hst
        have hp : "</p>".toList = ['<', '/', 'p', '>'] := rfl
        rw [hp] at ht
        cases A with
        | nil => simp at ht
        | cons b A =>
          cases A with
          | nil => simp at ht
          | cons c A =>
            cases A with
            | nil => simp at ht
            | cons d A =>
              simp only [List.cons_append, List.cons.injEq, List.nil_append] at ht
              obtain ⟨h1, h2, h3, h4, -⟩ := ht
              apply hA
              rw [hp, ← h1, ← h2, ← h3, ← h4]
              exact (List.prefix_append ['<', '/', 'p', '>'] A).isInfix
    rw [List.cons_append, StringRef.find, hs, ih hA2]
    simp only [Bool.false_eq_true, if_false, Option.map_map, List.length_cons]
    congr 1

theorem find_open_here (R : StringRef) :
    StringRef.find ("<p>".toList ++ R) "<p>".toList = some 0 := by
  show StringRef.find ('<' :: 'p' :: '>' :: R) ['<', 'p', '>'] = _
  simp [StringRef.find, StringRef.starts_with]

theorem find_close_here (R : StringRef) :
    StringRef.find ("</p>".toList ++ R) "</p>".toList = some 0 := by
  show StringRef.find ('<' :: '/' :: 'p' :: '>' :: R) ['<', '/', 'p', '>'] = _
  simp [StringRef.find, StringRef.starts_with]

theorem find_open_after_close (R : StringRef) :
    StringRef.find ("</p>".toList ++ R) "<p>".toList
      = (StringRef.find R "<p>".toList).map (· + 4) := by
  show StringRef.find ('<' :: '/' :: 'p' :: '>' :: R) ['<', 'p', '>'] = _
  simp only [StringRef.find, StringRef.starts_with, Option.map_map]
  simp

theorem find_open_first (A Z : StringRef) (hA : ¬ "<p>".toList <:+: A) :
    StringRef.find (A ++ ("<p>".toList ++ Z)) "<p>".toList = some A.length := by
  have h := find_skip_open A ('p' :: '>' :: Z) hA
  have e : StringRef.find ('<' :: 'p' :: '>' :: Z) "<p>".toList = some 0 := find_open_here Z
  rw [e] at h
  simpa using h

theorem find_close_first (A Z : StringRef) (hA : ¬ "</p>".toList <:+: A) :
    StringRef.find (A ++ ("</p>".toList ++ Z)) "</p>".toList = some A.length := by
  have h := find_skip_close A ('/' :: 'p' :: '>' :: Z) hA
  have e : StringRef.find ('<' :: '/' :: 'p' :: '>' :: Z) "</p>".toList = some 0 :=
    find_close_here Z
  rw [e] at h
  simpa using h

theorem FindAndConsume_open (A Z : StringRef) (hA : ¬ "<p>".toList <:+: A) :
    FindAndConsume (A ++ ("<p>".toList ++ Z)) "<p>".toList = (true, Z) := by
  rw [FindAndConsume, find_open_first A Z hA]
  simp only [StringRef.drop_front]
  have e : A.length + "<p>".toList.length = (A ++ "<p>".toList).length := by simp
  rw [e, ← List.append_assoc, List.drop_left]

theorem FindAndConsume_close_open (G Z : StringRef) (hG : ¬ "<p>".toList <:+: G) :
    FindAndConsume ("</p>".toList ++ (G ++ ("<p>".toList ++ Z))) "<p>".toList = (true, Z) := by
  rw [FindAndConsume, find_open_after_close, find_open_first G Z hG]
  simp only [Option.map_some', StringRef.drop_front]
  have e : G.length + 4 + "<p>".toList.length
      = ("</p>".toList ++ (G ++ "<p>".toList)).length := by
    simp only [List.length_append]
    have h4 : "</p>".toList.length = 4 := rfl
    omega
  rw [e]
  have e2 : "</p>".toList ++ (G ++ ("<p>".toList ++ Z))
      = ("</p>".toList ++ (G ++ "<p>".toList)) ++ Z := by simp only [List.append_assoc]
  rw [e2, List.drop_left]

theorem FindAndConsume_name_open (N G Z : StringRef) (hN : ¬ "<p>".toList <:+: N)
    (hG : ¬ "<p>".toList <:+: G) :
    FindAndConsume (N ++ ("</p>".toList ++ (G ++ ("<p>".toList ++ Z)))) "<p>".toList
      = (true, Z) := by
  have h := find_skip_open N ('/' :: 'p' :: '>' :: (G ++ ("<p>".toList ++ Z))) hN
  have e : StringRef.find ('<' :: '/' :: 'p' :: '>' :: (G ++ ("<p>".toList ++ Z))) "<p>".toList
      = some (G.length + 4) := by
    have := find_open_after_close (G ++ ("<p>".toList ++ Z))
    rw [find_open_first G Z hG] at this
    exact this
  rw [e] at h
  have h2 : StringRef.find (N ++ ("</p>".toList ++ (G ++ ("<p>".toList ++ Z)))) "<p>".toList
      = some (G.length + 4 + N.length) := h
  rw [FindAndConsume, h2]
  simp only [StringRef.drop_front]
  have e3 : G.length + 4 + N.length + "<p>".toList.length
      = (N ++ ("</p>".toList ++ (G ++ "<p>".toList))).length := by
    simp only [List.length_append]
    have h4 : "</p>".toList.length = 4 := rfl
    omega
  rw [e3]
  have e4 : N ++ ("</p>".toList ++ (G ++ ("<p>".toList ++ Z)))
      = (N ++ ("</p>".toList ++ (G ++ "<p>".toList))) ++ Z := by simp only [List.append_assoc]
  rw [e4, List.drop_left]

theorem consume_front_close (N Y : StringRef) (hN : ¬ "</p>".toList <:+: N) :
    (StringRef.consume_front (N ++ ("</p>".toList ++ Y)) "</p>".toList).2
      = if N = [] then Y else N ++ ("</p>".toList ++ Y) := by
  by_cases hnil : N = []
  · subst hnil
    rw [if_pos rfl]
    show (StringRef.consume_front ('<' :: '/' :: 'p' :: '>' :: Y) ['<', '/', 'p', '>']).2 = Y
    simp [StringRef.consume_front, StringRef.starts_with, StringRef.drop_front]
  · rw [if_neg hnil]
    have hf := find_close_first N Y hN
    obtain ⟨-, -, hfirst⟩ := find_eq_some _ _ _ hf
    have h0 := hfirst 0 (List.length_pos.2 hnil)
    rw [List.drop_zero, ← starts_with_iff] at h0
    unfold StringRef.consume_front
    rw [if_neg h0]

/-! ## Field extraction -/

theorem strip0x_prefixed (T : StringRef) : strip0x ("0x".toList ++ T) = T := by
  show strip0x ('0' :: 'x' :: T) = T
  simp [strip0x]

theorem strip0x_hex (HEX Y : StringRef) (hne : HEX ≠ [])
    (hall : ∀ c ∈ HEX, isHexDigit c = true) :
    strip0x (HEX ++ '<' :: Y) = HEX ++ '<' :: Y := by
  cases HEX with
  | nil => exact absurd rfl hne
  | cons c cs =>
    unfold strip0x
    split
    · rename_i T heq
      exfalso
      cases cs with
      | nil =>
        simp only [List.cons_append, List.nil_append, List.cons.injEq] at heq
        exact absurd heq.2.1 (by decide)
      | cons d cs =>
        simp only [List.cons_append, List.cons.injEq] at heq
        have hd := hall d (List.mem_cons_of_mem _ (List.mem_cons_self _ _))
        rw [heq.2.1] at hd
        exact absurd hd (by decide)
    · rfl

theorem hexRun_append (HEX Y : StringRef) (hall : ∀ c ∈ HEX, isHexDigit c = true) :
    hexRun (HEX ++ '<' :: Y) = HEX ∧ (HEX ++ '<' :: Y).dropWhile isHexDigit = '<' :: Y := by
  induction HEX with
  | nil =>
    have h : isHexDigit '<' = false := by decide
    simp [hexRun, List.takeWhile, List.dropWhile, h]
  | cons c cs ih =>
    have hc := hall c (List.mem_cons_self _ _)
    obtain ⟨h1, h2⟩ := ih (fun c1 hc1 => hall c1 (List.mem_cons_of_mem _ hc1))
    have e1 : hexRun (c :: cs ++ '<' :: Y) = c :: hexRun (cs ++ '<' :: Y) := by
      simp [hexRun, List.takeWhile, hc]
    have e2 : (c :: cs ++ '<' :: Y).dropWhile isHexDigit
        = (cs ++ '<' :: Y).dropWhile isHexDigit := by
      simp [List.dropWhile, hc]
    rw [e1, e2, h1, h2]
    exact ⟨rfl, rfl⟩

theorem codeFieldRest_well_formed (pre Pfx HEX X : StringRef)
    (hpre : ¬ "<p>".toList <:+: pre) (hPfx : Pfx = [] ∨ Pfx = "0x".toList)
    (hne : HEX ≠ []) (hall : ∀ c ∈ HEX, isHexDigit c = true)
    (hval : hexValue HEX < 2 ^ 32) :
    codeFieldRest (pre ++ ("<p>".toList ++ (Pfx ++ (HEX ++ ("</p>".toList ++ X)))))
      = some (hexValue HEX, "</p>".toList ++ X) := by
  unfold codeFieldRest
  rw [FindAndConsume_open pre _ hpre]
  dsimp only
  rw [consume_front_0x, consumeInteger_eq]
  have hstrip : strip0x (Pfx ++ (HEX ++ ("</p>".toList ++ X))) = HEX ++ ("</p>".toList ++ X) := by
    rcases hPfx with h | h
    · subst h
      exact strip0x_hex HEX _ hne hall
    · subst h
      exact strip0x_prefixed _
  obtain ⟨h1, h2⟩ := hexRun_append HEX ('/' :: 'p' :: '>' :: X) hall
  rw [hstrip]
  unfold hexLiteral
  have e : HEX ++ ("</p>".toList ++ X) = HEX ++ '<' :: '/' :: 'p' :: '>' :: X := rfl
  rw [e, h1, h2, if_pos ⟨hne, hval⟩]
  rfl

theorem fieldsAfter_well_formed (Ctx : StatusCtx) (Code : Nat)
    (gap1 N gap2 M tail : StringRef)
    (hgap1 : ¬ "<p>".toList <:+: gap1) (hgap2 : ¬ "<p>".toList <:+: gap2)
    (hN1 : ¬ "<p>".toList <:+: N) (hN2 : ¬ "</p>".toList <:+: N)
    (hM2 : ¬ "</p>".toList <:+: M) :
    fieldsAfter Ctx Code
        ("</p>".toList ++ (gap1 ++ ("<p>".toList ++ (N ++ ("</p>".toList
          ++ (gap2 ++ ("<p>".toList ++ (M ++ ("</p>".toList ++ tail)))))))))
      = some (Ctx.Group,
          { Code := Code, SG := Ctx.SG,
            Name := (StringRef.consume_front N "STATUS_".toList).2, Message := M }) := by
  unfold fieldsAfter
  rw [FindAndConsume_close_open gap1 _ hgap1]
  dsimp only
  rw [find_close_first N _ hN2]
  dsimp only
  rw [consume_front_close N _ hN2]
  have htakeN : StringRef.take_front
      (N ++ ("</p>".toList ++ (gap2 ++ ("<p>".toList ++ (M ++ ("</p>".toList ++ tail))))))
      N.length = N := by
    unfold StringRef.take_front
    exact List.take_left _ _
  have htakeM : StringRef.take_front (M ++ ("</p>".toList ++ tail)) M.length = M := by
    unfold StringRef.take_front
    exact List.take_left _ _
  have hopen : FindAndConsume
      (if N = [] then gap2 ++ ("<p>".toList ++ (M ++ ("</p>".toList ++ tail)))
        else N ++ ("</p>".toList ++ (gap2 ++ ("<p>".toList ++ (M ++ ("</p>".toList ++ tail))))))
      "<p>".toList = (true, M ++ ("</p>".toList ++ tail)) := by
    by_cases hnil : N = []
    · rw [if_pos hnil]
      exact FindAndConsume_open gap2 _ hgap2
    · rw [if_neg hnil]
      exact FindAndConsume_name_open N gap2 _ hN1 hgap2
  rw [hopen]
  dsimp only
  rw [find_close_first M _ hM2]
  dsimp only
  rw [htakeN, htakeM]

theorem consume_front_status (N : StringRef) :
    (∀ R, N = "STATUS_".toList ++ R →
      (StringRef.consume_front N "STATUS_".toList).2 = R) ∧
    (¬ "STATUS_".toList <+: N → (StringRef.consume_front N "STATUS_".toList).2 = N) := by
  constructor
  · intro R hR
    subst hR
    have hs : StringRef.starts_with ("STATUS_".toList ++ R) "STATUS_".toList = true :=
      (starts_with_iff _ _).2 (List.prefix_append _ _)
    unfold StringRef.consume_front
    rw [if_pos hs]
    unfold StringRef.drop_front
    exact List.drop_left _ _
  · intro hno
    have hs : ¬ StringRef.starts_with N "STATUS_".toList = true :=
      fun h => hno ((starts_with_iff _ _).1 h)
    unfold StringRef.consume_front
    rw [if_neg hs]

/-- C11: for a slice of the shape text, `<p>`, optional `0x`, hexadecimal
digits, `</p>`, text, `<p>`, name, `</p>`, text, `<p>`, message, `</p>`, text,
where the texts before and between the fields hold no `<p>`, the name and the
message hold neither `<p>` nor `</p>`, and the digits denote a raw value below
2^32 that has not been seen and has a known facility, `parseSection` records
the raw value and returns the severity nibble with a record whose code is the
low 12 bits, whose subgroup is bits 12 to 27, whose name is the name text
without one leading `STATUS_` (unchanged when it has none) and whose message
is the message text as it stands. -/
theorem parseSection_well_formed (P : NtCodeParser)
    (pre Pfx HEX gap1 N gap2 M tail : StringRef)
    (hpre : ¬ "<p>".toList <:+: pre) (hgap1 : ¬ "<p>".toList <:+: gap1)
    (hgap2 : ¬ "<p>".toList <:+: gap2)
    (hN : ¬ "<p>".toList <:+: N ∧ ¬ "</p>".toList <:+: N)
    (hM : ¬ "<p>".toList <:+: M ∧ ¬ "</p>".toList <:+: M)
    (hPfx : Pfx = [] ∨ Pfx = "0x".toList)
    (hHEX : HEX ≠ [] ∧ ∀ c ∈ HEX, isHexDigit c = true)
    (hval : hexValue HEX < 2 ^ 32)
    (hfresh : hexValue HEX ∉ P.parsedValues)
    (hknown : (hexValue HEX) / 2 ^ 12 % 2 ^ 16 ∈ knownFacilities) :
    ∃ Name,
      parseSection P
          (pre ++ "<p>".toList ++ Pfx ++ HEX ++ "</p>".toList ++ gap1 ++ "<p>".toList ++ N
            ++ "</p>".toList ++ gap2 ++ "<p>".toList ++ M ++ "</p>".toList ++ tail)
        = (some ((hexValue HEX) / 2 ^ 28,
              { Code := (hexValue HEX) % 2 ^ 12, SG := (hexValue HEX) / 2 ^ 12 % 2 ^ 16,
                Name := Name, Message := M }),
            { P with parsedValues := hexValue HEX :: P.parsedValues }) ∧
      (∀ R, N = "STATUS_".toList ++ R → Name = R) ∧
      (¬ "STATUS_".toList <+: N → Name = N) := by
  refine ⟨(StringRef.consume_front N "STATUS_".toList).2, ?_, consume_front_status N⟩
  have hrest := codeFieldRest_well_formed pre Pfx HEX
    (gap1 ++ ("<p>".toList ++ (N ++ ("</p>".toList
      ++ (gap2 ++ ("<p>".toList ++ (M ++ ("</p>".toList ++ tail))))))))
    hpre hPfx hHEX.1 hHEX.2 hval
  have hS : pre ++ "<p>".toList ++ Pfx ++ HEX ++ "</p>".toList ++ gap1 ++ "<p>".toList ++ N
      ++ "</p>".toList ++ gap2 ++ "<p>".toList ++ M ++ "</p>".toList ++ tail
      = pre ++ ("<p>".toList ++ (Pfx ++ (HEX ++ ("</p>".toList ++ (gap1 ++ ("<p>".toList
        ++ (N ++ ("</p>".toList ++ (gap2 ++ ("<p>".toList ++ (M ++ ("</p>".toList
        ++ tail)))))))))))) := by
    simp only [List.append_assoc]
  rw [hS, parseSection_by_rest P _ _ _ hrest hfresh, ConsumeStatusCtx_eq]
  dsimp only
  have hfacility : (GetSubgroupPrefix (hexValue HEX / 2 ^ 12 % 2 ^ 16)).isEmpty = false := by
    cases hg : GetSubgroupPrefix (hexValue HEX / 2 ^ 12 % 2 ^ 16) with
    | nil => exact absurd hg ((GetSubgroupPrefix_ne_nil_iff _).2 hknown)
    | cons c cs => rfl
  rw [hfacility]
  simp only [Bool.false_eq_true, if_false]
  rw [fieldsAfter_well_formed _ _ gap1 N gap2 M tail hgap1 hgap2 hN.1 hN.2 hM.2]
  have e : hexValue HEX / 2 ^ 28 % 2 ^ 4 = hexValue HEX / 2 ^ 28 := by omega
  simp only [e]

set_option maxRecDepth 1000000 in
theorem parseSection_well_formed_witness :
    (¬ "<p>".toList <:+: "<tr>\n".toList) ∧ (¬ "<p>".toList <:+: " ".toList) ∧
    (¬ "<p>".toList <:+: "\n".toList) ∧
    (¬ "<p>".toList <:+: "STATUS_ACCESS_VIOLATION".toList
      ∧ ¬ "</p>".toList <:+: "STATUS_ACCESS_VIOLATION".toList) ∧
    (¬ "<p>".toList <:+: "Line one\r\nLine two".toList
      ∧ ¬ "</p>".toList <:+: "Line one\r\nLine two".toList) ∧
    ("C0000005".toList ≠ [] ∧ ∀ c ∈ "C0000005".toList, isHexDigit c = true) ∧
    hexValue "C0000005".toList = 0xC0000005 ∧
    (∃ Name,
      parseSection (NtCodeParser.ofBuffer []) wellFormedSlice
        = (some ((hexValue "C0000005".toList) / 2 ^ 28,
              { Code := (hexValue "C0000005".toList) % 2 ^ 12,
                SG := (hexValue "C0000005".toList) / 2 ^ 12 % 2 ^ 16,
                Name := Name, Message := "Line one\r\nLine two".toList }),
            { NtCodeParser.ofBuffer [] with
              parsedValues :=
                hexValue "C0000005".toList :: (NtCodeParser.ofBuffer []).parsedValues }) ∧
      (∀ R, "STATUS_ACCESS_VIOLATION".toList = "STATUS_".toList ++ R → Name = R) ∧
      (¬ "STATUS_".toList <+: "STATUS_ACCESS_VIOLATION".toList
        → Name = "STATUS_ACCESS_VIOLATION".toList)) ∧
    parseSection (NtCodeParser.ofBuffer []) wellFormedSlice
      = (some (0xC,
            { Code := 5, SG := Subgroup.STATUS, Name := "ACCESS_VIOLATION".toList,
              Message := "Line one\r\nLine two".toList }),
          { NtCodeParser.ofBuffer [] with parsedValues := [0xC0000005] }) :=
  have h1 : ¬ "<p>".toList <:+: "<tr>\n".toList := (find_eq_none_iff _ _).1 (by decide)
  have h2 : ¬ "<p>".toList <:+: " ".toList := (find_eq_none_iff _ _).1 (by decide)
  have h3 : ¬ "<p>".toList <:+: "\n".toList := (find_eq_none_iff _ _).1 (by decide)
  have h4 : ¬ "<p>".toList <:+: "STATUS_ACCESS_VIOLATION".toList
      ∧ ¬ "</p>".toList <:+: "STATUS_ACCESS_VIOLATION".toList :=
    ⟨(find_eq_none_iff _ _).1 (by decide), (find_eq_none_iff _ _).1 (by decide)⟩
  have h5 : ¬ "<p>".toList <:+: "Line one\r\nLine two".toList
      ∧ ¬ "</p>".toList <:+: "Line one\r\nLine two".toList :=
    ⟨(find_eq_none_iff _ _).1 (by decide), (find_eq_none_iff _ _).1 (by decide)⟩
  have h6 : "C0000005".toList ≠ [] ∧ ∀ c ∈ "C0000005".toList, isHexDigit c = true :=
    ⟨by decide, by decide⟩
  ⟨h1, h2, h3, h4, h5, h6, by decide,
    parseSection_well_formed (NtCodeParser.ofBuffer []) "<tr>\n".toList "0x".toList
      "C0000005".toList " ".toList "STATUS_ACCESS_VIOLATION".toList "\n".toList
      "Line one\r\nLine two".toList "\n".toList h1 h2 h3 h4 h5 (Or.inr rfl) h6 (by decide)
      (by decide) (by decide),
    by decide⟩

/-! ## Missing fields -/

theorem fieldsAfter_missing (Ctx : StatusCtx) (Code : Nat) (R : StringRef)
    (h : missingName R ∨ messageNotFound R) : fieldsAfter Ctx Code R = none := by
  have h3 : "<p>".toList.length = 3 := rfl
  unfold fieldsAfter FindAndConsume
  rcases h with (h | ⟨o, ho, hc⟩) | ⟨o, ho, hcl, hm⟩
  · rw [(find_eq_none_iff _ _).2 h]
  · rw [ho]
    simp only [StringRef.drop_front, h3]
    rw [(find_eq_none_iff _ _).2 hc]
  · rw [ho]
    simp only [StringRef.drop_front, h3]
    cases hf : StringRef.find (List.drop (o + 3) R) "</p>".toList with
    | none => rfl
    | some NameEnd =>
      dsimp only
      by_cases hs : StringRef.starts_with (List.drop (o + 3) R) "</p>".toList = true
      · have hcf : (StringRef.consume_front (List.drop (o + 3) R) "</p>".toList).2
            = List.drop 4 (List.drop (o + 3) R) := by
          unfold StringRef.consume_front
          rw [if_pos hs]
          rfl
        obtain ⟨Y, hY⟩ := (starts_with_iff _ _).1 hs
        have hY2 : List.drop 4 (List.drop (o + 3) R) = Y := by
          rw [← hY]
          rfl
        rw [hcf, hY2]
        have hfind := find_open_after_close Y
        rw [hY] at hfind
        rcases hm with hm | ⟨o3, ho3, hm⟩
        · have hn := (find_eq_none_iff _ _).2 hm
          rw [hn] at hfind
          have hYn : StringRef.find Y "<p>".toList = none := by
            cases hy : StringRef.find Y "<p>".toList with
            | none => rfl
            | some k => rw [hy] at hfind; cases hfind
          rw [hYn]
        · rw [ho3] at hfind
          cases hy : StringRef.find Y "<p>".toList with
          | none => rfl
          | some k =>
            rw [hy] at hfind
            simp only [Option.map_some', Option.some.injEq] at hfind
            dsimp only
            have hdrop : List.drop (k + 3) Y
                = List.drop (o3 + 3) (List.drop (o + 3) R) := by
              rw [← hY2, List.drop_drop, hfind]
              congr 1
              omega
            rw [hdrop, (find_eq_none_iff _ _).2 hm]
      · have hcf : (StringRef.consume_front (List.drop (o + 3) R) "</p>".toList).2
            = List.drop (o + 3) R := by
          unfold StringRef.consume_front
          rw [if_neg hs]
        rw [hcf]
        rcases hm with hm | ⟨o3, ho3, hm⟩
        · rw [(find_eq_none_iff _ _).2 hm]
        · rw [ho3]
          dsimp only
          rw [(find_eq_none_iff _ _).2 hm]

theorem parseSection_missing (P : NtCodeParser) (S R : StringRef) (v : Nat)
    (hcode : codeFieldRest S = some (v, R)) (hv : v ∉ P.parsedValues)
    (hmissing : missingName R ∨ messageNotFound R) :
    parseSection P S = (none, { P with parsedValues := v :: P.parsedValues }) := by
  rw [parseSection_by_rest P S R v hcode hv, fieldsAfter_missing _ _ R hmissing]
  simp

theorem processSection_missing (St : NtCodeParser × Bool) (S R : StringRef) (v : Nat)
    (hd : St.1.hadDuplicate = false)
    (hcode : codeFieldRest S = some (v, R)) (hv : v ∉ St.1.parsedValues)
    (hmissing : missingName R ∨ messageNotFound R) :
    processSection St S
      = ({ St.1 with parsedValues := v :: St.1.parsedValues, hadDuplicate := false },
          false) := by
  unfold processSection
  rw [parseSection_missing St.1 S R v hcode hv hmissing]
  simp [hd]

/-- A slice of the buffer with a code field whose raw value no earlier slice
holds and that has a known facility, and in whose remaining text the name has
no `<p>` or no `</p>`, or the search for the message comes back empty: the
facility test passes and the field extraction fails, `parseSection` records
the raw value and returns nothing without the duplicate mark, the slice is
rejected, no bucket changes, `parseFile` returns false, and the slices that
follow are processed from the state so reached. -/
theorem fields_not_found_rejected (Buf : StringRef) (Pre Post : List StringRef)
    (S R : StringRef) (v : Nat)
    (hsec : sections Buf = Pre ++ S :: Post)
    (hcode : codeFieldRest S = some (v, R))
    (hfresh : ∀ S0 ∈ Pre, codeField S0 ≠ some v)
    (hknown : subgroupOf v ∈ knownFacilities)
    (hmissing : missingName R ∨ messageNotFound R) :
    ((GetSubgroupPrefix (ConsumeStatusCtx v).1.SG).isEmpty = false ∧
      fieldsAfter (ConsumeStatusCtx v).1 (ConsumeStatusCtx v).2 R = none) ∧
    parseSection (Pre.foldl processSection (NtCodeParser.ofBuffer Buf, true)).1 S
      = (none,
          { (Pre.foldl processSection (NtCodeParser.ofBuffer Buf, true)).1 with
            parsedValues :=
              v :: (Pre.foldl processSection (NtCodeParser.ofBuffer Buf, true)).1.parsedValues }) ∧
    sectionOutcome (Pre.foldl processSection (NtCodeParser.ofBuffer Buf, true)).1 S
      = Outcome.Rejected ∧
    (∀ G, bucketOf
        (processSection (Pre.foldl processSection (NtCodeParser.ofBuffer Buf, true)) S).1 G
      = bucketOf (Pre.foldl processSection (NtCodeParser.ofBuffer Buf, true)).1 G) ∧
    (∃ P, parseFile (NtCodeParser.ofBuffer Buf) = some (false, P)) ∧
    parseFile (NtCodeParser.ofBuffer Buf)
      = some (finish
          (Post.foldl processSection
            (processSection (Pre.foldl processSection (NtCodeParser.ofBuffer Buf, true)) S))
          (scanRest Buf)) ∧
    outcomes Buf
      = outcomesFrom (NtCodeParser.ofBuffer Buf, true) Pre
        ++ (S, Outcome.Rejected)
          :: outcomesFrom
            (processSection (Pre.foldl processSection (NtCodeParser.ofBuffer Buf, true)) S)
            Post := by
  have hd : (NtCodeParser.ofBuffer Buf, true).1.hadDuplicate = false := rfl
  have hd2 := run_hadDuplicate Pre _ hd
  have hv : v ∉ (Pre.foldl processSection (NtCodeParser.ofBuffer Buf, true)).1.parsedValues := by
    intro hin
    rcases (run_parsedValues Pre _ hd v).1 hin with h | ⟨S0, hS0, hc0⟩
    · cases h
    · exact hfresh S0 hS0 hc0
  have hps := parseSection_missing _ S R v hcode hv hmissing
  have hout : sectionOutcome (Pre.foldl processSection (NtCodeParser.ofBuffer Buf, true)).1 S
      = Outcome.Rejected := by
    unfold sectionOutcome
    rw [hps]
    simp [hd2]
  have hstep : processSection (Pre.foldl processSection (NtCodeParser.ofBuffer Buf, true)) S
      = ({ (Pre.foldl processSection (NtCodeParser.ofBuffer Buf, true)).1 with
            parsedValues :=
              v :: (Pre.foldl processSection (NtCodeParser.ofBuffer Buf, true)).1.parsedValues,
            hadDuplicate := false }, false) :=
    processSection_missing _ S R v hd2 hcode hv hmissing
  have hparse : parseFile (NtCodeParser.ofBuffer Buf)
      = some (finish
          (Post.foldl processSection
            (processSection (Pre.foldl processSection (NtCodeParser.ofBuffer Buf, true)) S))
          (scanRest Buf)) := by
    rw [parseFile_eq]
    show some (finish ((sections Buf).foldl processSection _) _) = _
    rw [hsec, List.foldl_append, List.foldl_cons]
    rfl
  have hflag : (Post.foldl processSection
      (processSection (Pre.foldl processSection (NtCodeParser.ofBuffer Buf, true)) S)).2
      = false := by
    apply run_flag_false
    · rw [hstep]
    · rw [hstep]
  have hfac : (GetSubgroupPrefix (ConsumeStatusCtx v).1.SG).isEmpty = false := by
    have hne := (GetSubgroupPrefix_ne_nil_iff (subgroupOf v)).2 hknown
    rw [ConsumeStatusCtx_eq]
    cases hg : GetSubgroupPrefix (subgroupOf v) with
    | nil => exact absurd hg hne
    | cons c cs =>
      show (GetSubgroupPrefix (subgroupOf v)).isEmpty = false
      rw [hg]
      rfl
  refine ⟨⟨hfac, fieldsAfter_missing _ _ R hmissing⟩, hps, hout, ?_, ?_, hparse, ?_⟩
  · intro G
    rw [hstep]
    rfl
  · refine ⟨(finish
          (Post.foldl processSection
            (processSection (Pre.foldl processSection (NtCodeParser.ofBuffer Buf, true)) S))
          (scanRest Buf)).2, ?_⟩
    rw [hparse]
    unfold finish
    rw [hflag]
  · unfold outcomes
    rw [hsec, outcomesFrom_append]
    simp only [outcomesFrom]
    rw [hout]

set_option maxRecDepth 1000000 in
theorem fields_not_found_example :
    sections noMessageBuffer = [] ++ noMessageSlice :: [afterNoMessageSlice] ∧
    codeFieldRest noMessageSlice
      = some (0xC0000005, "</p><p>STATUS_ACCESS_VIOLATION</p>".toList) ∧
    (∀ S0 ∈ ([] : List StringRef), codeField S0 ≠ some 0xC0000005) ∧
    subgroupOf 0xC0000005 ∈ knownFacilities ∧
    (missingName "</p><p>STATUS_ACCESS_VIOLATION</p>".toList
      ∨ messageNotFound "</p><p>STATUS_ACCESS_VIOLATION</p>".toList) ∧
    (∃ P, parseFile (NtCodeParser.ofBuffer noMessageBuffer) = some (false, P)) ∧
    parseFile (NtCodeParser.ofBuffer noMessageBuffer)
      = some (false,
          { SPBuf := [], didParseSuccessfully := false,
            parsedValues := [0x00000000, 0xC0000005], hadDuplicate := false,
            successes := [{ Code := 0, SG := Subgroup.STATUS, Name := "SUCCESS".toList,
                            Message := "Fine.".toList }],
            infos := [], warnings := [], errors := [] }) :=
  have hm : missingName "</p><p>STATUS_ACCESS_VIOLATION</p>".toList
      ∨ messageNotFound "</p><p>STATUS_ACCESS_VIOLATION</p>".toList :=
    Or.inr ⟨4, by decide, ⟨"STATUS_ACCESS_VIOLATION".toList, [], rfl⟩,
      Or.inl ((find_eq_none_iff _ _).1 (by decide))⟩
  ⟨by decide, by decide, (by intro S0 h; cases h), by decide, hm,
    (fields_not_found_rejected noMessageBuffer [] [afterNoMessageSlice] noMessageSlice
      "</p><p>STATUS_ACCESS_VIOLATION</p>".toList 0xC0000005 (by decide) (by decide)
      (by intro S0 h; cases h) (by decide) hm).2.2.2.2.1,
    by decide⟩

/-! ## The domain of `MakePascalcase` -/

theorem tolower_ne_underscore (c : Char) (h : c ≠ '_') : tolower c ≠ '_' := by
  unfold tolower Char.toLower
  dsimp only
  split
  · rename_i hr
    obtain ⟨h1, h2⟩ := hr
    generalize c.toNat = n at h1 h2
    interval_cases n <;> decide
  · exact h

theorem map_tolower_no_underscore (R : StringRef) (h : '_' ∉ R) :
    '_' ∉ R.map tolower := by
  intro hin
  obtain ⟨c, hc, he⟩ := List.mem_map.1 hin
  exact tolower_ne_underscore c (fun e => h (e ▸ hc)) he

theorem find_char_some (A : StringRef) (c : Char) (n : Nat)
    (h : StringRef.find A [c] = some n) :
    ∃ X Y, A = X ++ c :: Y ∧ c ∉ X ∧ X.length = n := by
  induction A generalizing n with
  | nil => cases h
  | cons x xs ih =>
    rw [find_char_cons] at h
    by_cases hx : x = c
    · rw [if_pos hx] at h
      cases h
      exact ⟨[], xs, by rw [hx]; rfl, List.not_mem_nil _, rfl⟩
    · rw [if_neg hx] at h
      cases hf : StringRef.find xs [c] with
      | none => rw [hf] at h; cases h
      | some k =>
        rw [hf] at h
        simp only [Option.map_some', Option.some.injEq] at h
        obtain ⟨X, Y, hA, hX, hl⟩ := ih k hf
        refine ⟨x :: X, Y, by rw [hA]; rfl, ?_, by rw [List.length_cons, hl, h]⟩
        intro hin
        rcases List.mem_cons.1 hin with e | e
        · exact hx e.symm
        · exact hX e

theorem find_char_none_iff (A : StringRef) (c : Char) :
    StringRef.find A [c] = none ↔ c ∉ A := by
  constructor
  · intro h hin
    obtain ⟨X, Y, hA⟩ := List.append_of_mem hin
    have hi : [c] <:+: A := ⟨X, Y, by rw [hA]; simp⟩
    exact (find_eq_none_iff _ _).1 h hi
  · exact find_char_none A c

theorem double_underscore_split (A B : StringRef) (hA : '_' ∉ A) :
    ['_', '_'] <:+: A ++ '_' :: B ↔ B.head? = some '_' ∨ ['_', '_'] <:+: B := by
  induction A with
  | nil =>
    rw [List.nil_append, List.infix_cons_iff, List.cons_prefix_cons]
    constructor
    · rintro (⟨-, hp⟩ | hi)
      · left
        obtain ⟨t, ht⟩ := hp
        rw [← ht]
        rfl
      · exact Or.inr hi
    · rintro (hh | hi)
      · left
        refine ⟨rfl, ?_⟩
        cases B with
        | nil => cases hh
        | cons b bs =>
          simp only [List.head?_cons, Option.some.injEq] at hh
          rw [hh]
          exact ⟨bs, rfl⟩
      · exact Or.inr hi
  | cons a as ih =>
    rw [List.mem_cons, not_or] at hA
    rw [List.cons_append, List.infix_cons_iff, List.cons_prefix_cons, ih hA.2]
    constructor
    · rintro (⟨e, -⟩ | h)
      · exact absurd e hA.1
      · exact h
    · intro h
      exact Or.inr h

theorem MakePascalcaseLoop_spec (fuel : Nat) (Name Output : StringRef)
    (hfuel : Name.length < fuel) :
    ((Name.head? = some '_' ∨ ['_', '_'] <:+: Name) →
      MakePascalcaseLoop fuel Name Output = none) ∧
    (¬ (Name.head? = some '_' ∨ ['_', '_'] <:+: Name) →
      ∃ N O, MakePascalcaseLoop fuel Name Output = some (N, O) ∧ '_' ∉ N ∧
        ('_' ∉ Output → '_' ∉ O) ∧
        O.length + N.length + Name.count '_' = Output.length + Name.length) := by
  induction fuel generalizing Name Output with
  | zero => exact absurd hfuel (Nat.not_lt_zero _)
  | succ fuel ih =>
    rw [MakePascalcaseLoop]
    cases hf : StringRef.find Name ['_'] with
    | none =>
      have hno := (find_char_none_iff _ _).1 hf
      have hgood : ¬ (Name.head? = some '_' ∨ ['_', '_'] <:+: Name) := by
        rintro (h | h)
        · exact hno (List.mem_of_mem_head? h)
        · obtain ⟨s, t, ht⟩ := h
          apply hno
          rw [← ht]
          simp
      refine ⟨fun h => absurd h hgood, fun _ => ⟨Name, Output, rfl, hno, id, ?_⟩⟩
      rw [List.count_eq_zero_of_not_mem hno]
      omega
    | some Pos =>
      obtain ⟨X, Y, hN, hX, hl⟩ := find_char_some Name '_' Pos hf
      have htake : StringRef.take_front Name Pos = X := by
        rw [hN, ← hl]
        exact List.take_left _ _
      have hdrop : StringRef.drop_front Name (Pos + 1) = Y := by
        rw [hN, ← hl]
        show List.drop (X.length + 1) (X ++ '_' :: Y) = Y
        rw [← List.drop_drop, List.drop_left]
        rfl
      dsimp only
      rw [htake, hdrop]
      cases X with
      | nil =>
        refine ⟨fun _ => rfl, fun h => absurd (Or.inl ?_) h⟩
        rw [hN]
        rfl
      | cons c cs =>
        dsimp only
        have hY : Y.length < fuel := by
          rw [hN] at hfuel
          simp only [List.length_append, List.length_cons] at hfuel
          omega
        have hbad : (Name.head? = some '_' ∨ ['_', '_'] <:+: Name)
            ↔ (Y.head? = some '_' ∨ ['_', '_'] <:+: Y) := by
          rw [hN, double_underscore_split _ _ hX]
          constructor
          · rintro (h | h)
            · simp only [List.cons_append, List.head?_cons, Option.some.injEq] at h
              exact absurd (h ▸ List.mem_cons_self _ _) hX
            · exact h
          · exact Or.inr
        obtain ⟨ih1, ih2⟩ := ih Y (Output ++ [c] ++ List.map tolower cs) hY
        refine ⟨fun h => ih1 (hbad.1 h), fun h => ?_⟩
        obtain ⟨N, O, hres, hNn, hO, hlen⟩ := ih2 (fun hb => h (hbad.2 hb))
        refine ⟨N, O, hres, hNn, ?_, ?_⟩
        · intro hOut
          apply hO
          rw [List.mem_cons, not_or] at hX
          simp only [List.mem_append, List.mem_singleton, not_or]
          exact ⟨⟨hOut, fun e => hX.1 e⟩, map_tolower_no_underscore cs hX.2⟩
        · rw [hN, List.count_append, List.count_cons_self,
            List.count_eq_zero_of_not_mem hX]
          simp only [List.length_append, List.length_cons, List.length_map,
            List.length_nil] at hlen ⊢
          omega

theorem finishPascalcase_spec (N O : StringRef) (hN : '_' ∉ N) (hO : '_' ∉ O) :
    '_' ∉ finishPascalcase (N, O) ∧ (finishPascalcase (N, O)).length = O.length + N.length := by
  cases N with
  | nil => exact ⟨hO, rfl⟩
  | cons c cs =>
    rw [List.mem_cons, not_or] at hN
    constructor
    · show '_' ∉ O ++ [c] ++ cs.map tolower
      simp only [List.mem_append, List.mem_singleton, not_or]
      exact ⟨⟨hO, hN.1⟩, map_tolower_no_underscore cs hN.2⟩
    · show (O ++ [c] ++ cs.map tolower).length = _
      simp only [List.length_append, List.length_cons, List.length_map, List.length_nil]
      omega

/-- C24: with `Substr[0]` on an empty segment modelled as giving no result,
`MakePascalcase` gives a result exactly for the names that do not begin with
`_` and hold no two `_` in a row; the empty name and a name that ends in `_`
are among them; and a result holds no `_` and is as long as the name without
its `_` characters. -/
theorem MakePascalcase_defined_iff (Name : StringRef) :
    ((∃ r, MakePascalcase Name = some r)
      ↔ Name.head? ≠ some '_' ∧ ¬ ['_', '_'] <:+: Name) ∧
    (MakePascalcase Name = none
      ↔ Name.head? = some '_' ∨ ['_', '_'] <:+: Name) ∧
    (∀ r, MakePascalcase Name = some r →
      '_' ∉ r ∧ r.length = Name.length - Name.count '_' ∧
      r.length + Name.count '_' = Name.length) ∧
    MakePascalcase [] = some [] ∧
    MakePascalcase "ACCESS_".toList = some "Access".toList ∧
    MakePascalcase "ACCESS_DENIED_".toList = some "AccessDenied".toList ∧
    MakePascalcase "_ACCESS".toList = none ∧
    MakePascalcase "ACCESS__DENIED".toList = none := by
  obtain ⟨h1, h2⟩ := MakePascalcaseLoop_spec (Name.length + 1) Name [] (Nat.lt_succ_self _)
  have hnone : MakePascalcase Name = none
      ↔ Name.head? = some '_' ∨ ['_', '_'] <:+: Name := by
    rw [MakePascalcase_eq_loop]
    constructor
    · intro h
      by_contra hb
      obtain ⟨N, O, hres, -⟩ := h2 hb
      rw [hres] at h
      cases h
    · intro hb
      rw [h1 hb]
      rfl
  refine ⟨?_, hnone, ?_, by decide, by decide, by decide, by decide, by decide⟩
  · rw [← not_or, ← hnone]
    cases MakePascalcase Name with
    | none => simp
    | some r => simp
  · intro r hr
    have hb : ¬ (Name.head? = some '_' ∨ ['_', '_'] <:+: Name) := by
      intro hb
      rw [hnone.2 hb] at hr
      cases hr
    obtain ⟨N, O, hres, hN, hO, hlen⟩ := h2 hb
    rw [MakePascalcase_eq_loop, hres] at hr
    simp only [Option.map_some', Option.some.injEq] at hr
    obtain ⟨hf1, hf2⟩ := finishPascalcase_spec N O hN (hO (List.not_mem_nil _))
    rw [hr] at hf1 hf2
    simp only [List.length_nil] at hlen
    refine ⟨hf1, ?_, ?_⟩ <;> omega

/-! ## Termination of the scan -/

theorem parseFileLoop_fuel (f1 f2 : Nat) (P : NtCodeParser) (b : Bool)
    (h1 : P.SPBuf.length / 9 < f1) (h2 : P.SPBuf.length / 9 < f2) :
    parseFileLoop f1 P b = parseFileLoop f2 P b := by
  induction f1 generalizing f2 P b with
  | zero => exact absurd h1 (Nat.not_lt_zero _)
  | succ f1 ih =>
    cases f2 with
    | zero => exact absurd h2 (Nat.not_lt_zero _)
    | succ f2 =>
      rcases hc : consumeNextSection P with ⟨_ | S, Q⟩
      · rw [parseFileLoop, parseFileLoop, hc]
      · rw [parseFileLoop_step f1 P Q b S hc, parseFileLoop_step f2 P Q b S hc]
        have hlen := consumeNextSection_shorter _ _ _ hc
        have hbuf := processSection_SPBuf Q b S
        apply ih
        · rw [hbuf]; omega
        · rw [hbuf]; omega

theorem sectionsLoop_length (fuel : Nat) (Buf : StringRef) :
    (sectionsLoop fuel Buf).length * 9 ≤ Buf.length := by
  induction fuel generalizing Buf with
  | zero => simp [sectionsLoop]
  | succ fuel ih =>
    rw [sectionsLoop]
    rcases hc : consumeNextSection (NtCodeParser.ofBuffer Buf) with ⟨_ | S, Q⟩
    · simp
    · have hlen := consumeNextSection_shorter _ _ _ hc
      have e : (NtCodeParser.ofBuffer Buf).SPBuf = Buf := rfl
      rw [e] at hlen
      have := ih Q.SPBuf
      simp only [List.length_cons]
      omega

theorem outcomesFrom_length (L : List StringRef) (St : NtCodeParser × Bool) :
    (outcomesFrom St L).length = L.length := by
  rw [← List.length_map (outcomesFrom St L) Prod.fst, outcomesFrom_fst]

/-- C23: `parseFile` returns a result on every buffer, and the loop returns
that same result with any fuel above the buffer length divided by 9; every
call of `consumeNextSection` that returns a slice leaves a cursor shorter by
at least 9 characters; the number of slices, each of which is processed once,
is at most the buffer length divided by 9, a bound that two empty records
reach. -/
theorem parseFile_terminates (Buf : StringRef) :
    (∃ b P, parseFile (NtCodeParser.ofBuffer Buf) = some (b, P)) ∧
    (∀ fuel, Buf.length / 9 < fuel →
      parseFileLoop fuel (NtCodeParser.ofBuffer Buf) true
        = parseFile (NtCodeParser.ofBuffer Buf)) ∧
    (∀ P S P1, consumeNextSection P = (some S, P1) →
      P1.SPBuf.length + 9 ≤ P.SPBuf.length) ∧
    (sections Buf).length ≤ Buf.length / 9 ∧
    (outcomes Buf).length = (sections Buf).length ∧
    sections "<tr></tr><tr></tr>".toList = ["<tr>".toList, "<tr>".toList] ∧
    "<tr></tr><tr></tr>".toList.length / 9 = 2 := by
  refine ⟨?_, ?_, fun P S P1 h => consumeNextSection_shorter P P1 S h, ?_,
    outcomesFrom_length _ _, by decide, by decide⟩
  · rw [parseFile_eq]
    exact ⟨_, _, rfl⟩
  · intro fuel hfuel
    apply parseFileLoop_fuel
    · exact hfuel
    · show Buf.length / 9 < Buf.length + 1
      omega
  · have := sectionsLoop_length (Buf.length + 1) Buf
    unfold sections
    omega

/-! ## Where the search for the message begins -/

theorem fieldsAfter_open_in_name (Ctx : StatusCtx) (Code : Nat)
    (gap1 N1 N2 tail : StringRef)
    (hgap1 : ¬ "<p>".toList <:+: gap1) (hN1 : ¬ "<p>".toList <:+: N1)
    (hN : ¬ "</p>".toList <:+: N1 ++ ("<p>".toList ++ N2)) :
    fieldsAfter Ctx Code
        ("</p>".toList ++ (gap1 ++ ("<p>".toList ++ ((N1 ++ ("<p>".toList ++ N2))
          ++ ("</p>".toList ++ tail)))))
      = some (Ctx.Group,
          { Code := Code, SG := Ctx.SG,
            Name := (StringRef.consume_front (N1 ++ ("<p>".toList ++ N2)) "STATUS_".toList).2,
            Message := N2 }) := by
  have hN2 : ¬ "</p>".toList <:+: N2 := by
    intro h
    apply hN
    have hs : N2 <:+ N1 ++ ("<p>".toList ++ N2) := by
      rw [← List.append_assoc]
      exact List.suffix_append _ _
    exact h.trans hs.isInfix
  have hne : N1 ++ ("<p>".toList ++ N2) ≠ [] := by
    intro h
    have := congrArg List.length h
    simp at this
  unfold fieldsAfter
  rw [FindAndConsume_close_open gap1 _ hgap1]
  dsimp only
  rw [find_close_first _ _ hN]
  dsimp only
  rw [consume_front_close _ _ hN, if_neg hne]
  have hopen : FindAndConsume
      ((N1 ++ ("<p>".toList ++ N2)) ++ ("</p>".toList ++ tail)) "<p>".toList
      = (true, N2 ++ ("</p>".toList ++ tail)) := by
    have e : (N1 ++ ("<p>".toList ++ N2)) ++ ("</p>".toList ++ tail)
        = N1 ++ ("<p>".toList ++ (N2 ++ ("</p>".toList ++ tail))) := by
      simp only [List.append_assoc]
    rw [e]
    exact FindAndConsume_open N1 _ hN1
  rw [hopen]
  dsimp only
  rw [find_close_first N2 _ hN2]
  dsimp only
  have htakeN : StringRef.take_front
      ((N1 ++ ("<p>".toList ++ N2)) ++ ("</p>".toList ++ tail))
      (N1 ++ ("<p>".toList ++ N2)).length = N1 ++ ("<p>".toList ++ N2) := by
    unfold StringRef.take_front
    exact List.take_left _ _
  have htakeM : StringRef.take_front (N2 ++ ("</p>".toList ++ tail)) N2.length = N2 := by
    unfold StringRef.take_front
    exact List.take_left _ _
  rw [htakeN, htakeM]

/-- C21 fails on the code: for a slice whose name text is `N1<p>N2`, with no
`<p>` in `N1` and no `</p>` in the whole name text, `parseSection` searches
the message's `<p>` from the start of the name text, since `consume_front` of
`</p>` leaves a cursor that has not been moved past the name as it is; the
name is the whole text `N1<p>N2` (less one leading `STATUS_`) and the message
is `N2`, the end of the name text, whatever follows the name's `</p>`. -/
theorem message_search_from_name_start (P : NtCodeParser)
    (pre Pfx HEX gap1 N1 N2 tail : StringRef)
    (hpre : ¬ "<p>".toList <:+: pre) (hgap1 : ¬ "<p>".toList <:+: gap1)
    (hN1 : ¬ "<p>".toList <:+: N1)
    (hN : ¬ "</p>".toList <:+: N1 ++ ("<p>".toList ++ N2))
    (hPfx : Pfx = [] ∨ Pfx = "0x".toList)
    (hHEX : HEX ≠ [] ∧ ∀ c ∈ HEX, isHexDigit c = true)
    (hval : hexValue HEX < 2 ^ 32)
    (hfresh : hexValue HEX ∉ P.parsedValues)
    (hknown : (hexValue HEX) / 2 ^ 12 % 2 ^ 16 ∈ knownFacilities) :
    parseSection P
        (pre ++ "<p>".toList ++ Pfx ++ HEX ++ "</p>".toList ++ gap1 ++ "<p>".toList ++ N1
          ++ "<p>".toList ++ N2 ++ "</p>".toList ++ tail)
      = (some ((hexValue HEX) / 2 ^ 28,
            { Code := (hexValue HEX) % 2 ^ 12, SG := (hexValue HEX) / 2 ^ 12 % 2 ^ 16,
              Name := (StringRef.consume_front (N1 ++ ("<p>".toList ++ N2))
                "STATUS_".toList).2,
              Message := N2 }),
          { P with parsedValues := hexValue HEX :: P.parsedValues }) ∧
    N2 <:+ N1 ++ ("<p>".toList ++ N2) := by
  refine ⟨?_, by rw [← List.append_assoc]; exact List.suffix_append _ _⟩
  have hrest := codeFieldRest_well_formed pre Pfx HEX
    (gap1 ++ ("<p>".toList ++ ((N1 ++ ("<p>".toList ++ N2)) ++ ("</p>".toList ++ tail))))
    hpre hPfx hHEX.1 hHEX.2 hval
  have hS : pre ++ "<p>".toList ++ Pfx ++ HEX ++ "</p>".toList ++ gap1 ++ "<p>".toList ++ N1
      ++ "<p>".toList ++ N2 ++ "</p>".toList ++ tail
      = pre ++ ("<p>".toList ++ (Pfx ++ (HEX ++ ("</p>".toList ++ (gap1 ++ ("<p>".toList
        ++ ((N1 ++ ("<p>".toList ++ N2)) ++ ("</p>".toList ++ tail)))))))) := by
    simp only [List.append_assoc]
  rw [hS, parseSection_by_rest P _ _ _ hrest hfresh, ConsumeStatusCtx_eq]
  dsimp only
  have hfacility : (GetSubgroupPrefix (hexValue HEX / 2 ^ 12 % 2 ^ 16)).isEmpty = false := by
    cases hg : GetSubgroupPrefix (hexValue HEX / 2 ^ 12 % 2 ^ 16) with
    | nil => exact absurd hg ((GetSubgroupPrefix_ne_nil_iff _).2 hknown)
    | cons c cs => rfl
  rw [hfacility]
  simp only [Bool.false_eq_true, if_false]
  rw [fieldsAfter_open_in_name _ _ gap1 N1 N2 tail hgap1 hN1 hN]
  have e : hexValue HEX / 2 ^ 28 % 2 ^ 4 = hexValue HEX / 2 ^ 28 := by omega
  simp only [e]

set_option maxRecDepth 1000000 in
theorem message_search_from_name_start_witness :
    (parseSection (NtCodeParser.ofBuffer []) openInNameSlice
      = (some ((hexValue "C0000005".toList) / 2 ^ 28,
            { Code := (hexValue "C0000005".toList) % 2 ^ 12,
              SG := (hexValue "C0000005".toList) / 2 ^ 12 % 2 ^ 16,
              Name := (StringRef.consume_front
                ("STATUS_ACCESS".toList ++ ("<p>".toList ++ "VIOLATION".toList))
                "STATUS_".toList).2,
              Message := "VIOLATION".toList }),
          { NtCodeParser.ofBuffer [] with
            parsedValues :=
              hexValue "C0000005".toList :: (NtCodeParser.ofBuffer []).parsedValues }) ∧
      "VIOLATION".toList
        <:+ "STATUS_ACCESS".toList ++ ("<p>".toList ++ "VIOLATION".toList)) ∧
    sections openInNameBuffer = [openInNameSlice] ∧
    parseFile (NtCodeParser.ofBuffer openInNameBuffer)
      = some (true,
          { SPBuf := [], didParseSuccessfully := true, parsedValues := [0xC0000005],
            hadDuplicate := false, successes := [], infos := [], warnings := [],
            errors := [{ Code := 5, SG := Subgroup.STATUS,
                         Name := "ACCESS<p>VIOLATION".toList,
                         Message := "VIOLATION".toList }] }) :=
  ⟨message_search_from_name_start (NtCodeParser.ofBuffer []) "<tr>".toList "0x".toList
      "C0000005".toList "".toList "STATUS_ACCESS".toList "VIOLATION".toList
      "<p>The instruction referenced invalid memory.</p>".toList
      ((find_eq_none_iff _ _).1 (by decide)) ((find_eq_none_iff _ _).1 (by decide))
      ((find_eq_none_iff _ _).1 (by decide)) ((find_eq_none_iff _ _).1 (by decide))
      (Or.inr rfl) ⟨by decide, by decide⟩ (by decide) (by decide) (by decide),
    by decide, by decide⟩

/-! ## Dispatch keys -/

theorem MergeStatusAndCode_add (C : NtStatus) (h1 : C.SG < 2 ^ 16) (h2 : C.Code < 2 ^ 12) :
    MergeStatusAndCode C = C.SG * 2 ^ 12 + C.Code := by
  have hp := pack_eq 0 C.SG C.Code h1 h2
  have e : pack 0 C.SG C.Code = (C.SG <<< 12) ||| C.Code := by
    simp [pack]
  rw [MergeStatusAndCode_eq C h1, ← e, hp]
  omega

theorem pack_MergeStatusAndCode (G : StatusGroup) (C : NtStatus)
    (h1 : C.SG < 2 ^ 16) (h2 : C.Code < 2 ^ 12) :
    pack G C.SG C.Code = G * 2 ^ 28 + MergeStatusAndCode C := by
  rw [pack_eq G C.SG C.Code h1 h2, MergeStatusAndCode_add C h1 h2]
  omega

theorem acceptedWith_cons (G : StatusGroup) (e : StringRef × Outcome)
    (Log : List (StringRef × Outcome)) :
    acceptedWith G (e :: Log) = acceptedWith G [e] ++ acceptedWith G Log := by
  unfold acceptedWith
  rw [← List.filterMap_append]
  rfl

theorem accepted_raw_fresh (L : List StringRef) (St : NtCodeParser × Bool)
    (hd : St.1.hadDuplicate = false) (G : StatusGroup) :
    ((acceptedWith G (outcomesFrom St L)).map fun C => pack G C.SG C.Code).Nodup ∧
    ∀ C ∈ acceptedWith G (outcomesFrom St L),
      pack G C.SG C.Code ∉ St.1.parsedValues ∧ C.SG < 2 ^ 16 ∧ C.Code < 2 ^ 12 := by
  induction L generalizing St with
  | nil => simp [outcomesFrom, acceptedWith]
  | cons S L ih =>
    obtain ⟨P, b⟩ := St
    have hd2 := step_hadDuplicate P b S hd
    obtain ⟨ih1, ih2⟩ := ih (processSection (P, b) S) hd2
    have hmono : ∀ w, w ∈ P.parsedValues → w ∈ (processSection (P, b) S).1.parsedValues :=
      fun w hw => (step_parsedValues P b S hd w).2 (Or.inl hw)
    have hrest : ∀ C ∈ acceptedWith G (outcomesFrom (processSection (P, b) S) L),
        pack G C.SG C.Code ∉ P.parsedValues ∧ C.SG < 2 ^ 16 ∧ C.Code < 2 ^ 12 :=
      fun C hC => ⟨fun hin => (ih2 C hC).1 (hmono _ hin), (ih2 C hC).2⟩
    rw [outcomesFrom, acceptedWith_cons]
    by_cases hacc : ∃ C, sectionOutcome P S = Outcome.Accepted G C
    · obtain ⟨C, ho⟩ := hacc
      obtain ⟨v, hcode, hfresh, hv, hG, -, -, hSG, hCode⟩ := step_accepted P S G C hd ho
      have hone : acceptedWith G [(S, sectionOutcome P S)] = [C] := by
        show acceptedWith G [(S, sectionOutcome (P, b).1 S)] = [C]
        simp [acceptedWith, ho]
      have hraw : pack G C.SG C.Code = v := by
        rw [hSG, hCode, hG]
        exact pack_fields v hv
      have hlt1 : C.SG < 2 ^ 16 := by
        rw [hSG]
        exact Nat.mod_lt _ (by decide)
      have hlt2 : C.Code < 2 ^ 12 := by
        rw [hCode]
        exact Nat.mod_lt _ (by decide)
      have hin : v ∈ (processSection (P, b) S).1.parsedValues :=
        (step_parsedValues P b S hd v).2 (Or.inr hcode)
      rw [hone]
      constructor
      · rw [List.singleton_append, List.map_cons, List.nodup_cons]
        refine ⟨?_, ih1⟩
        intro hmem
        obtain ⟨C2, hC2, he⟩ := List.mem_map.1 hmem
        apply (ih2 C2 hC2).1
        rw [he, hraw]
        exact hin
      · intro C1 hC1
        rcases List.mem_append.1 hC1 with h | h
        · rw [List.mem_singleton] at h
          subst h
          exact ⟨by rw [hraw]; exact hfresh, hlt1, hlt2⟩
        · exact hrest C1 h
    · have hone : acceptedWith G [(S, sectionOutcome P S)] = [] := by
        cases ho : sectionOutcome P S with
        | Accepted G1 C1 =>
          by_cases hG : G1 = G
          · subst hG
            exact absurd ⟨C1, ho⟩ hacc
          · simp [acceptedWith, hG]
        | DuplicateSkipped => simp [acceptedWith]
        | Rejected => simp [acceptedWith]
      have hone2 : acceptedWith G [(S, sectionOutcome (P, b).1 S)] = [] := hone
      rw [hone2, List.nil_append]
      exact ⟨ih1, hrest⟩

theorem accepted_keys_nodup (L : List StringRef) (St : NtCodeParser × Bool)
    (hd : St.1.hadDuplicate = false) (G : StatusGroup) :
    ((acceptedWith G (outcomesFrom St L)).map MergeStatusAndCode).Nodup := by
  obtain ⟨h1, h2⟩ := accepted_raw_fresh L St hd G
  have e : (acceptedWith G (outcomesFrom St L)).map (fun C => pack G C.SG C.Code)
      = ((acceptedWith G (outcomesFrom St L)).map MergeStatusAndCode).map
          fun k => G * 2 ^ 28 + k := by
    rw [List.map_map]
    apply List.map_congr_left
    intro C hC
    exact pack_MergeStatusAndCode G C (h2 C hC).2.1 (h2 C hC).2.2
  rw [e] at h1
  exact List.Nodup.of_map _ h1

theorem hexDigitValue_digitChar (m : Nat) (h : m < 16) :
    hexDigitValue (Nat.digitChar m).toUpper = m := by
  interval_cases m <;> decide

theorem hexValueFrom_append (xs ys : List Char) (acc : Nat) :
    hexValueFrom acc (xs ++ ys) = hexValueFrom (hexValueFrom acc xs) ys := by
  induction xs generalizing acc with
  | nil => rfl
  | cons x xs ih => exact ih _

theorem hexValueFrom_zeros (k : Nat) (D : List Char) :
    hexValueFrom 0 (List.replicate k '0' ++ D) = hexValueFrom 0 D := by
  induction k with
  | zero => rfl
  | succ k ih =>
    rw [List.replicate_succ, List.cons_append, hexValueFrom]
    exact ih

theorem hexValueFrom_toDigitsCore (fuel n : Nat) (ds : List Char) (h : n < fuel) :
    hexValueFrom 0 ((Nat.toDigitsCore 16 fuel n ds).map Char.toUpper)
      = hexValueFrom n (ds.map Char.toUpper) := by
  induction fuel generalizing n ds with
  | zero => exact absurd h (Nat.not_lt_zero _)
  | succ fuel ih =>
    rw [Nat.toDigitsCore]
    have hd := hexDigitValue_digitChar (n % 16) (Nat.mod_lt _ (by decide))
    by_cases h0 : n / 16 = 0
    · rw [if_pos h0, List.map_cons, hexValueFrom, hd]
      congr 1
      omega
    · rw [if_neg h0, ih (n / 16) _ (by omega), List.map_cons, hexValueFrom, hd]
      congr 1
      omega

theorem hexValue_format_hex (N Width : Nat) :
    hexValue ((format_hex N Width).drop 2) = N := by
  unfold format_hex hexValue
  have e : List.drop 2 ("0x".toList
      ++ List.replicate (Width - 2 - ((Nat.toDigits 16 N).map Char.toUpper).length) '0'
      ++ (Nat.toDigits 16 N).map Char.toUpper)
      = List.replicate (Width - 2 - ((Nat.toDigits 16 N).map Char.toUpper).length) '0'
        ++ (Nat.toDigits 16 N).map Char.toUpper := rfl
  rw [e, hexValueFrom_zeros]
  unfold Nat.toDigits
  rw [hexValueFrom_toDigitsCore (N + 1) N [] (Nat.lt_succ_self _)]
  rfl

theorem format_hex_injective (Width : Nat) :
    Function.Injective fun N => format_hex N Width := by
  intro a b h
  have := congrArg (fun t => hexValue (List.drop 2 t)) h
  simp only [hexValue_format_hex] at this
  exact this

/-- C22: `parseFile` returns on every buffer, and in the parser it leaves, for
every severity, the merged keys `(SG << 12) | Code` of the records of the
bucket are pairwise different, by position and so for any two different
records, and so are the key texts that the `case` branches print; every
stored record comes from a slice accepted with that severity, and its merged
key is the raw value of the slice without its top 4 bits. -/
theorem dispatch_keys_unique (Buf : StringRef) :
    ∃ b P, parseFile (NtCodeParser.ofBuffer Buf) = some (b, P) ∧
      ∀ G : StatusGroup,
        ((bucketOf P G).map MergeStatusAndCode).Nodup ∧
        ((bucketOf P G).map FormatMergedCode).Nodup ∧
        (∀ C1 ∈ bucketOf P G, ∀ C2 ∈ bucketOf P G, C1 ≠ C2 →
          MergeStatusAndCode C1 ≠ MergeStatusAndCode C2) ∧
        (∀ C ∈ bucketOf P G, ∃ S v, (S, Outcome.Accepted G C) ∈ outcomes Buf ∧
          codeField S = some v ∧ v < 2 ^ 32 ∧ severityOf v = G ∧
          MergeStatusAndCode C = v % 2 ^ 28 ∧
          v = G * 2 ^ 28 + MergeStatusAndCode C) := by
  have hpf : parseFile (NtCodeParser.ofBuffer Buf)
      = some (finish ((sections Buf).foldl processSection (NtCodeParser.ofBuffer Buf, true))
          (scanRest Buf)) := parseFile_eq _
  refine ⟨(finish ((sections Buf).foldl processSection (NtCodeParser.ofBuffer Buf, true))
      (scanRest Buf)).1,
    (finish ((sections Buf).foldl processSection (NtCodeParser.ofBuffer Buf, true))
      (scanRest Buf)).2, hpf, ?_⟩
  intro G
  have hd : (NtCodeParser.ofBuffer Buf, true).1.hadDuplicate = false := rfl
  by_cases hG : validSeverity G
  · have hb : bucketOf (finish ((sections Buf).foldl processSection
        (NtCodeParser.ofBuffer Buf, true)) (scanRest Buf)).2 G
        = acceptedWith G (outcomes Buf) := by
      rw [bucketOf_finish, run_bucket _ _ hd G hG, bucketOf_ofBuffer, List.nil_append]
      rfl
    rw [hb]
    have hkeys : ((acceptedWith G (outcomes Buf)).map MergeStatusAndCode).Nodup :=
      accepted_keys_nodup (sections Buf) _ hd G
    refine ⟨hkeys, ?_, ?_, ?_⟩
    · have e : (acceptedWith G (outcomes Buf)).map FormatMergedCode
          = ((acceptedWith G (outcomes Buf)).map MergeStatusAndCode).map
              fun N => format_hex N 8 := by
        rw [List.map_map]
        rfl
      rw [e]
      exact List.Nodup.map (format_hex_injective 8) hkeys
    · intro C1 h1 C2 h2 hne heq
      exact hne (List.inj_on_of_nodup_map hkeys h1 h2 heq)
    · intro C hC
      obtain ⟨S, hS⟩ := acceptedWith_mem _ G C hC
      obtain ⟨v, hcode, hv, hGv, -, -, hSG, hCode⟩ :=
        outcomesFrom_accepted (sections Buf) _ hd S G C hS
      have hlt1 : C.SG < 2 ^ 16 := by
        rw [hSG]
        exact Nat.mod_lt _ (by decide)
      have hlt2 : C.Code < 2 ^ 12 := by
        rw [hCode]
        exact Nat.mod_lt _ (by decide)
      have hkey : MergeStatusAndCode C = v / 2 ^ 12 % 2 ^ 16 * 2 ^ 12 + v % 2 ^ 12 := by
        rw [MergeStatusAndCode_add C hlt1 hlt2, hSG, hCode]
        rfl
      have hsev : G = v / 2 ^ 28 % 2 ^ 4 := hGv
      have e1 : v / 2 ^ 12 % 2 ^ 16 * 2 ^ 12 + v % 2 ^ 12 = v % 2 ^ 28 := by omega
      have e2 : v = v / 2 ^ 28 % 2 ^ 4 * 2 ^ 28 + v % 2 ^ 28 := by omega
      refine ⟨S, v, hS, hcode, hv, hGv.symm, hkey.trans e1, ?_⟩
      rw [hkey, e1, hsev]
      exact e2
  · have hb : bucketOf (finish ((sections Buf).foldl processSection
        (NtCodeParser.ofBuffer Buf, true)) (scanRest Buf)).2 G
        = [] := bucketOf_invalid _ G hG
    rw [hb]
    simp

/-! ## A name field without a message field behind it -/

theorem messageNotFound_of_missing (R : StringRef) (h : missingMessage R)
    (hname : nameWithoutOpen R) : messageNotFound R := by
  obtain ⟨o, e, ho, he, hT⟩ := h
  have hN := hname o e ho he
  obtain ⟨hsplit, hlen, -⟩ := find_eq_some _ _ _ he
  have h4 : "</p>".toList.length = 4 := rfl
  rw [h4] at hsplit hlen
  have hNlen : (List.take e (List.drop (o + 3) R)).length = e := by
    rw [List.length_take]
    omega
  have hclose : "</p>".toList <:+: List.drop (o + 3) R := by
    by_contra hno
    rw [(find_eq_none_iff _ _).2 hno] at he
    cases he
  have hfind : StringRef.find (List.drop (o + 3) R) "<p>".toList
      = (StringRef.find (List.drop (e + 4) (List.drop (o + 3) R)) "<p>".toList).map
          (· + 4 + e) := by
    conv_lhs => rw [hsplit]
    have hskip := find_skip_open (List.take e (List.drop (o + 3) R))
      ('/' :: 'p' :: '>' :: List.drop (e + 4) (List.drop (o + 3) R)) hN
    have hafter := find_open_after_close (List.drop (e + 4) (List.drop (o + 3) R))
    have e1 : List.take e (List.drop (o + 3) R) ++ "</p>".toList
        ++ List.drop (e + 4) (List.drop (o + 3) R)
        = List.take e (List.drop (o + 3) R)
          ++ '<' :: '/' :: 'p' :: '>' :: List.drop (e + 4) (List.drop (o + 3) R) := by
      simp
    have e2 : '<' :: '/' :: 'p' :: '>' :: List.drop (e + 4) (List.drop (o + 3) R)
        = "</p>".toList ++ List.drop (e + 4) (List.drop (o + 3) R) := rfl
    rw [e1, hskip, e2, hafter, hNlen, Option.map_map]
    rfl
  refine ⟨o, ho, hclose, ?_⟩
  rcases hT with hT | ⟨o3, ho3, hT⟩
  · left
    rw [← find_eq_none_iff, hfind, (find_eq_none_iff _ _).2 hT]
    rfl
  · right
    refine ⟨o3 + 4 + e, ?_, ?_⟩
    · rw [hfind, ho3]
      rfl
    · have hd : List.drop (o3 + 4 + e + 3) (List.drop (o + 3) R)
          = List.drop (o3 + 3) (List.drop (e + 4) (List.drop (o + 3) R)) := by
        generalize List.drop (o + 3) R = S2
        rw [List.drop_drop]
        congr 1
        omega
      rw [hd]
      exact hT

theorem missing_fields_rejected (P : NtCodeParser) (S R : StringRef) (v : Nat)
    (hcode : codeFieldRest S = some (v, R)) (hv : v ∉ P.parsedValues)
    (hmissing : missingName R ∨ (missingMessage R ∧ nameWithoutOpen R)) :
    parseSection P S = (none, { P with parsedValues := v :: P.parsedValues }) := by
  apply parseSection_missing P S R v hcode hv
  rcases hmissing with h | ⟨h1, h2⟩
  · exact Or.inl h
  · exact Or.inr (messageNotFound_of_missing R h1 h2)

theorem parseSection_open_in_name (P : NtCodeParser)
    (pre Pfx HEX gap1 N1 N2 tail : StringRef)
    (hpre : ¬ "<p>".toList <:+: pre) (hgap1 : ¬ "<p>".toList <:+: gap1)
    (hN1 : ¬ "<p>".toList <:+: N1)
    (hN : ¬ "</p>".toList <:+: N1 ++ ("<p>".toList ++ N2))
    (hPfx : Pfx = [] ∨ Pfx = "0x".toList)
    (hHEX : HEX ≠ [] ∧ ∀ c ∈ HEX, isHexDigit c = true)
    (hval : hexValue HEX < 2 ^ 32)
    (hfresh : hexValue HEX ∉ P.parsedValues)
    (hknown : (hexValue HEX) / 2 ^ 12 % 2 ^ 16 ∈ knownFacilities) :
    codeFieldRest
        (pre ++ "<p>".toList ++ Pfx ++ HEX ++ "</p>".toList ++ gap1 ++ "<p>".toList ++ N1
          ++ "<p>".toList ++ N2 ++ "</p>".toList ++ tail)
      = some (hexValue HEX,
          "</p>".toList ++ (gap1 ++ ("<p>".toList ++ ((N1 ++ ("<p>".toList ++ N2))
            ++ ("</p>".toList ++ tail))))) ∧
    parseSection P
        (pre ++ "<p>".toList ++ Pfx ++ HEX ++ "</p>".toList ++ gap1 ++ "<p>".toList ++ N1
          ++ "<p>".toList ++ N2 ++ "</p>".toList ++ tail)
      = (some ((hexValue HEX) / 2 ^ 28,
            { Code := (hexValue HEX) % 2 ^ 12, SG := (hexValue HEX) / 2 ^ 12 % 2 ^ 16,
              Name := (StringRef.consume_front (N1 ++ ("<p>".toList ++ N2))
                "STATUS_".toList).2,
              Message := N2 }),
          { P with parsedValues := hexValue HEX :: P.parsedValues }) := by
  have hrest := codeFieldRest_well_formed pre Pfx HEX
    (gap1 ++ ("<p>".toList ++ ((N1 ++ ("<p>".toList ++ N2)) ++ ("</p>".toList ++ tail))))
    hpre hPfx hHEX.1 hHEX.2 hval
  have hS : pre ++ "<p>".toList ++ Pfx ++ HEX ++ "</p>".toList ++ gap1 ++ "<p>".toList ++ N1
      ++ "<p>".toList ++ N2 ++ "</p>".toList ++ tail
      = pre ++ ("<p>".toList ++ (Pfx ++ (HEX ++ ("</p>".toList ++ (gap1 ++ ("<p>".toList
        ++ ((N1 ++ ("<p>".toList ++ N2)) ++ ("</p>".toList ++ tail)))))))) := by
    simp only [List.append_assoc]
  rw [hS]
  refine ⟨hrest, ?_⟩
  rw [parseSection_by_rest P _ _ _ hrest hfresh, ConsumeStatusCtx_eq]
  dsimp only
  have hfacility : (GetSubgroupPrefix (hexValue HEX / 2 ^ 12 % 2 ^ 16)).isEmpty = false := by
    cases hg : GetSubgroupPrefix (hexValue HEX / 2 ^ 12 % 2 ^ 16) with
    | nil => exact absurd hg ((GetSubgroupPrefix_ne_nil_iff _).2 hknown)
    | cons c cs => rfl
  rw [hfacility]
  simp only [Bool.false_eq_true, if_false]
  rw [fieldsAfter_open_in_name _ _ gap1 N1 N2 tail hgap1 hN1 hN]
  have e : hexValue HEX / 2 ^ 28 % 2 ^ 4 = hexValue HEX / 2 ^ 28 := by omega
  simp only [e]

theorem missingMessage_open_in_name (gap1 N tail : StringRef)
    (hgap1 : ¬ "<p>".toList <:+: gap1) (hN : ¬ "</p>".toList <:+: N)
    (htail : ¬ "<p>".toList <:+: tail) :
    missingMessage ("</p>".toList ++ (gap1 ++ ("<p>".toList ++ (N ++ ("</p>".toList ++ tail))))) := by
  have h3 : "<p>".toList.length = 3 := rfl
  have h4 : "</p>".toList.length = 4 := rfl
  have hfind : StringRef.find
      ("</p>".toList ++ (gap1 ++ ("<p>".toList ++ (N ++ ("</p>".toList ++ tail)))))
      "<p>".toList = some (gap1.length + 4) := by
    rw [find_open_after_close, find_open_first gap1 _ hgap1]
    rfl
  have hdrop : List.drop (gap1.length + 4 + 3)
      ("</p>".toList ++ (gap1 ++ ("<p>".toList ++ (N ++ ("</p>".toList ++ tail)))))
      = N ++ ("</p>".toList ++ tail) := by
    have e : "</p>".toList ++ (gap1 ++ ("<p>".toList ++ (N ++ ("</p>".toList ++ tail))))
        = ("</p>".toList ++ (gap1 ++ "<p>".toList)) ++ (N ++ ("</p>".toList ++ tail)) := by
      simp only [List.append_assoc]
    rw [e]
    apply List.drop_left'
    simp only [List.length_append, h3, h4]
    omega
  have hdrop2 : List.drop (N.length + 4) (N ++ ("</p>".toList ++ tail)) = tail := by
    have e : N ++ ("</p>".toList ++ tail) = (N ++ "</p>".toList) ++ tail := by
      simp only [List.append_assoc]
    rw [e]
    apply List.drop_left'
    simp only [List.length_append, h4]
  refine ⟨gap1.length + 4, N.length, hfind, ?_, Or.inl ?_⟩
  · rw [hdrop]
    exact find_close_first N tail hN
  · rw [hdrop, hdrop2]
    exact htail

/-- C13 fails on the code for a slice with a code field and a name field and
no message field when the name text is `N1<p>N2`: the raw value is new and has
a known facility, the text behind the name's `</p>` holds no `<p>`, so the
slice has no third pair, and yet `parseSection` does not reject it: it takes
the `<p>` inside the name text for the message's marker, since the cursor is
not moved past the name, and returns a record whose message is `N2`. -/
theorem missing_message_stored (P : NtCodeParser)
    (pre Pfx HEX gap1 N1 N2 tail : StringRef)
    (hpre : ¬ "<p>".toList <:+: pre) (hgap1 : ¬ "<p>".toList <:+: gap1)
    (hN1 : ¬ "<p>".toList <:+: N1)
    (hN : ¬ "</p>".toList <:+: N1 ++ ("<p>".toList ++ N2))
    (htail : ¬ "<p>".toList <:+: tail)
    (hPfx : Pfx = [] ∨ Pfx = "0x".toList)
    (hHEX : HEX ≠ [] ∧ ∀ c ∈ HEX, isHexDigit c = true)
    (hval : hexValue HEX < 2 ^ 32)
    (hfresh : hexValue HEX ∉ P.parsedValues)
    (hknown : (hexValue HEX) / 2 ^ 12 % 2 ^ 16 ∈ knownFacilities) :
    ∃ R, codeFieldRest
        (pre ++ "<p>".toList ++ Pfx ++ HEX ++ "</p>".toList ++ gap1 ++ "<p>".toList ++ N1
          ++ "<p>".toList ++ N2 ++ "</p>".toList ++ tail) = some (hexValue HEX, R) ∧
      missingMessage R ∧ ¬ missingName R ∧ ¬ nameWithoutOpen R ∧
      parseSection P
          (pre ++ "<p>".toList ++ Pfx ++ HEX ++ "</p>".toList ++ gap1 ++ "<p>".toList ++ N1
            ++ "<p>".toList ++ N2 ++ "</p>".toList ++ tail)
        = (some ((hexValue HEX) / 2 ^ 28,
              { Code := (hexValue HEX) % 2 ^ 12, SG := (hexValue HEX) / 2 ^ 12 % 2 ^ 16,
                Name := (StringRef.consume_front (N1 ++ ("<p>".toList ++ N2))
                  "STATUS_".toList).2,
                Message := N2 }),
            { P with parsedValues := hexValue HEX :: P.parsedValues }) := by
  obtain ⟨hrest, hparse⟩ := parseSection_open_in_name P pre Pfx HEX gap1 N1 N2 tail
    hpre hgap1 hN1 hN hPfx hHEX hval hfresh hknown
  have hmiss := missingMessage_open_in_name gap1 (N1 ++ ("<p>".toList ++ N2)) tail
    hgap1 hN htail
  refine ⟨_, hrest, hmiss, ?_, ?_, hparse⟩
  · intro hname
    have hnone := parseSection_missing P _ _ _ hrest hfresh (Or.inl hname)
    rw [hparse] at hnone
    cases hnone
  · intro hname
    have hnone := missing_fields_rejected P _ _ _ hrest hfresh (Or.inr ⟨hmiss, hname⟩)
    rw [hparse] at hnone
    cases hnone

set_option maxRecDepth 1000000 in
theorem missing_message_stored_witness :
    (∃ R, codeFieldRest noThirdPairSlice = some (hexValue "C0000005".toList, R) ∧
      missingMessage R ∧ ¬ missingName R ∧ ¬ nameWithoutOpen R ∧
      parseSection (NtCodeParser.ofBuffer []) noThirdPairSlice
        = (some ((hexValue "C0000005".toList) / 2 ^ 28,
              { Code := (hexValue "C0000005".toList) % 2 ^ 12,
                SG := (hexValue "C0000005".toList) / 2 ^ 12 % 2 ^ 16,
                Name := (StringRef.consume_front
                  ("STATUS_ACCESS".toList ++ ("<p>".toList ++ "VIOLATION".toList))
                  "STATUS_".toList).2,
                Message := "VIOLATION".toList }),
            { NtCodeParser.ofBuffer [] with
              parsedValues :=
                hexValue "C0000005".toList :: (NtCodeParser.ofBuffer []).parsedValues })) ∧
    noThirdPairSlice = "<tr><p>0xC0000005</p><p>STATUS_ACCESS<p>VIOLATION</p>".toList ∧
    sections noThirdPairBuffer = [noThirdPairSlice] ∧
    outcomes noThirdPairBuffer
      = [(noThirdPairSlice, Outcome.Accepted StatusGroup.ERROR
          { Code := 5, SG := Subgroup.STATUS, Name := "ACCESS<p>VIOLATION".toList,
            Message := "VIOLATION".toList })] ∧
    parseFile (NtCodeParser.ofBuffer noThirdPairBuffer)
      = some (true,
          { SPBuf := [], didParseSuccessfully := true, parsedValues := [0xC0000005],
            hadDuplicate := false, successes := [], infos := [], warnings := [],
            errors := [{ Code := 5, SG := Subgroup.STATUS,
                         Name := "ACCESS<p>VIOLATION".toList,
                         Message := "VIOLATION".toList }] }) :=
  ⟨missing_message_stored (NtCodeParser.ofBuffer []) "<tr>".toList "0x".toList
      "C0000005".toList "".toList "STATUS_ACCESS".toList "VIOLATION".toList "".toList
      ((find_eq_none_iff _ _).1 (by decide)) ((find_eq_none_iff _ _).1 (by decide))
      ((find_eq_none_iff _ _).1 (by decide)) ((find_eq_none_iff _ _).1 (by decide))
      ((find_eq_none_iff _ _).1 (by decide))
      (Or.inr rfl) ⟨by decide, by decide⟩ (by decide) (by decide) (by decide),
    by decide, by decide, by decide, by decide⟩

end NtCode
